import Mathlib

/-!
Verification of the quizx stabiliser-decomposition engine
(`src/quizx/src/decompose.rs`).

The decomposition engine itself (`Decomposer` and its operations) is
translated directly from the Rust source.  The diagram type, the exact
scalar ring and the simplification hook are external collaborators of
that file (they live in other crates/modules, not in the sources under
verification); they are modelled from the specification's boundary
contracts (spec sections 3 and 6), as noted on each such definition.
-/

namespace Quizx

/-- Modelled from the spec: coefficient quadruples of the exact scalar ring.
`Cyc α` is the ring `α[ω]` with `ω = exp(i·π/4)`, i.e. `α[X]/(X⁴+1)`:
an element `⟨a,b,c,d⟩` denotes `a + b·ω + c·ω² + d·ω³`. -/
structure Cyc (α : Type) where
  a : α
  b : α
  c : α
  d : α
deriving DecidableEq

namespace Cyc

variable {α : Type} [CommRing α]

omit [CommRing α] in
@[ext]
theorem ext {z w : Cyc α} (ha : z.a = w.a) (hb : z.b = w.b)
    (hc : z.c = w.c) (hd : z.d = w.d) : z = w := by
  cases z; cases w; simp_all

instance : Zero (Cyc α) := ⟨⟨0, 0, 0, 0⟩⟩

instance : One (Cyc α) := ⟨⟨1, 0, 0, 0⟩⟩

instance : Add (Cyc α) := ⟨fun z w => ⟨z.a + w.a, z.b + w.b, z.c + w.c, z.d + w.d⟩⟩

instance : Neg (Cyc α) := ⟨fun z => ⟨-z.a, -z.b, -z.c, -z.d⟩⟩

/-- Multiplication modulo `ω⁴ = -1`. -/
instance : Mul (Cyc α) :=
  ⟨fun z w =>
    ⟨z.a * w.a - z.b * w.d - z.c * w.c - z.d * w.b,
     z.a * w.b + z.b * w.a - z.c * w.d - z.d * w.c,
     z.a * w.c + z.b * w.b + z.c * w.a - z.d * w.d,
     z.a * w.d + z.b * w.c + z.c * w.b + z.d * w.a⟩⟩

@[simp] theorem zero_a : (0 : Cyc α).a = 0 := rfl
@[simp] theorem zero_b : (0 : Cyc α).b = 0 := rfl
@[simp] theorem zero_c : (0 : Cyc α).c = 0 := rfl
@[simp] theorem zero_d : (0 : Cyc α).d = 0 := rfl
@[simp] theorem one_a : (1 : Cyc α).a = 1 := rfl
@[simp] theorem one_b : (1 : Cyc α).b = 0 := rfl
@[simp] theorem one_c : (1 : Cyc α).c = 0 := rfl
@[simp] theorem one_d : (1 : Cyc α).d = 0 := rfl
@[simp] theorem add_a (z w : Cyc α) : (z + w).a = z.a + w.a := rfl
@[simp] theorem add_b (z w : Cyc α) : (z + w).b = z.b + w.b := rfl
@[simp] theorem add_c (z w : Cyc α) : (z + w).c = z.c + w.c := rfl
@[simp] theorem add_d (z w : Cyc α) : (z + w).d = z.d + w.d := rfl
@[simp] theorem neg_a (z : Cyc α) : (-z).a = -z.a := rfl
@[simp] theorem neg_b (z : Cyc α) : (-z).b = -z.b := rfl
@[simp] theorem neg_c (z : Cyc α) : (-z).c = -z.c := rfl
@[simp] theorem neg_d (z : Cyc α) : (-z).d = -z.d := rfl
@[simp] theorem mul_a (z w : Cyc α) :
    (z * w).a = z.a * w.a - z.b * w.d - z.c * w.c - z.d * w.b := rfl
@[simp] theorem mul_b (z w : Cyc α) :
    (z * w).b = z.a * w.b + z.b * w.a - z.c * w.d - z.d * w.c := rfl
@[simp] theorem mul_c (z w : Cyc α) :
    (z * w).c = z.a * w.c + z.b * w.b + z.c * w.a - z.d * w.d := rfl
@[simp] theorem mul_d (z w : Cyc α) :
    (z * w).d = z.a * w.d + z.b * w.c + z.c * w.b + z.d * w.a := rfl

instance : NatCast (Cyc α) := ⟨fun n => ⟨(n : α), 0, 0, 0⟩⟩

instance : IntCast (Cyc α) := ⟨fun n => ⟨(n : α), 0, 0, 0⟩⟩

@[simp] theorem natCast_a (n : ℕ) : ((n : Cyc α)).a = (n : α) := rfl
@[simp] theorem natCast_b (n : ℕ) : ((n : Cyc α)).b = 0 := rfl
@[simp] theorem natCast_c (n : ℕ) : ((n : Cyc α)).c = 0 := rfl
@[simp] theorem natCast_d (n : ℕ) : ((n : Cyc α)).d = 0 := rfl
@[simp] theorem ofNat_a (n : ℕ) [n.AtLeastTwo] :
    (OfNat.ofNat n : Cyc α).a = OfNat.ofNat n := rfl
@[simp] theorem ofNat_b (n : ℕ) [n.AtLeastTwo] :
    (OfNat.ofNat n : Cyc α).b = 0 := rfl
@[simp] theorem ofNat_c (n : ℕ) [n.AtLeastTwo] :
    (OfNat.ofNat n : Cyc α).c = 0 := rfl
@[simp] theorem ofNat_d (n : ℕ) [n.AtLeastTwo] :
    (OfNat.ofNat n : Cyc α).d = 0 := rfl
@[simp] theorem intCast_a (n : ℤ) : ((n : Cyc α)).a = (n : α) := rfl
@[simp] theorem intCast_b (n : ℤ) : ((n : Cyc α)).b = 0 := rfl
@[simp] theorem intCast_c (n : ℤ) : ((n : Cyc α)).c = 0 := rfl
@[simp] theorem intCast_d (n : ℤ) : ((n : Cyc α)).d = 0 := rfl

instance addCommGroup : AddCommGroup (Cyc α) := by
  refine
  { add := (· + ·)
    zero := (0 : Cyc α)
    sub := fun z w => z + -w
    neg := Neg.neg
    nsmul := @nsmulRec (Cyc α) ⟨0⟩ ⟨(· + ·)⟩
    zsmul := @zsmulRec (Cyc α) ⟨0⟩ ⟨(· + ·)⟩ ⟨Neg.neg⟩ (@nsmulRec (Cyc α) ⟨0⟩ ⟨(· + ·)⟩)
    add_assoc := ?_
    zero_add := ?_
    add_zero := ?_
    neg_add_cancel := ?_
    add_comm := ?_ } <;>
  intros <;>
  ext <;>
  simp [add_comm, add_left_comm]

instance commRing : CommRing (Cyc α) := by
  refine
  { Cyc.addCommGroup with
    mul := (· * ·)
    npow := @npowRec (Cyc α) ⟨1⟩ ⟨(· * ·)⟩
    one := (1 : Cyc α)
    natCast := fun n => (n : Cyc α)
    natCast_zero := by refine Cyc.ext ?_ ?_ ?_ ?_ <;> simp
    natCast_succ := fun n => by refine Cyc.ext ?_ ?_ ?_ ?_ <;> simp
    intCast := fun n => (n : Cyc α)
    intCast_ofNat := fun n => by refine Cyc.ext ?_ ?_ ?_ ?_ <;> simp
    intCast_negSucc := fun n => by
      refine Cyc.ext ?_ ?_ ?_ ?_ <;> simp [Int.negSucc_eq]
    left_distrib := ?_
    right_distrib := ?_
    zero_mul := ?_
    mul_zero := ?_
    mul_assoc := ?_
    one_mul := ?_
    mul_one := ?_
    mul_comm := ?_ } <;>
  intros <;>
  refine Cyc.ext ?_ ?_ ?_ ?_ <;>
  dsimp only <;>
  first
    | rfl
    | (simp [Int.negSucc_eq]; try ring)

/-- The generator `ω` of `Cyc α`. -/
def om : Cyc α := ⟨0, 1, 0, 0⟩

/-- Integer powers of `ω`, using `ω⁸ = 1` to interpret negative exponents. -/
def ompow (k : ℤ) : Cyc α := om ^ (k % 8).toNat

end Cyc

/-- Modelled from the spec: the exact scalar ring (external collaborator,
spec section 6).  Only the exact constructor is modelled; a value
`Exact pow coeffs` denotes `2^pow · (coeffs.a + coeffs.b·ω + coeffs.c·ω² +
coeffs.d·ω³)` with `ω = exp(i·π/4)`, matching the constants recorded in the
source's `bss_scalars` test. -/
inductive ScalarN where
  | Exact (pow : ℤ) (coeffs : Cyc ℤ)
deriving DecidableEq

namespace ScalarN

/-- Additive identity of the scalar ring. -/
def zero : ScalarN := Exact 0 0

/-- Multiplicative identity of the scalar ring. -/
def one : ScalarN := Exact 0 1

/-- Modelled from the spec: ring multiplication (powers of two add, coefficient
quadruples multiply in `ℤ[ω]`). -/
def mul : ScalarN → ScalarN → ScalarN
  | Exact p c, Exact q d => Exact (p + q) (c * d)

/-- Modelled from the spec: ring addition (rescale to the smaller power of two,
then add coefficients). -/
def add : ScalarN → ScalarN → ScalarN
  | Exact p c, Exact q d =>
    if p ≤ q then Exact p (c + (2 : Cyc ℤ) ^ (q - p).toNat * d)
    else Exact q ((2 : Cyc ℤ) ^ (p - q).toNat * c + d)

instance : Mul ScalarN := ⟨mul⟩
instance : Add ScalarN := ⟨add⟩
instance : Zero ScalarN := ⟨zero⟩
instance : One ScalarN := ⟨one⟩

/-- Modelled from the spec: construction from a rotation phase, giving
`exp(i·π·p)`; defined for phases whose denominator divides 4 (the only use in
the decomposition engine is at phase 1/4). -/
def from_phase (p : ℚ) : ScalarN :=
  Exact 0 (Cyc.ompow (p.num * ((4 : ℤ) / (p.den : ℤ))))

end ScalarN

/-- Proposition that an exact scalar denotes the number 1, stated inside
`ℤ[ω]` after clearing the power of two (multiplication by 2 is injective on
`ℤ[ω]`, so this is exactly `2^pow · coeffs = 1` as complex numbers). -/
def ScalarN.val_eq_one : ScalarN → Prop
  | ScalarN.Exact p c =>
    if 0 ≤ p then (2 : Cyc ℤ) ^ p.toNat * c = 1
    else c = (2 : Cyc ℤ) ^ (-p).toNat

instance ScalarN.val_eq_one.instDecidable :
    ∀ s : ScalarN, Decidable s.val_eq_one
  | ScalarN.Exact p c => by unfold ScalarN.val_eq_one; infer_instance

/-- Vertex identifiers of the external diagram type. -/
abbrev V := ℕ

/-- Modelled from the spec: vertex kinds of the diagram (spider vertices `Z`
and boundary vertices `B` are the kinds the decomposition engine touches). -/
inductive VType where
  | Z
  | B
deriving DecidableEq

/-- Modelled from the spec: the two mutually exclusive edge kinds of the
formalism — the fusing kind `N` and the Hadamard-like kind `H`. -/
inductive EType where
  | N
  | H
deriving DecidableEq

/-- Modelled from the spec: the data stored at one vertex — its kind and its
rational phase. -/
structure VData where
  ty : VType
  phase : ℚ
deriving DecidableEq

/-- Modelled from the spec: the external diagram type (spec sections 3 and 6).
A diagram is a typed graph: a vertex list in stable enumeration order with
per-vertex data, an edge list with typed edges, an attached scalar factor, and
a fresh-identifier counter for newly added vertices.  Cloning is implicit
(Lean values are immutable). -/
structure Graph where
  verts : List (V × VData)
  edges : List (V × V × EType)
  scalar : ScalarN
  fresh : V
deriving DecidableEq

namespace Graph

/-- Vertex identifiers in stable enumeration order. -/
def vertexIds (g : Graph) : List V := g.verts.map Prod.fst

/-- Modelled from the spec: `phase(v)` query of the diagram. -/
def phase (g : Graph) (v : V) : ℚ :=
  ((g.verts.find? (fun p => p.1 = v)).map (fun p => p.2.phase)).getD 0

/-- Modelled from the spec: `num_vertices()` query of the diagram. -/
def num_vertices (g : Graph) : ℕ := g.verts.length

/-- Modelled from the spec: the T-count of a diagram — the number of vertices
whose phase denominator equals 4 (odd multiples of π/4). -/
def tcount (g : Graph) : ℕ :=
  (g.verts.filter (fun p => p.2.phase.den = 4)).length

/-- Rational addition written through `mkRat` (definitionally evaluable; it
agrees with `+` on `ℚ` by `Rat.add_def'`). -/
def qadd (a b : ℚ) : ℚ :=
  mkRat (a.num * b.den + b.num * a.den) (a.den * b.den)

/-- Modelled from the spec: `add_to_phase(v, delta)`.  Reduction modulo the
phase group is omitted: the engine observes phases only through their
denominator, which subtraction of an even integer multiple of π does not
change. -/
def add_to_phase (g : Graph) (v : V) (δ : ℚ) : Graph :=
  { g with
    verts := g.verts.map (fun p =>
      if p.1 = v then (p.1, ⟨p.2.ty, qadd p.2.phase δ⟩) else p) }

/-- Modelled from the spec: `add_vertex_with_phase(kind, phase)`; returns the
extended diagram and the identifier of the new vertex. -/
def add_vertex_with_phase (g : Graph) (ty : VType) (p : ℚ) : Graph × V :=
  ({ g with
      verts := g.verts ++ [(g.fresh, ⟨ty, p⟩)]
      fresh := g.fresh + 1 },
   g.fresh)

/-- Modelled from the spec: `add_vertex(kind)` (phase 0). -/
def add_vertex (g : Graph) (ty : VType) : Graph × V :=
  g.add_vertex_with_phase ty 0

/-- Modelled from the spec: `add_edge_with_type(u, v, kind)`. -/
def add_edge_with_type (g : Graph) (u v : V) (et : EType) : Graph :=
  { g with edges := g.edges ++ [(u, v, et)] }

/-- Modelled from the spec: `add_edge_smart(u, v, kind)`.  The spec only says
it merges/normalizes when an edge is already present; the merge rules are
semantically idempotent for the one use in the engine (adding a fusing edge
between two spiders), so the model records the edge unconditionally. -/
def add_edge_smart (g : Graph) (u v : V) (et : EType) : Graph :=
  g.add_edge_with_type u v et

/-- Modelled from the spec: multiply the diagram's attached scalar. -/
def mul_scalar (g : Graph) (s : ScalarN) : Graph :=
  { g with scalar := g.scalar * s }

end Graph

/-- Translated from `SimpFunc` in decompose.rs. -/
inductive SimpFunc where
  | FullSimp
  | NoSimp
deriving DecidableEq

/-- Translated from `Decomposer` in decompose.rs: the queue of pending
`(depth, diagram)` pairs, the archive of terminal diagrams, the running
scalar accumulator and term count, and the three configuration flags. -/
structure Decomposer where
  stack : List (ℕ × Graph)
  done : List Graph
  scalar : ScalarN
  nterms : ℕ
  simp_func : SimpFunc
  random_t : Bool
  save : Bool
deriving DecidableEq

namespace Decomposer

/-- Translated from `Decomposer::empty`. -/
def empty : Decomposer :=
  { stack := []
    done := []
    scalar := ScalarN.zero
    nterms := 0
    simp_func := SimpFunc.NoSimp
    random_t := false
    save := false }

/-- Translated from `Decomposer::new`. -/
def new (g : Graph) : Decomposer :=
  { empty with stack := [(0, g)] }

/-- Translated from `Decomposer::split`: pop entries from the front while more
than one remains, each becoming a fresh single-graph decomposer inheriting the
configuration flags; the original decomposer (with its accumulator state and
its one remaining entry) comes last. -/
def split_aux (d : Decomposer) : List (ℕ × Graph) → List Decomposer
  | e :: f :: rest =>
    { new e.2 with
        save := d.save
        random_t := d.random_t
        simp_func := d.simp_func }
      :: split_aux d (f :: rest)
  | rest => [{ d with stack := rest }]

/-- Translated from `Decomposer::split` (see `split_aux` for the loop). -/
def split (d : Decomposer) : List Decomposer :=
  split_aux d d.stack

/-- One folding step of `Decomposer::merge`: add the scalar and term count of
`d1` into `acc` and append its stack and archive. -/
def merge_step (acc d1 : Decomposer) : Decomposer :=
  { acc with
    scalar := acc.scalar + d1.scalar
    nterms := acc.nterms + d1.nterms
    stack := acc.stack ++ d1.stack
    done := acc.done ++ d1.done }

/-- Translated from `Decomposer::merge`: pop decomposers from the end of the
list, summing scalars and term counts and concatenating stacks and archives. -/
def merge (ds : List Decomposer) : Decomposer :=
  match ds.reverse with
  | [] => empty
  | d :: rest => rest.foldl merge_step d

/-- Translated from `Decomposer::max_terms`. -/
def max_terms (d : Decomposer) : ℕ :=
  d.stack.foldl (fun n e =>
    let t := Graph.tcount e.2
    let count := 7 ^ (t / 6)
    let t1 := t % 6
    let count1 := count * 2 ^ (t1 / 2)
    n + (if t1 % 2 = 1 then count1 * 2 else count1)) 0

/-- Translated from `Decomposer::pop_graph`: the source unwraps the popped
entry and panics on an empty stack; the panic is modelled as `none`. -/
def pop_graph (d : Decomposer) : Option (Graph × Decomposer) :=
  match d.stack.getLast? with
  | none => none
  | some e => some (e.2, { d with stack := d.stack.dropLast })

/-- Translated from `Decomposer::first_ts`: collect vertices with phase
denominator 4 in enumeration order, stopping at six. -/
def first_ts (g : Graph) : List V :=
  ((g.verts.filter (fun p => p.2.phase.den = 4)).map Prod.fst).take 6

/-- Translated from `Vec::swap_remove`: remove the element at index `i`,
moving the last element into its place. -/
def swap_remove (l : List V) (i : ℕ) : V × List V :=
  (l.getD i 0, (l.set i (l.getLast?.getD 0)).dropLast)

/-- Translated from the selection loop of `Decomposer::random_ts`; the random
draws of the external generator are supplied by the `rands` oracle (each draw
is taken modulo the current list length, as `gen_range` does). -/
def random_ts_loop (all_t : List V) (rands : List ℕ) (t : List V) : List V :=
  if t.length < 6 ∧ all_t ≠ [] then
    let p := swap_remove all_t (rands.headD 0 % all_t.length)
    random_ts_loop p.2 rands.tail (t ++ [p.1])
  else t
termination_by all_t.length
decreasing_by
  simp only [swap_remove, List.length_dropLast, List.length_set]
  exact Nat.sub_lt (List.length_pos.mpr (by simp_all)) Nat.one_pos

/-- Translated from `Decomposer::random_ts`. -/
def random_ts (g : Graph) (rands : List ℕ) : List V :=
  random_ts_loop ((g.verts.filter (fun p => p.2.phase.den = 4)).map Prod.fst)
    rands []

/-- Translated from `Decomposer::replace_b60`. -/
def replace_b60 (g : Graph) (vs : List V) : Graph :=
  let g := g.mul_scalar (ScalarN.Exact (-2) ⟨-1, 0, 1, 1⟩)
  (vs.take 6).foldl (fun h v => h.add_to_phase v (mkRat (-1) 4)) g

/-- Translated from `Decomposer::replace_b66`. -/
def replace_b66 (g : Graph) (vs : List V) : Graph :=
  let g := g.mul_scalar (ScalarN.Exact (-2) ⟨-1, 0, 1, -1⟩)
  vs.foldl (fun h v => h.add_to_phase v (mkRat 3 4)) g

/-- Translated from `Decomposer::replace_e6`. -/
def replace_e6 (g : Graph) (vs : List V) : Graph :=
  let g := g.mul_scalar (ScalarN.Exact 1 ⟨0, -1, 0, 0⟩)
  let p := g.add_vertex_with_phase VType.Z 1
  vs.foldl (fun h v =>
    (h.add_to_phase v (mkRat 1 4)).add_edge_with_type v p.2 EType.H) p.1

/-- Translated from `Decomposer::replace_o6`. -/
def replace_o6 (g : Graph) (vs : List V) : Graph :=
  let g := g.mul_scalar (ScalarN.Exact 1 ⟨-1, 0, -1, 0⟩)
  let p := g.add_vertex VType.Z
  vs.foldl (fun h v =>
    (h.add_to_phase v (mkRat 1 4)).add_edge_with_type v p.2 EType.H) p.1

/-- Translated from `Decomposer::replace_k6`. -/
def replace_k6 (g : Graph) (vs : List V) : Graph :=
  let g := g.mul_scalar (ScalarN.Exact 1 ⟨1, 0, 0, 0⟩)
  let p := g.add_vertex_with_phase VType.Z (mkRat (-1) 2)
  vs.foldl (fun h v =>
    (h.add_to_phase v (mkRat (-1) 4)).add_edge_with_type v p.2 EType.N) p.1

/-- Translated from `Decomposer::replace_phi1`, the five-iteration loop
unrolled (iteration `i` adds ancilla `wᵢ`, its two Hadamard edges and the
phase decrement on `verts[i]`). -/
def replace_phi1 (g : Graph) (vs : List V) : Graph :=
  let v0 := vs.getD 0 0
  let v1 := vs.getD 1 0
  let v2 := vs.getD 2 0
  let v3 := vs.getD 3 0
  let v4 := vs.getD 4 0
  let v5 := vs.getD 5 0
  let g := g.mul_scalar (ScalarN.Exact 3 ⟨1, 0, 1, 0⟩)
  let q0 := g.add_vertex VType.Z
  let g := ((q0.1.add_edge_with_type v0 q0.2 EType.H).add_edge_with_type
    q0.2 v5 EType.H).add_to_phase v0 (mkRat (-1) 4)
  let q1 := g.add_vertex VType.Z
  let g := ((q1.1.add_edge_with_type v1 q1.2 EType.H).add_edge_with_type
    q1.2 v5 EType.H).add_to_phase v1 (mkRat (-1) 4)
  let q2 := g.add_vertex VType.Z
  let g := ((q2.1.add_edge_with_type v2 q2.2 EType.H).add_edge_with_type
    q2.2 v5 EType.H).add_to_phase v2 (mkRat (-1) 4)
  let q3 := g.add_vertex VType.Z
  let g := ((q3.1.add_edge_with_type v3 q3.2 EType.H).add_edge_with_type
    q3.2 v5 EType.H).add_to_phase v3 (mkRat (-1) 4)
  let q4 := g.add_vertex VType.Z
  let g := ((q4.1.add_edge_with_type v4 q4.2 EType.H).add_edge_with_type
    q4.2 v5 EType.H).add_to_phase v4 (mkRat (-1) 4)
  let g := g.add_to_phase v5 (mkRat 3 4)
  let g := g.add_edge_with_type q0.2 q2.2 EType.H
  let g := g.add_edge_with_type q0.2 q3.2 EType.H
  let g := g.add_edge_with_type q1.2 q3.2 EType.H
  let g := g.add_edge_with_type q1.2 q4.2 EType.H
  g.add_edge_with_type q2.2 q4.2 EType.H

/-- Translated from `Decomposer::replace_phi2`: delegate to `replace_phi1`
with the input vertices reordered as positions `[0, 1, 3, 4, 5, 2]`. -/
def replace_phi2 (g : Graph) (vs : List V) : Graph :=
  replace_phi1 g
    [vs.getD 0 0, vs.getD 1 0, vs.getD 3 0, vs.getD 4 0, vs.getD 5 0,
     vs.getD 2 0]

/-- Translated from `Decomposer::replace_bell_s`. -/
def replace_bell_s (g : Graph) (vs : List V) : Graph :=
  (((g.add_edge_smart (vs.getD 0 0) (vs.getD 1 0) EType.N).add_to_phase
    (vs.getD 0 0) (mkRat (-1) 4)).add_to_phase (vs.getD 1 0) (mkRat 1 4))

/-- Translated from `Decomposer::replace_epr`. -/
def replace_epr (g : Graph) (vs : List V) : Graph :=
  let g := g.mul_scalar (ScalarN.from_phase (mkRat 1 4))
  let p := g.add_vertex_with_phase VType.Z 1
  vs.foldl (fun h v =>
    (h.add_edge_with_type v p.2 EType.H).add_to_phase v (mkRat (-1) 4)) p.1

/-- Translated from `Decomposer::replace_t0`. -/
def replace_t0 (g : Graph) (vs : List V) : Graph :=
  let g := g.mul_scalar (ScalarN.Exact (-1) ⟨0, 1, 0, -1⟩)
  let p := g.add_vertex VType.Z
  (p.1.add_edge_with_type (vs.getD 0 0) p.2 EType.H).add_to_phase
    (vs.getD 0 0) (mkRat (-1) 4)

/-- Translated from `Decomposer::replace_t1`. -/
def replace_t1 (g : Graph) (vs : List V) : Graph :=
  let g := g.mul_scalar (ScalarN.Exact (-1) ⟨1, 0, 1, 0⟩)
  let p := g.add_vertex_with_phase VType.Z 1
  (p.1.add_edge_with_type (vs.getD 0 0) p.2 EType.H).add_to_phase
    (vs.getD 0 0) (mkRat (-1) 4)

/-- Application of the optional simplification hook, as selected by the
`simp_func` flag (the match inside `Decomposer::push_decomp`). -/
def simp_app (fsimp : Graph → Graph) : SimpFunc → Graph → Graph
  | SimpFunc.FullSimp, g => fsimp g
  | SimpFunc.NoSimp, g => g

/-- Translated from `Decomposer::push_decomp`; the external simplification
pass `crate::simplify::full_simp` is supplied as the parameter `fsimp`
(spec section 6). -/
def push_decomp (fsimp : Graph → Graph) (d : Decomposer)
    (fs : List (Graph → List V → Graph)) (depth : ℕ) (g : Graph)
    (verts : List V) : Decomposer :=
  fs.foldl (fun acc f =>
    { acc with stack := acc.stack ++
        [(depth, simp_app fsimp acc.simp_func (f g verts))] }) d

/-- Translated from `Decomposer::push_bss_decomp`. -/
def push_bss_decomp (fsimp : Graph → Graph) (d : Decomposer) (depth : ℕ)
    (g : Graph) (verts : List V) : Decomposer :=
  push_decomp fsimp d
    [replace_b60, replace_b66, replace_e6, replace_o6, replace_k6,
     replace_phi1, replace_phi2] depth g verts

/-- Translated from `Decomposer::push_sym_decomp`. -/
def push_sym_decomp (fsimp : Graph → Graph) (d : Decomposer) (depth : ℕ)
    (g : Graph) (verts : List V) : Decomposer :=
  push_decomp fsimp d [replace_bell_s, replace_epr] depth g verts

/-- Translated from `Decomposer::push_single_decomp`. -/
def push_single_decomp (fsimp : Graph → Graph) (d : Decomposer) (depth : ℕ)
    (g : Graph) (verts : List V) : Decomposer :=
  push_decomp fsimp d [replace_t0, replace_t1] depth g verts

/-- Translated from `Decomposer::decomp_ts`: dispatch on the number of
selected vertices.  In the terminal branch the source also prints a warning
when the diagram still has vertices; printing has no state effect and is
modelled separately by `decomp_ts_warns`. -/
def decomp_ts (fsimp : Graph → Graph) (d : Decomposer) (depth : ℕ)
    (g : Graph) (ts : List V) : Decomposer :=
  if ts.length = 6 then push_bss_decomp fsimp d (depth + 1) g ts
  else if 2 ≤ ts.length then push_sym_decomp fsimp d (depth + 1) g (ts.take 2)
  else if ts.length = 1 then push_single_decomp fsimp d (depth + 1) g ts
  else
    let d1 := { d with scalar := d.scalar + g.scalar, nterms := d.nterms + 1 }
    if d1.save then { d1 with done := d1.done ++ [g] } else d1

/-- Translated from the warning condition inside `Decomposer::decomp_ts`: the
source prints an incomplete-reduction warning exactly when the popped diagram
reached the terminal branch while vertices remain. -/
def decomp_ts_warns (g : Graph) (ts : List V) : Bool :=
  ts.isEmpty && !(g.num_vertices = 0)

/-- Translated from `Decomposer::decomp_top`: pop from the back of the stack
(`none` models the source's panic on an empty stack), select T-vertices by
the configured policy, and dispatch. -/
def decomp_top (fsimp : Graph → Graph) (rands : List ℕ) (d : Decomposer) :
    Option Decomposer :=
  match d.stack.getLast? with
  | none => none
  | some e =>
    let d1 := { d with stack := d.stack.dropLast }
    let ts := if d.random_t then random_ts e.2 rands else first_ts e.2
    some (decomp_ts fsimp d1 e.1 e.2 ts)

/-- Translated from `Decomposer::decomp_all`; the source's while-loop is
modelled with explicit fuel, and `oracle` supplies the random draws of each
iteration.  The `none` fallback mirrors the panic branch of `decomp_top`,
which the loop guard makes unreachable. -/
def decomp_all_fuel (fsimp : Graph → Graph) (oracle : ℕ → List ℕ) :
    ℕ → Decomposer → Decomposer
  | 0, d => d
  | n + 1, d =>
    if d.stack.isEmpty then d
    else
      match decomp_top fsimp (oracle 0) d with
      | some d1 => decomp_all_fuel fsimp (fun k => oracle (k + 1)) n d1
      | none => d

/-- Translated from `Decomposer::decomp_until_depth`; the source's while-loop
is modelled with explicit fuel.  Popping an entry at depth at least the bound
and pushing it straight back leaves the decomposer unchanged, so that branch
returns `d`. -/
def decomp_until_depth_fuel (fsimp : Graph → Graph) (oracle : ℕ → List ℕ) :
    ℕ → ℕ → Decomposer → Decomposer
  | 0, _, d => d
  | n + 1, depth, d =>
    match d.stack with
    | [] => d
    | e :: rest =>
      if depth ≤ e.1 then d
      else
        let d1 := { d with stack := rest }
        let ts := if d.random_t then random_ts e.2 (oracle 0)
                  else first_ts e.2
        decomp_until_depth_fuel fsimp (fun k => oracle (k + 1)) n depth
          (decomp_ts fsimp d1 e.1 e.2 ts)

end Decomposer

/-- Modelled from the spec: whether this step of `decomp_all` would print the
incomplete-reduction warning, and whether any later step would; mirrors the
recursion of `decomp_all_fuel`. -/
def Decomposer.decomp_all_fuel_warns (fsimp : Graph → Graph)
    (oracle : ℕ → List ℕ) : ℕ → Decomposer → Bool
  | 0, _ => false
  | n + 1, d =>
    if d.stack.isEmpty then false
    else
      match d.stack.getLast? with
      | none => false
      | some e =>
        let ts := if d.random_t then Decomposer.random_ts e.2 (oracle 0)
                  else Decomposer.first_ts e.2
        Decomposer.decomp_ts_warns e.2 ts ||
          Decomposer.decomp_all_fuel_warns fsimp (fun k => oracle (k + 1)) n
            (Decomposer.decomp_ts fsimp { d with stack := d.stack.dropLast }
              e.1 e.2 ts)

/-- Well-formedness of a diagram value: vertex identifiers are distinct and
below the fresh counter, and edges join existing vertices.  This is the
representation invariant of the external diagram type. -/
def Graph.wf (g : Graph) : Prop :=
  g.vertexIds.Nodup ∧ (∀ v ∈ g.vertexIds, v < g.fresh) ∧
    ∀ e ∈ g.edges, e.1 ∈ g.vertexIds ∧ e.2.1 ∈ g.vertexIds

/-- Well-formedness of every diagram on a decomposer's frontier. -/
def Decomposer.wf_stack (d : Decomposer) : Prop :=
  ∀ e ∈ d.stack, Graph.wf e.2

/-- Termination measure for the reduction loop: each frontier diagram with
T-count `t` contributes `8^t` (one reduction step replaces such a diagram by
at most 7 diagrams of strictly smaller T-count). -/
def Decomposer.stack_fuel (d : Decomposer) : ℕ :=
  (d.stack.map (fun e => 8 ^ e.2.tcount)).sum

/-- Boolean update of an assignment at one vertex. -/
def upd (σ : V → Bool) (v : V) (b : Bool) : V → Bool :=
  fun w => if w = v then b else σ w

/-- All boolean assignments of a finite vertex list (every other vertex is
assigned `false`). -/
def asgns : List V → List (V → Bool)
  | [] => [fun _ => false]
  | v :: l => asgns l ++ (asgns l).map (fun σ => upd σ v true)

section Semantics

variable (R : Type) [CommRing R] [Invertible (2 : R)] (ph : ℚ → R)

/-- Integer powers of two in a ring with invertible 2. -/
def twoPow (k : ℤ) : R :=
  ((unitOfInvertible (2 : R)) ^ k : Rˣ)

/-- Interpretation of a coefficient quadruple, sending `ω` to `ph (1/4)`. -/
def interpC (z : Cyc ℤ) : R :=
  z.a + z.b * ph (mkRat 1 4) + z.c * ph (mkRat 1 4) ^ 2 + z.d * ph (mkRat 1 4) ^ 3

/-- Interpretation of an exact scalar. -/
def interpS : ScalarN → R
  | ScalarN.Exact p c => twoPow R p * interpC R ph c

/-- Modelled from the spec: the tensor factor contributed by one vertex under
an assignment.  A spider vertex contributes its phase exponential when
assigned true; a boundary vertex pins the assignment to the boundary values
`β`. -/
def vfac (dat : VData) (b bb : Bool) : R :=
  match dat.ty with
  | VType.Z => if b then ph dat.phase else 1
  | VType.B => if b = bb then 1 else 0

/-- Modelled from the spec: the tensor factor contributed by one edge under an
assignment.  A fusing edge forces its endpoints equal; a Hadamard edge
contributes the (normalized) Hadamard matrix entry. -/
def efac (et : EType) (x y : Bool) : R :=
  match et with
  | EType.N => if x = y then 1 else 0
  | EType.H => ⅟2 * (ph (mkRat 1 4) - ph (mkRat 3 4)) * (if x && y then -1 else 1)

/-- Weight of one assignment: the product of all vertex and edge factors. -/
def wt (g : Graph) (β σ : V → Bool) : R :=
  (g.verts.map (fun p => vfac R ph p.2 (σ p.1) (β p.1))).prod *
  (g.edges.map (fun e => efac R ph e.2.2 (σ e.1) (σ e.2.1))).prod

/-- Modelled from the spec: the tensor evaluation of a diagram at boundary
assignment `β` — the attached scalar times the sum of the weights of all
assignments of its vertices (the standard ZX-diagram semantics, which the
spec treats as the external `to_tensor` contraction). -/
def sem (g : Graph) (β : V → Bool) : R :=
  interpS R ph g.scalar * ((asgns g.vertexIds).map (wt R ph g β)).sum

/-- The value tracked by the core invariant: the accumulated scalar plus the
tensor evaluations of all diagrams still on the frontier. -/
def semState (d : Decomposer) (β : V → Bool) : R :=
  interpS R ph d.scalar + (d.stack.map (fun e => sem R ph e.2 β)).sum

end Semantics

/-- Diagram with six isolated T-vertices (counterexample input). -/
def cexG6 : Graph :=
  { verts :=
      [(0, ⟨VType.Z, mkRat 1 4⟩), (1, ⟨VType.Z, mkRat 1 4⟩), (2, ⟨VType.Z, mkRat 1 4⟩),
       (3, ⟨VType.Z, mkRat 1 4⟩), (4, ⟨VType.Z, mkRat 1 4⟩), (5, ⟨VType.Z, mkRat 1 4⟩)]
    edges := []
    scalar := ScalarN.one
    fresh := 6 }

/-- Diagram with no vertices at all (counterexample input). -/
def cexGE : Graph :=
  { verts := [], edges := [], scalar := ScalarN.one, fresh := 0 }

/-- Diagram with one phase-free spider vertex (counterexample input): its
T-count is zero but its tensor evaluation is 2, not its attached scalar 1. -/
def cexG0 : Graph :=
  { verts := [(0, ⟨VType.Z, 0⟩)], edges := [], scalar := ScalarN.one,
    fresh := 1 }

/-- Decomposer with two frontier entries at distinct depths (counterexample
input for the split/merge round-trip). -/
def cexD3 : Decomposer :=
  { Decomposer.new cexGE with stack := [(1, cexGE), (0, cexGE)] }

/-- Diagram with twelve isolated T-vertices (counterexample input). -/
def cexG12 : Graph :=
  { verts := (List.range 12).map (fun i => (i, ⟨VType.Z, mkRat 1 4⟩))
    edges := []
    scalar := ScalarN.one
    fresh := 12 }

/-- Removal of the first T-vertex of a diagram (used to build a
T-count-decreasing simplification hook). -/
def dropT (g : Graph) : Graph :=
  { g with verts := g.verts.eraseP (fun p => p.2.phase.den == 4) }

/-- A simplification hook that never increases the T-count, yet turns 6-T
children into 5-T children (counterexample input for max-terms
monotonicity). -/
def cexSimp (g : Graph) : Graph :=
  if Graph.tcount g = 6 then dropT g else g

/-- Decomposer holding the twelve-T diagram with simplification enabled
(counterexample input). -/
def cexD7 : Decomposer :=
  { Decomposer.new cexG12 with simp_func := SimpFunc.FullSimp }

/-- Presence of `v` in the diagram as a T-vertex (an entry with identifier
`v` whose phase denominator is 4). -/
def hasT (g : Graph) (v : V) : Prop :=
  ∃ p ∈ g.verts, p.1 = v ∧ p.2.phase.den = 4

/-- Soundness of a T-vertex selection: the selected vertices are distinct
T-vertices of the diagram, and as many as possible up to six. -/
def good_sel (g : Graph) (ts : List V) : Prop :=
  ts.Nodup ∧ ts.length = min 6 g.tcount ∧ ∀ v ∈ ts, hasT g v

/-- Vertex-level part of the diagram representation invariant: identifiers
are distinct and below the fresh counter (the part of `Graph.wf` that the
reduction engine itself maintains and consumes). -/
def Graph.wfv (g : Graph) : Prop :=
  g.vertexIds.Nodup ∧ ∀ v ∈ g.vertexIds, v < g.fresh

instance Graph.wfv.instDecidable (g : Graph) : Decidable g.wfv := by
  unfold Graph.wfv; infer_instance

/-- Vertex-level invariant for every diagram on a decomposer's frontier. -/
def Decomposer.wfv_stack (d : Decomposer) : Prop :=
  ∀ e ∈ d.stack, Graph.wfv e.2

instance Decomposer.wfv_stack.instDecidable (d : Decomposer) :
    Decidable d.wfv_stack := by
  unfold Decomposer.wfv_stack; infer_instance

/-- Presence of `v` as a spider (`Z`) vertex of the diagram. -/
def selZ (g : Graph) (v : V) : Prop :=
  ∃ p ∈ g.verts, p.1 = v ∧ p.2.ty = VType.Z

/-- Full representation invariant used by the semantic development: the
vertex-level invariant, closure of the edge list over the vertex list, and
the convention that boundary vertices never carry a denominator-4 phase. -/
def Graph.inv (g : Graph) : Prop :=
  g.wfv ∧ (∀ e ∈ g.edges, e.1 ∈ g.vertexIds ∧ e.2.1 ∈ g.vertexIds) ∧
    ∀ p ∈ g.verts, p.2.ty = VType.B → p.2.phase.den ≠ 4

instance Graph.inv.instDecidable (g : Graph) : Decidable g.inv := by
  unfold Graph.inv
  infer_instance

/-- Full invariant for every diagram on a decomposer's frontier. -/
def Decomposer.inv_stack (d : Decomposer) : Prop :=
  ∀ e ∈ d.stack, Graph.inv e.2

instance Decomposer.inv_stack.instDecidable (d : Decomposer) :
    Decidable d.inv_stack := by
  unfold Decomposer.inv_stack
  infer_instance

/-- `ℤ[ω]` mirror of the vertex factor `if b then exp(iπ·j/4) else 1`. -/
def bCyc (j : ℤ) (b : Bool) : Cyc ℤ := if b then Cyc.ompow j else 1

/-- `ℤ[ω]` mirror of twice the Hadamard edge factor. -/
def hCyc (x y : Bool) : Cyc ℤ :=
  (Cyc.om - Cyc.om ^ 3) * (if x && y then -1 else 1)

/-- `ℤ[ω]` mirror of the fusing edge factor. -/
def nCyc (x y : Bool) : Cyc ℤ := if x = y then 1 else 0

/-- Binary sum used to contract one ancilla vertex of a kernel. -/
def sumBool (f : Bool → Cyc ℤ) : Cyc ℤ := f false + f true

/-- Product of the six selected-vertex factors of a phase-only BSS kernel. -/
def prod6 (j : ℤ) (b0 b1 b2 b3 b4 b5 : Bool) : Cyc ℤ :=
  bCyc j b0 * bCyc j b1 * bCyc j b2 * bCyc j b3 * bCyc j b4 * bCyc j b5

/-- Product of selected-vertex factors and Hadamard edges to a common
ancilla with value `c`. -/
def prod6H (j : ℤ) (c : Bool) (b0 b1 b2 b3 b4 b5 : Bool) : Cyc ℤ :=
  bCyc j b0 * hCyc b0 c * bCyc j b1 * hCyc b1 c * bCyc j b2 * hCyc b2 c *
    bCyc j b3 * hCyc b3 c * bCyc j b4 * hCyc b4 c * bCyc j b5 * hCyc b5 c

/-- Product of selected-vertex factors and fusing edges to a common ancilla
with value `c`. -/
def prod6N (j : ℤ) (c : Bool) (b0 b1 b2 b3 b4 b5 : Bool) : Cyc ℤ :=
  bCyc j b0 * nCyc b0 c * bCyc j b1 * nCyc b1 c * bCyc j b2 * nCyc b2 c *
    bCyc j b3 * nCyc b3 c * bCyc j b4 * nCyc b4 c * bCyc j b5 * nCyc b5 c

/-- Kernel of `replace_b60`. -/
def Kb60 (b0 b1 b2 b3 b4 b5 : Bool) : Cyc ℤ := prod6 (-1) b0 b1 b2 b3 b4 b5

/-- Kernel of `replace_b66`. -/
def Kb66 (b0 b1 b2 b3 b4 b5 : Bool) : Cyc ℤ := prod6 3 b0 b1 b2 b3 b4 b5

/-- Kernel of `replace_e6` (scaled by `2^6`). -/
def Ke6 (b0 b1 b2 b3 b4 b5 : Bool) : Cyc ℤ :=
  prod6H 1 false b0 b1 b2 b3 b4 b5
    + Cyc.ompow 4 * prod6H 1 true b0 b1 b2 b3 b4 b5

/-- Kernel of `replace_o6` (scaled by `2^6`). -/
def Ko6 (b0 b1 b2 b3 b4 b5 : Bool) : Cyc ℤ :=
  prod6H 1 false b0 b1 b2 b3 b4 b5 + prod6H 1 true b0 b1 b2 b3 b4 b5

/-- Kernel of `replace_k6`. -/
def Kk6 (b0 b1 b2 b3 b4 b5 : Bool) : Cyc ℤ :=
  prod6N (-1) false b0 b1 b2 b3 b4 b5
    + Cyc.ompow (-2) * prod6N (-1) true b0 b1 b2 b3 b4 b5

/-- One ancilla-assignment term of the `replace_phi1` kernel. -/
def phi1term (b0 b1 b2 b3 b4 b5 c0 c1 c2 c3 c4 : Bool) : Cyc ℤ :=
  bCyc (-1) b0 * hCyc b0 c0 * hCyc c0 b5 *
    (bCyc (-1) b1 * hCyc b1 c1 * hCyc c1 b5) *
    (bCyc (-1) b2 * hCyc b2 c2 * hCyc c2 b5) *
    (bCyc (-1) b3 * hCyc b3 c3 * hCyc c3 b5) *
    (bCyc (-1) b4 * hCyc b4 c4 * hCyc c4 b5) *
    bCyc 3 b5 *
    (hCyc c0 c2 * hCyc c0 c3 * hCyc c1 c3 * hCyc c1 c4 * hCyc c2 c4)

/-- Kernel of `replace_phi1` (scaled by `2^15`). -/
def Kphi1 (b0 b1 b2 b3 b4 b5 : Bool) : Cyc ℤ :=
  sumBool (fun c0 => sumBool (fun c1 => sumBool (fun c2 => sumBool (fun c3 =>
    sumBool (fun c4 => phi1term b0 b1 b2 b3 b4 b5 c0 c1 c2 c3 c4)))))

/-- Kernel of `replace_bell_s`. -/
def Kbell (b0 b1 : Bool) : Cyc ℤ :=
  nCyc b0 b1 * bCyc (-1) b0 * bCyc 1 b1

/-- Kernel of `replace_epr` (scaled by `2^2`). -/
def Kepr (b0 b1 : Bool) : Cyc ℤ :=
  hCyc b0 false * bCyc (-1) b0 * (hCyc b1 false * bCyc (-1) b1)
    + Cyc.ompow 4 * (hCyc b0 true * bCyc (-1) b0 *
        (hCyc b1 true * bCyc (-1) b1))

/-- Kernel of `replace_t0` (scaled by `2`). -/
def Kt0 (b0 : Bool) : Cyc ℤ :=
  hCyc b0 false * bCyc (-1) b0 + hCyc b0 true * bCyc (-1) b0

/-- Kernel of `replace_t1` (scaled by `2`). -/
def Kt1 (b0 : Bool) : Cyc ℤ :=
  hCyc b0 false * bCyc (-1) b0
    + Cyc.ompow 4 * (hCyc b0 true * bCyc (-1) b0)

/-! ### Supporting lemmas -/

theorem ScalarN.add_def (p q : ℤ) (c d : Cyc ℤ) :
    ScalarN.Exact p c + ScalarN.Exact q d =
      (if p ≤ q then ScalarN.Exact p (c + (2 : Cyc ℤ) ^ (q - p).toNat * d)
       else ScalarN.Exact q ((2 : Cyc ℤ) ^ (p - q).toNat * c + d)) := rfl

theorem ScalarN.mul_def (p q : ℤ) (c d : Cyc ℤ) :
    ScalarN.Exact p c * ScalarN.Exact q d = ScalarN.Exact (p + q) (c * d) := rfl

section InterpLemmas

variable {R : Type} [CommRing R] [Invertible (2 : R)] (ph : ℚ → R)

theorem twoPow_add (p q : ℤ) : twoPow R (p + q) = twoPow R p * twoPow R q := by
  unfold twoPow
  rw [zpow_add]
  simp

theorem twoPow_natCast (n : ℕ) : twoPow R (n : ℤ) = (2 : R) ^ n := by
  unfold twoPow
  rw [zpow_natCast]
  simp

theorem interpC_add (x y : Cyc ℤ) :
    interpC R ph (x + y) = interpC R ph x + interpC R ph y := by
  simp only [interpC, Cyc.add_a, Cyc.add_b, Cyc.add_c, Cyc.add_d]
  push_cast
  ring

theorem interpC_two_pow_mul (n : ℕ) (x : Cyc ℤ) :
    interpC R ph ((2 : Cyc ℤ) ^ n * x) = (2 : R) ^ n * interpC R ph x := by
  have h2 : ((2 : Cyc ℤ) ^ n) = (((2 ^ n : ℤ) : Cyc ℤ)) := by push_cast; ring
  rw [h2]
  simp only [interpC, Cyc.mul_a, Cyc.mul_b, Cyc.mul_c, Cyc.mul_d,
    Cyc.intCast_a, Cyc.intCast_b, Cyc.intCast_c, Cyc.intCast_d]
  push_cast
  ring

theorem interpS_add (s t : ScalarN) :
    interpS R ph (s + t) = interpS R ph s + interpS R ph t := by
  cases s with
  | Exact p c =>
    cases t with
    | Exact q d =>
      rw [ScalarN.add_def]
      split_ifs with h
      · have hq : twoPow R p * (2 : R) ^ (q - p).toNat = twoPow R q := by
          rw [← twoPow_natCast, ← twoPow_add]
          congr 1
          omega
        simp only [interpS, interpC_add, interpC_two_pow_mul]
        rw [mul_add, ← mul_assoc, hq]
      · have hq : twoPow R q * (2 : R) ^ (p - q).toNat = twoPow R p := by
          rw [← twoPow_natCast, ← twoPow_add]
          congr 1
          omega
        simp only [interpS, interpC_add, interpC_two_pow_mul]
        rw [mul_add, ← mul_assoc, hq]

theorem interpS_zero : interpS R ph ScalarN.zero = 0 := by
  simp [interpS, ScalarN.zero, interpC]

end InterpLemmas

theorem qadd_eq_add (a b : ℚ) : Graph.qadd a b = a + b := (Rat.add_def' a b).symm

theorem mkRat_quarter_num_den (j : ℤ) (hj : ¬(2 : ℤ) ∣ j) :
    (mkRat j 4).num = j ∧ (mkRat j 4).den = 4 := by
  have h4 : (4 : ℕ) ≠ 0 := by decide
  have hg : j.natAbs.gcd 4 = 1 := by
    have h2 : j.natAbs.gcd 4 ∣ 2 ^ 2 := by
      have := Nat.gcd_dvd_right j.natAbs 4
      norm_num at this ⊢
      exact this
    have h1 : j.natAbs.gcd 4 ∣ j.natAbs := Nat.gcd_dvd_left _ _
    rcases (Nat.dvd_prime_pow Nat.prime_two).mp h2 with ⟨k, hk, he⟩
    match k, hk, he with
    | 0, _, he => simpa using he
    | k+1, _, he =>
      exfalso
      apply hj
      have hdn : (2:ℕ) ∣ j.natAbs := by
        refine dvd_trans ?_ h1
        rw [he]
        exact dvd_pow_self 2 (Nat.succ_ne_zero k)
      exact Int.natAbs_dvd_natAbs.mp (by simpa using hdn)
  rw [Rat.mkRat_def, dif_neg h4, Rat.normalize_eq]
  constructor
  · simp [hg]
  · simp [hg]

theorem qadd_quarter_den (q : ℚ) (j : ℤ) (hj : ¬(2 : ℤ) ∣ j)
    (hq : q.den = 4) : (Graph.qadd q (mkRat j 4)).den ∣ 2 := by
  obtain ⟨hn, hd⟩ := mkRat_quarter_num_den j hj
  have hqn : ¬(2:ℤ) ∣ q.num := by
    intro h2
    have hco := q.reduced
    rw [hq] at hco
    have hdd : (2:ℕ) ∣ Nat.gcd q.num.natAbs 4 := by
      refine Nat.dvd_gcd ?_ (by decide)
      have := Int.natAbs_dvd_natAbs.mpr h2
      simpa using this
    rw [Nat.Coprime] at hco
    rw [hco] at hdd
    omega
  unfold Graph.qadd
  rw [hn, hd, hq]
  have he : q.num * ((4:ℕ) : ℤ) + j * ((4:ℕ) : ℤ) = ((4:ℕ) : ℤ) * (q.num + j) := by
    push_cast; ring
  rw [he, show ((4:ℕ) * 4 : ℕ) = (4 : ℕ) * 4 from rfl,
    Rat.mkRat_mul_left (by decide : (4:ℕ) ≠ 0)]
  obtain ⟨m, hm⟩ : (2:ℤ) ∣ (q.num + j) := by omega
  rw [hm, show ((2:ℤ) * m) = (((2:ℕ) : ℤ) * m) by push_cast; ring,
    show (4:ℕ) = 2 * 2 from rfl, Rat.mkRat_mul_left (by decide : (2:ℕ) ≠ 0)]
  rw [Rat.mkRat_def, dif_neg (by decide : ¬(2:ℕ) = 0), Rat.normalize_eq]
  exact Nat.div_dvd_of_dvd (Nat.gcd_dvd_right _ _)


theorem den_dvd_two_ne_four {n : ℕ} (h : n ∣ 2) : n ≠ 4 := by
  intro he
  rw [he] at h
  omega

theorem vertexIds_add_to_phase (g : Graph) (v : V) (δ : ℚ) :
    (g.add_to_phase v δ).vertexIds = g.vertexIds := by
  unfold Graph.add_to_phase Graph.vertexIds
  simp only [List.map_map]
  apply List.map_congr_left
  intro p _
  by_cases h : p.1 = v <;> simp [h]

theorem tcount_add_edge (g : Graph) (u v : V) (et : EType) :
    (g.add_edge_with_type u v et).tcount = g.tcount := rfl

theorem vertexIds_add_edge (g : Graph) (u v : V) (et : EType) :
    (g.add_edge_with_type u v et).vertexIds = g.vertexIds := rfl

theorem tcount_add_vertex (g : Graph) (ty : VType) (p : ℚ)
    (hp : p.den ≠ 4) :
    ((g.add_vertex_with_phase ty p).1).tcount = g.tcount := by
  unfold Graph.add_vertex_with_phase Graph.tcount
  simp [List.filter_append, hp]

theorem vertexIds_add_vertex (g : Graph) (ty : VType) (p : ℚ) :
    ((g.add_vertex_with_phase ty p).1).vertexIds =
      g.vertexIds ++ [g.fresh] := by
  unfold Graph.add_vertex_with_phase Graph.vertexIds
  simp

theorem map_update_eq_of_not_mem (v : V) (f : V × VData → V × VData)
    (hf : ∀ p, p.1 ≠ v → f p = p) :
    ∀ l : List (V × VData), (∀ p ∈ l, p.1 ≠ v) → l.map f = l := by
  intro l hl
  induction l with
  | nil => rfl
  | cons p t ih =>
    rw [List.map_cons, hf p (hl p (List.mem_cons_self p t)),
      ih (fun q hq => hl q (List.mem_cons_of_mem p hq))]

theorem count_den4_update (v : V) (j : ℤ) (hj : ¬(2:ℤ) ∣ j) :
    ∀ l : List (V × VData), (l.map Prod.fst).Nodup →
    (∃ p ∈ l, p.1 = v ∧ p.2.phase.den = 4) →
    ((l.map (fun p => if p.1 = v
        then (p.1, ⟨p.2.ty, Graph.qadd p.2.phase (mkRat j 4)⟩) else p)).filter
      (fun p => p.2.phase.den = 4)).length + 1 =
    (l.filter (fun p => p.2.phase.den = 4)).length := by
  intro l
  induction l with
  | nil => rintro - ⟨p, h, -⟩; simp at h
  | cons p t ih =>
    intro hnd hv
    have hnd1 : p.1 ∉ t.map Prod.fst := (List.nodup_cons.mp hnd).1
    have hnd2 : (t.map Prod.fst).Nodup := (List.nodup_cons.mp hnd).2
    by_cases hpv : p.1 = v
    · have hp4 : p.2.phase.den = 4 := by
        obtain ⟨q, hq, hq1, hq4⟩ := hv
        rcases List.mem_cons.mp hq with rfl | hqt
        · exact hq4
        · exfalso
          apply hnd1
          rw [hpv, ← hq1]
          exact List.mem_map_of_mem Prod.fst hqt
      have hden : ¬(Graph.qadd p.2.phase (mkRat j 4)).den = 4 :=
        den_dvd_two_ne_four (qadd_quarter_den p.2.phase j hj hp4)
      have hmapt : t.map (fun p => if p.1 = v
          then (p.1, ⟨p.2.ty, Graph.qadd p.2.phase (mkRat j 4)⟩) else p) = t := by
        refine map_update_eq_of_not_mem v _ (fun q hq => by simp [hq]) t ?_
        intro q hq hqv
        exact hnd1 (hpv ▸ hqv ▸ List.mem_map_of_mem Prod.fst hq)
      rw [List.map_cons, if_pos hpv, hmapt]
      simp [List.filter_cons, hden, hp4]
    · have hvt : ∃ q ∈ t, q.1 = v ∧ q.2.phase.den = 4 := by
        obtain ⟨q, hq, hq1, hq4⟩ := hv
        rcases List.mem_cons.mp hq with rfl | hqt
        · exact absurd hq1 hpv
        · exact ⟨q, hqt, hq1, hq4⟩
      have hiht := ih hnd2 hvt
      rw [List.map_cons, if_neg hpv]
      by_cases hp4 : p.2.phase.den = 4 <;>
        (simp [List.filter_cons, hp4]; omega)


theorem scalar_foldl {f : Graph → V → Graph}
    (hf : ∀ h v, (f h v).scalar = h.scalar) :
    ∀ (l : List V) (g : Graph), (l.foldl f g).scalar = g.scalar := by
  intro l
  induction l with
  | nil => intro g; rfl
  | cons v l ih => intro g; rw [List.foldl_cons, ih, hf]

theorem hasT_congr {g g' : Graph} (h : g'.verts = g.verts) (v : V) :
    hasT g' v ↔ hasT g v := by unfold hasT; rw [h]

theorem tcount_congr {g g' : Graph} (h : g'.verts = g.verts) :
    g'.tcount = g.tcount := by unfold Graph.tcount; rw [h]

theorem vertexIds_congr {g g' : Graph} (h : g'.verts = g.verts) :
    g'.vertexIds = g.vertexIds := by unfold Graph.vertexIds; rw [h]

theorem tcount_add_to_phase_T (g : Graph) (v : V) (j : ℤ) (hj : ¬(2:ℤ) ∣ j)
    (hnd : g.vertexIds.Nodup) (hv : hasT g v) :
    (g.add_to_phase v (mkRat j 4)).tcount + 1 = g.tcount :=
  count_den4_update v j hj g.verts hnd hv

theorem hasT_add_to_phase_other (g : Graph) (v : V) (δ : ℚ) (w : V)
    (hw : w ≠ v) (h : hasT g w) : hasT (g.add_to_phase v δ) w := by
  obtain ⟨p, hp, h1, h4⟩ := h
  refine ⟨(if p.1 = v then (p.1, ⟨p.2.ty, Graph.qadd p.2.phase δ⟩) else p),
    List.mem_map_of_mem _ hp, ?_⟩
  rw [if_neg (by rw [h1]; exact hw)]
  exact ⟨h1, h4⟩

theorem hasT_add_vertex (g : Graph) (ty : VType) (p : ℚ) (w : V)
    (h : hasT g w) : hasT ((g.add_vertex_with_phase ty p).1) w := by
  obtain ⟨q, hq, h1, h4⟩ := h
  exact ⟨q, List.mem_append_left _ hq, h1, h4⟩

theorem tinv_phase_step (g : Graph) (v : V) (j : ℤ) (hj : ¬(2:ℤ) ∣ j)
    (pend : List V) (hnd : g.vertexIds.Nodup) (hv : hasT g v)
    (hpend : ∀ w ∈ pend, hasT g w) (hvp : v ∉ pend) :
    (g.add_to_phase v (mkRat j 4)).tcount + 1 = g.tcount ∧
    (g.add_to_phase v (mkRat j 4)).vertexIds = g.vertexIds ∧
    ∀ w ∈ pend, hasT (g.add_to_phase v (mkRat j 4)) w :=
  ⟨tcount_add_to_phase_T g v j hj hnd hv, vertexIds_add_to_phase g v _,
   fun w hw => hasT_add_to_phase_other g v _ w
     (fun he => hvp (he ▸ hw)) (hpend w hw)⟩

theorem tcount_phase_fold (j : ℤ) (hj : ¬(2:ℤ) ∣ j)
    (f : Graph → V → Graph)
    (hfv : ∀ h v, (f h v).verts = (h.add_to_phase v (mkRat j 4)).verts) :
    ∀ (ts : List V) (g : Graph), ts.Nodup → g.vertexIds.Nodup →
      (∀ v ∈ ts, hasT g v) →
      (ts.foldl f g).tcount + ts.length = g.tcount := by
  intro ts
  induction ts with
  | nil => intro g _ _ _; simp
  | cons v ts ih =>
    intro g hnd hgnd hts
    rw [List.foldl_cons]
    have hvp : v ∉ ts := (List.nodup_cons.mp hnd).1
    obtain ⟨hc, hi, hm⟩ := tinv_phase_step g v j hj ts hgnd
      (hts v (List.mem_cons_self v ts))
      (fun w hw => hts w (List.mem_cons_of_mem v hw)) hvp
    have hfc : (f g v).tcount = (g.add_to_phase v (mkRat j 4)).tcount :=
      tcount_congr (hfv g v)
    have hfi : (f g v).vertexIds = (g.add_to_phase v (mkRat j 4)).vertexIds :=
      vertexIds_congr (hfv g v)
    have hfm : ∀ w ∈ ts, hasT (f g v) w :=
      fun w hw => (hasT_congr (hfv g v) w).mpr (hm w hw)
    have hrec := ih (f g v) (List.nodup_cons.mp hnd).2
      (by rw [hfi, hi]; exact hgnd) hfm
    rw [hfc] at hrec
    simp only [List.length_cons]
    omega

theorem wfv_add_to_phase (g : Graph) (v : V) (δ : ℚ) (h : g.wfv) :
    (g.add_to_phase v δ).wfv := by
  unfold Graph.wfv at h ⊢
  rw [vertexIds_add_to_phase]
  exact h

theorem wfv_add_edge (g : Graph) (u v : V) (et : EType) (h : g.wfv) :
    (g.add_edge_with_type u v et).wfv := h

theorem wfv_mul_scalar (g : Graph) (s : ScalarN) (h : g.wfv) :
    (g.mul_scalar s).wfv := h

theorem wfv_add_vertex (g : Graph) (ty : VType) (p : ℚ) (h : g.wfv) :
    ((g.add_vertex_with_phase ty p).1).wfv := by
  obtain ⟨hnd, hb⟩ := h
  constructor
  · rw [vertexIds_add_vertex]
    refine hnd.append (List.nodup_singleton _) ?_
    intro a ha
    rw [List.mem_singleton]
    exact Nat.ne_of_lt (hb a ha)
  · rw [vertexIds_add_vertex]
    intro v hv
    rcases List.mem_append.mp hv with h1 | h1
    · exact Nat.lt_succ_of_lt (hb v h1)
    · rw [List.mem_singleton] at h1
      rw [h1]
      exact Nat.lt_succ_self _

theorem foldl_verts_invariant {f : Graph → V → Graph}
    (hfv : ∀ h v, (f h v).vertexIds = h.vertexIds)
    (hff : ∀ h v, (f h v).fresh = h.fresh) :
    ∀ (l : List V) (g : Graph),
      (l.foldl f g).vertexIds = g.vertexIds ∧
        (l.foldl f g).fresh = g.fresh := by
  intro l
  induction l with
  | nil => intro g; exact ⟨rfl, rfl⟩
  | cons v l ih =>
    intro g
    rw [List.foldl_cons]
    obtain ⟨h1, h2⟩ := ih (f g v)
    exact ⟨h1.trans (hfv g v), h2.trans (hff g v)⟩

theorem wfv_foldl {f : Graph → V → Graph}
    (hfv : ∀ h v, (f h v).vertexIds = h.vertexIds)
    (hff : ∀ h v, (f h v).fresh = h.fresh)
    (l : List V) (g : Graph) (h : g.wfv) : (l.foldl f g).wfv := by
  obtain ⟨h1, h2⟩ := foldl_verts_invariant hfv hff l g
  unfold Graph.wfv at h ⊢
  rw [h1, h2]
  exact h

theorem tcount_replace_b60 (g : Graph) (vs : List V)
    (hnd : g.vertexIds.Nodup) (htnd : vs.Nodup)
    (hts : ∀ v ∈ vs, hasT g v) :
    (Decomposer.replace_b60 g vs).tcount + (vs.take 6).length = g.tcount := by
  refine tcount_phase_fold (-1) (by decide) _ (fun _ _ => rfl) (vs.take 6)
    (g.mul_scalar (ScalarN.Exact (-2) ⟨-1, 0, 1, 1⟩)) ?_ hnd ?_
  · exact htnd.sublist (List.take_sublist 6 vs)
  · intro v hv
    exact hts v (List.mem_of_mem_take hv)

theorem wfv_replace_b60 (g : Graph) (vs : List V) (h : g.wfv) :
    (Decomposer.replace_b60 g vs).wfv :=
  wfv_foldl (fun h v => vertexIds_add_to_phase h v _) (fun _ _ => rfl) _ _ h

theorem tcount_replace_b66 (g : Graph) (vs : List V)
    (hnd : g.vertexIds.Nodup) (htnd : vs.Nodup)
    (hts : ∀ v ∈ vs, hasT g v) :
    (Decomposer.replace_b66 g vs).tcount + vs.length = g.tcount :=
  tcount_phase_fold 3 (by decide) _ (fun _ _ => rfl) vs
    (g.mul_scalar (ScalarN.Exact (-2) ⟨-1, 0, 1, -1⟩)) htnd hnd hts

theorem wfv_replace_b66 (g : Graph) (vs : List V) (h : g.wfv) :
    (Decomposer.replace_b66 g vs).wfv :=
  wfv_foldl (fun h v => vertexIds_add_to_phase h v _) (fun _ _ => rfl) _ _ h

theorem tcount_replace_e6 (g : Graph) (vs : List V) (hw : g.wfv)
    (htnd : vs.Nodup) (hts : ∀ v ∈ vs, hasT g v) :
    (Decomposer.replace_e6 g vs).tcount + vs.length = g.tcount := by
  obtain ⟨hnd2, hb2⟩ :=
    wfv_add_vertex (g.mul_scalar (ScalarN.Exact 1 ⟨0, -1, 0, 0⟩)) VType.Z 1 hw
  have hfold := tcount_phase_fold 1 (by decide)
    (fun h v => (h.add_to_phase v (mkRat 1 4)).add_edge_with_type v
      ((g.mul_scalar (ScalarN.Exact 1 ⟨0, -1, 0, 0⟩)).add_vertex_with_phase
        VType.Z 1).2 EType.H)
    (fun _ _ => rfl) vs
    (((g.mul_scalar (ScalarN.Exact 1 ⟨0, -1, 0, 0⟩)).add_vertex_with_phase
      VType.Z 1).1) htnd hnd2
    (fun v hv => hasT_add_vertex _ VType.Z 1 v (hts v hv))
  have htc := tcount_add_vertex (g.mul_scalar (ScalarN.Exact 1 ⟨0, -1, 0, 0⟩))
    VType.Z 1 (by decide)
  rw [htc] at hfold
  exact hfold

theorem wfv_replace_e6 (g : Graph) (vs : List V) (h : g.wfv) :
    (Decomposer.replace_e6 g vs).wfv := by
  refine wfv_foldl ?_ ?_ vs _ (wfv_add_vertex _ VType.Z 1 h)
  · intro h v
    exact vertexIds_add_to_phase _ v _
  · intro h v
    rfl

theorem tcount_replace_o6 (g : Graph) (vs : List V) (hw : g.wfv)
    (htnd : vs.Nodup) (hts : ∀ v ∈ vs, hasT g v) :
    (Decomposer.replace_o6 g vs).tcount + vs.length = g.tcount := by
  obtain ⟨hnd2, hb2⟩ :=
    wfv_add_vertex (g.mul_scalar (ScalarN.Exact 1 ⟨-1, 0, -1, 0⟩)) VType.Z 0 hw
  have hfold := tcount_phase_fold 1 (by decide)
    (fun h v => (h.add_to_phase v (mkRat 1 4)).add_edge_with_type v
      ((g.mul_scalar (ScalarN.Exact 1 ⟨-1, 0, -1, 0⟩)).add_vertex_with_phase
        VType.Z 0).2 EType.H)
    (fun _ _ => rfl) vs
    (((g.mul_scalar (ScalarN.Exact 1 ⟨-1, 0, -1, 0⟩)).add_vertex_with_phase
      VType.Z 0).1) htnd hnd2
    (fun v hv => hasT_add_vertex _ VType.Z 0 v (hts v hv))
  have htc := tcount_add_vertex (g.mul_scalar (ScalarN.Exact 1 ⟨-1, 0, -1, 0⟩))
    VType.Z 0 (by decide)
  rw [htc] at hfold
  exact hfold

theorem wfv_replace_o6 (g : Graph) (vs : List V) (h : g.wfv) :
    (Decomposer.replace_o6 g vs).wfv := by
  refine wfv_foldl ?_ ?_ vs _ (wfv_add_vertex _ VType.Z 0 h)
  · intro h v
    exact vertexIds_add_to_phase _ v _
  · intro h v
    rfl

theorem tcount_replace_k6 (g : Graph) (vs : List V) (hw : g.wfv)
    (htnd : vs.Nodup) (hts : ∀ v ∈ vs, hasT g v) :
    (Decomposer.replace_k6 g vs).tcount + vs.length = g.tcount := by
  obtain ⟨hnd2, hb2⟩ :=
    wfv_add_vertex (g.mul_scalar (ScalarN.Exact 1 ⟨1, 0, 0, 0⟩)) VType.Z
      (mkRat (-1) 2) hw
  have hfold := tcount_phase_fold (-1) (by decide)
    (fun h v => (h.add_to_phase v (mkRat (-1) 4)).add_edge_with_type v
      ((g.mul_scalar (ScalarN.Exact 1 ⟨1, 0, 0, 0⟩)).add_vertex_with_phase
        VType.Z (mkRat (-1) 2)).2 EType.N)
    (fun _ _ => rfl) vs
    (((g.mul_scalar (ScalarN.Exact 1 ⟨1, 0, 0, 0⟩)).add_vertex_with_phase
      VType.Z (mkRat (-1) 2)).1) htnd hnd2
    (fun v hv => hasT_add_vertex _ VType.Z (mkRat (-1) 2) v (hts v hv))
  have htc := tcount_add_vertex (g.mul_scalar (ScalarN.Exact 1 ⟨1, 0, 0, 0⟩))
    VType.Z (mkRat (-1) 2) (by decide)
  rw [htc] at hfold
  exact hfold

theorem wfv_replace_k6 (g : Graph) (vs : List V) (h : g.wfv) :
    (Decomposer.replace_k6 g vs).wfv := by
  refine wfv_foldl ?_ ?_ vs _ (wfv_add_vertex _ VType.Z (mkRat (-1) 2) h)
  · intro h v
    exact vertexIds_add_to_phase _ v _
  · intro h v
    rfl

theorem tcount_replace_epr (g : Graph) (vs : List V) (hw : g.wfv)
    (htnd : vs.Nodup) (hts : ∀ v ∈ vs, hasT g v) :
    (Decomposer.replace_epr g vs).tcount + vs.length = g.tcount := by
  obtain ⟨hnd2, hb2⟩ :=
    wfv_add_vertex (g.mul_scalar (ScalarN.from_phase (mkRat 1 4))) VType.Z 1 hw
  have hfold := tcount_phase_fold (-1) (by decide)
    (fun h v => (h.add_edge_with_type v
      ((g.mul_scalar (ScalarN.from_phase (mkRat 1 4))).add_vertex_with_phase
        VType.Z 1).2 EType.H).add_to_phase v (mkRat (-1) 4))
    (fun _ _ => rfl) vs
    (((g.mul_scalar (ScalarN.from_phase (mkRat 1 4))).add_vertex_with_phase
      VType.Z 1).1) htnd hnd2
    (fun v hv => hasT_add_vertex _ VType.Z 1 v (hts v hv))
  have htc := tcount_add_vertex (g.mul_scalar (ScalarN.from_phase (mkRat 1 4)))
    VType.Z 1 (by decide)
  rw [htc] at hfold
  exact hfold

theorem wfv_replace_epr (g : Graph) (vs : List V) (h : g.wfv) :
    (Decomposer.replace_epr g vs).wfv := by
  refine wfv_foldl ?_ ?_ vs _ (wfv_add_vertex _ VType.Z 1 h)
  · intro h v
    exact vertexIds_add_to_phase _ v _
  · intro h v
    rfl

theorem tcount_replace_t0 (g : Graph) (vs : List V) (hw : g.wfv)
    (hv : hasT g (vs.getD 0 0)) :
    (Decomposer.replace_t0 g vs).tcount + 1 = g.tcount := by
  obtain ⟨hnd2, hb2⟩ :=
    wfv_add_vertex (g.mul_scalar (ScalarN.Exact (-1) ⟨0, 1, 0, -1⟩)) VType.Z
      0 hw
  have h1 := tcount_add_to_phase_T
    ((((g.mul_scalar (ScalarN.Exact (-1) ⟨0, 1, 0, -1⟩)).add_vertex_with_phase
      VType.Z 0).1).add_edge_with_type (vs.getD 0 0)
      ((g.mul_scalar (ScalarN.Exact (-1) ⟨0, 1, 0, -1⟩)).add_vertex_with_phase
        VType.Z 0).2 EType.H)
    (vs.getD 0 0) (-1) (by decide) hnd2
    (hasT_add_vertex _ VType.Z 0 _ hv)
  have h2 := tcount_add_vertex (g.mul_scalar (ScalarN.Exact (-1) ⟨0, 1, 0, -1⟩))
    VType.Z 0 (by decide)
  exact h1.trans h2

theorem wfv_replace_t0 (g : Graph) (vs : List V) (h : g.wfv) :
    (Decomposer.replace_t0 g vs).wfv :=
  wfv_add_to_phase _ _ _ (wfv_add_edge _ _ _ _ (wfv_add_vertex _ VType.Z 0 h))

theorem tcount_replace_t1 (g : Graph) (vs : List V) (hw : g.wfv)
    (hv : hasT g (vs.getD 0 0)) :
    (Decomposer.replace_t1 g vs).tcount + 1 = g.tcount := by
  obtain ⟨hnd2, hb2⟩ :=
    wfv_add_vertex (g.mul_scalar (ScalarN.Exact (-1) ⟨1, 0, 1, 0⟩)) VType.Z
      1 hw
  have h1 := tcount_add_to_phase_T
    ((((g.mul_scalar (ScalarN.Exact (-1) ⟨1, 0, 1, 0⟩)).add_vertex_with_phase
      VType.Z 1).1).add_edge_with_type (vs.getD 0 0)
      ((g.mul_scalar (ScalarN.Exact (-1) ⟨1, 0, 1, 0⟩)).add_vertex_with_phase
        VType.Z 1).2 EType.H)
    (vs.getD 0 0) (-1) (by decide) hnd2
    (hasT_add_vertex _ VType.Z 1 _ hv)
  have h2 := tcount_add_vertex (g.mul_scalar (ScalarN.Exact (-1) ⟨1, 0, 1, 0⟩))
    VType.Z 1 (by decide)
  exact h1.trans h2

theorem wfv_replace_t1 (g : Graph) (vs : List V) (h : g.wfv) :
    (Decomposer.replace_t1 g vs).wfv :=
  wfv_add_to_phase _ _ _ (wfv_add_edge _ _ _ _ (wfv_add_vertex _ VType.Z 1 h))

theorem tcount_replace_bell_s (g : Graph) (vs : List V)
    (hnd : g.vertexIds.Nodup) (hne : vs.getD 0 0 ≠ vs.getD 1 0)
    (h0 : hasT g (vs.getD 0 0)) (h1 : hasT g (vs.getD 1 0)) :
    (Decomposer.replace_bell_s g vs).tcount + 2 = g.tcount := by
  have ha := tcount_add_to_phase_T
    (g.add_edge_smart (vs.getD 0 0) (vs.getD 1 0) EType.N)
    (vs.getD 0 0) (-1) (by decide) hnd h0
  have hb := tcount_add_to_phase_T
    ((g.add_edge_smart (vs.getD 0 0) (vs.getD 1 0) EType.N).add_to_phase
      (vs.getD 0 0) (mkRat (-1) 4))
    (vs.getD 1 0) 1 (by decide)
    (by rw [vertexIds_add_to_phase]; exact hnd)
    (hasT_add_to_phase_other _ (vs.getD 0 0) _ (vs.getD 1 0)
      (fun he => hne he.symm) h1)
  have hc : (g.add_edge_smart (vs.getD 0 0) (vs.getD 1 0) EType.N).tcount
      = g.tcount := rfl
  unfold Decomposer.replace_bell_s
  omega

theorem wfv_replace_bell_s (g : Graph) (vs : List V) (h : g.wfv) :
    (Decomposer.replace_bell_s g vs).wfv :=
  wfv_add_to_phase _ _ _ (wfv_add_to_phase _ _ _ h)

theorem tinv_phi_block (g : Graph) (v a b : V) (pend : List V)
    (hw : g.wfv) (hv : hasT g v)
    (hpend : ∀ w ∈ pend, hasT g w) (hvp : v ∉ pend) :
    (((((g.add_vertex VType.Z).1).add_edge_with_type a
        ((g.add_vertex VType.Z).2) EType.H).add_edge_with_type
        ((g.add_vertex VType.Z).2) b EType.H).add_to_phase v
        (mkRat (-1) 4)).tcount + 1 = g.tcount ∧
    (((((g.add_vertex VType.Z).1).add_edge_with_type a
        ((g.add_vertex VType.Z).2) EType.H).add_edge_with_type
        ((g.add_vertex VType.Z).2) b EType.H).add_to_phase v
        (mkRat (-1) 4)).wfv ∧
    ∀ w ∈ pend, hasT (((((g.add_vertex VType.Z).1).add_edge_with_type a
        ((g.add_vertex VType.Z).2) EType.H).add_edge_with_type
        ((g.add_vertex VType.Z).2) b EType.H).add_to_phase v
        (mkRat (-1) 4)) w := by
  obtain ⟨hnd1, hb1⟩ := wfv_add_vertex g VType.Z 0 hw
  refine ⟨?_, ?_, ?_⟩
  · have h1 := tcount_add_to_phase_T
      ((((g.add_vertex VType.Z).1).add_edge_with_type a
        ((g.add_vertex VType.Z).2) EType.H).add_edge_with_type
        ((g.add_vertex VType.Z).2) b EType.H)
      v (-1) (by decide) hnd1 (hasT_add_vertex g VType.Z 0 v hv)
    have h2 := tcount_add_vertex g VType.Z 0 (by decide)
    exact h1.trans h2
  · exact wfv_add_to_phase _ _ _ (wfv_add_edge _ _ _ _
      (wfv_add_edge _ _ _ _ (wfv_add_vertex g VType.Z 0 hw)))
  · intro w hmem
    exact hasT_add_to_phase_other _ v _ w
      (fun he => hvp (he ▸ hmem))
      (hasT_add_vertex g VType.Z 0 w (hpend w hmem))

theorem tcount_replace_phi1_six (g : Graph) (v0 v1 v2 v3 v4 v5 : V)
    (hw : g.wfv) (hnd6 : [v0, v1, v2, v3, v4, v5].Nodup)
    (hts : ∀ v ∈ [v0, v1, v2, v3, v4, v5], hasT g v) :
    (Decomposer.replace_phi1 g [v0, v1, v2, v3, v4, v5]).tcount + 6
      = g.tcount := by
  obtain ⟨h0m, hnd5⟩ := List.nodup_cons.mp hnd6
  obtain ⟨h1m, hnd4⟩ := List.nodup_cons.mp hnd5
  obtain ⟨h2m, hnd3⟩ := List.nodup_cons.mp hnd4
  obtain ⟨h3m, hnd2⟩ := List.nodup_cons.mp hnd3
  obtain ⟨h4m, hnd1⟩ := List.nodup_cons.mp hnd2
  obtain ⟨tc1, wf1, mem1⟩ := tinv_phi_block
    (g.mul_scalar (ScalarN.Exact 3 ⟨1, 0, 1, 0⟩)) v0 v0 v5
    [v1, v2, v3, v4, v5] hw (hts v0 (by simp))
    (fun w hmem => hts w (List.mem_cons_of_mem v0 hmem)) h0m
  obtain ⟨tc2, wf2, mem2⟩ := tinv_phi_block _ v1 v1 v5
    [v2, v3, v4, v5] wf1 (mem1 v1 (by simp))
    (fun w hmem => mem1 w (List.mem_cons_of_mem v1 hmem)) h1m
  obtain ⟨tc3, wf3, mem3⟩ := tinv_phi_block _ v2 v2 v5
    [v3, v4, v5] wf2 (mem2 v2 (by simp))
    (fun w hmem => mem2 w (List.mem_cons_of_mem v2 hmem)) h2m
  obtain ⟨tc4, wf4, mem4⟩ := tinv_phi_block _ v3 v3 v5
    [v4, v5] wf3 (mem3 v3 (by simp))
    (fun w hmem => mem3 w (List.mem_cons_of_mem v3 hmem)) h3m
  obtain ⟨tc5, wf5, mem5⟩ := tinv_phi_block _ v4 v4 v5
    [v5] wf4 (mem4 v4 (by simp))
    (fun w hmem => mem4 w (List.mem_cons_of_mem v4 hmem)) h4m
  have h6 := tcount_add_to_phase_T _ v5 3 (by decide) wf5.1
    (mem5 v5 (by simp))
  have h0 : (g.mul_scalar (ScalarN.Exact 3 ⟨1, 0, 1, 0⟩)).tcount
      = g.tcount := rfl
  unfold Decomposer.replace_phi1
  simp only [List.getD_cons_zero, List.getD_cons_succ, tcount_add_edge]
  omega



theorem exists_six (l : List V) (h : l.length = 6) :
    ∃ a b c d e f, l = [a, b, c, d, e, f] := by
  cases l with
  | nil => simp at h
  | cons a l =>
  cases l with
  | nil => simp at h
  | cons b l =>
  cases l with
  | nil => simp at h
  | cons c l =>
  cases l with
  | nil => simp at h
  | cons d l =>
  cases l with
  | nil => simp at h
  | cons e l =>
  cases l with
  | nil => simp at h
  | cons f l =>
  cases l with
  | nil => exact ⟨a, b, c, d, e, f, rfl⟩
  | cons x l => simp at h

theorem tcount_replace_phi1 (g : Graph) (vs : List V) (hw : g.wfv)
    (hlen : vs.length = 6) (htnd : vs.Nodup)
    (hts : ∀ v ∈ vs, hasT g v) :
    (Decomposer.replace_phi1 g vs).tcount + 6 = g.tcount := by
  obtain ⟨a, b, c, d, e, f, rfl⟩ := exists_six vs hlen
  exact tcount_replace_phi1_six g a b c d e f hw htnd hts

theorem tcount_replace_phi2_six (g : Graph) (v0 v1 v2 v3 v4 v5 : V)
    (hw : g.wfv) (hnd6 : [v0, v1, v2, v3, v4, v5].Nodup)
    (hts : ∀ v ∈ [v0, v1, v2, v3, v4, v5], hasT g v) :
    (Decomposer.replace_phi2 g [v0, v1, v2, v3, v4, v5]).tcount + 6
      = g.tcount := by
  have hperm : ([v0, v1, v3, v4, v5, v2] : List V).Perm
      [v0, v1, v2, v3, v4, v5] :=
    ((List.perm_append_singleton v2 [v3, v4, v5]).cons v1).cons v0
  exact tcount_replace_phi1_six g v0 v1 v3 v4 v5 v2 hw
    (hperm.symm.nodup hnd6) (fun v hv => hts v (hperm.mem_iff.mp hv))

theorem tcount_replace_phi2 (g : Graph) (vs : List V) (hw : g.wfv)
    (hlen : vs.length = 6) (htnd : vs.Nodup)
    (hts : ∀ v ∈ vs, hasT g v) :
    (Decomposer.replace_phi2 g vs).tcount + 6 = g.tcount := by
  obtain ⟨a, b, c, d, e, f, rfl⟩ := exists_six vs hlen
  exact tcount_replace_phi2_six g a b c d e f hw htnd hts

theorem wfv_replace_phi1 (g : Graph) (vs : List V) (h : g.wfv) :
    (Decomposer.replace_phi1 g vs).wfv :=
  (wfv_add_edge _ _ _ _ (wfv_add_edge _ _ _ _ (wfv_add_edge _ _ _ _ (wfv_add_edge _ _ _ _ (wfv_add_edge _ _ _ _ (wfv_add_to_phase _ _ _ (wfv_add_to_phase _ _ _ (wfv_add_edge _ _ _ _ (wfv_add_edge _ _ _ _ (wfv_add_vertex _ VType.Z 0 (wfv_add_to_phase _ _ _ (wfv_add_edge _ _ _ _ (wfv_add_edge _ _ _ _ (wfv_add_vertex _ VType.Z 0 (wfv_add_to_phase _ _ _ (wfv_add_edge _ _ _ _ (wfv_add_edge _ _ _ _ (wfv_add_vertex _ VType.Z 0 (wfv_add_to_phase _ _ _ (wfv_add_edge _ _ _ _ (wfv_add_edge _ _ _ _ (wfv_add_vertex _ VType.Z 0 (wfv_add_to_phase _ _ _ (wfv_add_edge _ _ _ _ (wfv_add_edge _ _ _ _ (wfv_add_vertex _ VType.Z 0 (wfv_mul_scalar _ _ h)))))))))))))))))))))))))))

theorem wfv_replace_phi2 (g : Graph) (vs : List V) (h : g.wfv) :
    (Decomposer.replace_phi2 g vs).wfv :=
  wfv_replace_phi1 g _ h

theorem first_ts_good (g : Graph) (hnd : g.vertexIds.Nodup) :
    good_sel g (Decomposer.first_ts g) := by
  refine ⟨?_, ?_, ?_⟩
  · refine List.Nodup.sublist (List.take_sublist _ _) ?_
    refine List.Nodup.sublist ?_ hnd
    exact (List.filter_sublist _).map _
  · rw [Decomposer.first_ts, List.length_take, List.length_map]
    rfl
  · intro v hv
    have hv2 := List.mem_of_mem_take hv
    obtain ⟨p, hp, rfl⟩ := List.mem_map.mp hv2
    have hpf := List.mem_filter.mp hp
    exact ⟨p, hpf.1, rfl, of_decide_eq_true hpf.2⟩

theorem getD_set_perm : ∀ (l : List V) (i : ℕ) (a : V), i < l.length →
    (l.getD i 0 :: l.set i a).Perm (a :: l) := by
  intro l
  induction l with
  | nil => intro i a h; simp at h
  | cons b t ih =>
    intro i a h
    cases i with
    | zero =>
      simp only [List.getD_cons_zero, List.set_cons_zero]
      exact List.Perm.swap a b t
    | succ i =>
      simp only [List.getD_cons_succ, List.set_cons_succ]
      have h1 : (t.getD i 0 :: b :: t.set i a).Perm
          (b :: t.getD i 0 :: t.set i a) := List.Perm.swap b (t.getD i 0) _
      have h2 : (b :: t.getD i 0 :: t.set i a).Perm (b :: a :: t) :=
        (ih i a (by simpa using h)).cons b
      have h3 : (b :: a :: t).Perm (a :: b :: t) := List.Perm.swap a b t
      exact (h1.trans h2).trans h3

theorem getLast?_set_getD (l : List V) (i : ℕ) (x : V) (h : i < l.length) :
    ((l.set i x).getLast?).getD 0
      = if i = l.length - 1 then x else l.getLast?.getD 0 := by
  rw [List.getLast?_eq_getElem?, List.getLast?_eq_getElem?, List.length_set,
    List.getElem?_set]
  by_cases he : i = l.length - 1
  · rw [if_pos he, if_pos he, if_pos (by omega)]
    rfl
  · rw [if_neg he, if_neg he]

theorem swap_remove_perm (l : List V) (i : ℕ) (hi : i < l.length) :
    ((Decomposer.swap_remove l i).1
      :: (Decomposer.swap_remove l i).2).Perm l := by
  have hlen : (l.set i (l.getLast?.getD 0)).length = l.length :=
    List.length_set l i _
  have hne : l.set i (l.getLast?.getD 0) ≠ [] := by
    intro he
    rw [he] at hlen
    simp at hlen
    omega
  have hg := getLast?_set_getD l i (l.getLast?.getD 0) hi
  rw [ite_self] at hg
  have h2 : (l.set i (l.getLast?.getD 0)).getLast hne = l.getLast?.getD 0 := by
    rw [List.getLast?_eq_getLast _ hne] at hg
    simpa using hg
  have hsplit : (l.set i (l.getLast?.getD 0)).dropLast ++ [l.getLast?.getD 0]
      = l.set i (l.getLast?.getD 0) := by
    have hd := List.dropLast_append_getLast hne
    rw [h2] at hd
    exact hd
  have hperm := getD_set_perm l i (l.getLast?.getD 0) hi
  rw [← hsplit] at hperm
  have hmove : (l.getD i 0 :: ((l.set i (l.getLast?.getD 0)).dropLast
        ++ [l.getLast?.getD 0])).Perm
      (l.getLast?.getD 0 :: l.getD i 0
        :: (l.set i (l.getLast?.getD 0)).dropLast) := by
    have hstep : ((l.set i (l.getLast?.getD 0)).dropLast
        ++ [l.getLast?.getD 0]).Perm
        (l.getLast?.getD 0 :: (l.set i (l.getLast?.getD 0)).dropLast) :=
      List.perm_append_singleton _ _
    exact (hstep.cons (l.getD i 0)).trans
      (List.Perm.swap (l.getLast?.getD 0) (l.getD i 0) _)
  exact (hmove.symm.trans hperm).cons_inv

theorem random_ts_loop_spec : ∀ (n : ℕ) (all_t : List V) (rands : List ℕ)
    (t : List V), all_t.length ≤ n → t.length ≤ 6 →
    ∃ sel rest,
      Decomposer.random_ts_loop all_t rands t = t ++ sel ∧
      (sel ++ rest).Perm all_t ∧
      (t ++ sel).length = min 6 (t.length + all_t.length) := by
  intro n
  induction n with
  | zero =>
    intro all_t rands t hlen ht6
    have hat : all_t = [] := List.length_eq_zero.mp (Nat.le_zero.mp hlen)
    subst hat
    unfold Decomposer.random_ts_loop
    refine ⟨[], [], by simp, by simp, ?_⟩
    simp [Nat.min_eq_right ht6]
  | succ n ih =>
    intro all_t rands t hlen ht6
    unfold Decomposer.random_ts_loop
    by_cases hc : t.length < 6 ∧ all_t ≠ []
    · rw [if_pos hc]
      obtain ⟨h6, hne⟩ := hc
      have hpos : 0 < all_t.length := List.length_pos.mpr hne
      have hi : rands.headD 0 % all_t.length < all_t.length :=
        Nat.mod_lt _ hpos
      have hperm := swap_remove_perm all_t (rands.headD 0 % all_t.length) hi
      have hplen : (Decomposer.swap_remove all_t
          (rands.headD 0 % all_t.length)).2.length + 1 = all_t.length := by
        have hle := hperm.length_eq
        simpa using hle
      have hlen2 : (Decomposer.swap_remove all_t
          (rands.headD 0 % all_t.length)).2.length ≤ n := by omega
      have ht6n : (t ++ [(Decomposer.swap_remove all_t
          (rands.headD 0 % all_t.length)).1]).length ≤ 6 := by
        simp
        omega
      obtain ⟨sel, rest, he, hp, hl⟩ := ih (Decomposer.swap_remove all_t
        (rands.headD 0 % all_t.length)).2 rands.tail
        (t ++ [(Decomposer.swap_remove all_t
          (rands.headD 0 % all_t.length)).1]) hlen2 ht6n
      refine ⟨(Decomposer.swap_remove all_t
        (rands.headD 0 % all_t.length)).1 :: sel, rest, ?_, ?_, ?_⟩
      · rw [he]
        simp
      · exact (hp.cons _).trans hperm
      · simp only [List.length_append, List.length_cons, List.length_nil,
          List.length_singleton] at hl ⊢
        omega
    · rw [if_neg hc]
      push_neg at hc
      refine ⟨[], all_t, by simp, by simp, ?_⟩
      by_cases h6 : t.length < 6
      · have hat : all_t = [] := hc h6
        subst hat
        simp [Nat.min_eq_right ht6]
      · have h66 : t.length = 6 := by omega
        rw [List.append_nil, h66, Nat.min_eq_left (by omega)]

theorem random_ts_good (g : Graph) (hnd : g.vertexIds.Nodup)
    (rands : List ℕ) : good_sel g (Decomposer.random_ts g rands) := by
  have hatnd : ((g.verts.filter
      (fun p => p.2.phase.den = 4)).map Prod.fst).Nodup :=
    List.Nodup.sublist ((List.filter_sublist _).map _) hnd
  obtain ⟨sel, rest, he, hp, hl⟩ := random_ts_loop_spec
    ((g.verts.filter (fun p => p.2.phase.den = 4)).map Prod.fst).length
    ((g.verts.filter (fun p => p.2.phase.den = 4)).map Prod.fst) rands []
    le_rfl (by simp)
  have hres : Decomposer.random_ts g rands = sel := by
    unfold Decomposer.random_ts
    rw [he]
    simp
  rw [hres]
  refine ⟨?_, ?_, ?_⟩
  · exact List.Nodup.of_append_left (hp.nodup_iff.mpr hatnd)
  · simp only [List.nil_append, List.length_nil, Nat.zero_add] at hl
    rw [hl, List.length_map]
    rfl
  · intro v hv
    have hv2 : v ∈ (g.verts.filter
        (fun p => p.2.phase.den = 4)).map Prod.fst :=
      hp.mem_iff.mp (List.mem_append_left rest hv)
    obtain ⟨p, hpm, rfl⟩ := List.mem_map.mp hv2
    have hpf := List.mem_filter.mp hpm
    exact ⟨p, hpf.1, rfl, of_decide_eq_true hpf.2⟩

theorem tcount_simp_app (fsimp : Graph → Graph)
    (hT : ∀ h, (fsimp h).tcount ≤ h.tcount) (sf : SimpFunc) (h : Graph) :
    (Decomposer.simp_app fsimp sf h).tcount ≤ h.tcount := by
  cases sf with
  | FullSimp => exact hT h
  | NoSimp => exact le_refl _

theorem wfv_simp_app (fsimp : Graph → Graph)
    (hW : ∀ h, h.wfv → (fsimp h).wfv) (sf : SimpFunc) (h : Graph)
    (hw : h.wfv) : (Decomposer.simp_app fsimp sf h).wfv := by
  cases sf with
  | FullSimp => exact hW h hw
  | NoSimp => exact hw

theorem children_fuel_sum (fsimp : Graph → Graph) (sf : SimpFunc)
    (depth : ℕ) (g : Graph) (vs : List V) (m : ℕ)
    (hT : ∀ h, (fsimp h).tcount ≤ h.tcount) :
    ∀ fs : List (Graph → List V → Graph),
      (∀ f ∈ fs, (f g vs).tcount ≤ m) →
      ((fs.map (fun f =>
          (depth, Decomposer.simp_app fsimp sf (f g vs)))).map
        (fun e => 8 ^ e.2.tcount)).sum ≤ fs.length * 8 ^ m := by
  intro fs
  induction fs with
  | nil => intro _; simp
  | cons f fs ih =>
    intro hk
    simp only [List.map_cons, List.sum_cons, List.length_cons]
    have h1 : (Decomposer.simp_app fsimp sf (f g vs)).tcount ≤ m :=
      le_trans (tcount_simp_app fsimp hT sf _)
        (hk f (List.mem_cons_self f fs))
    have h2 : 8 ^ (Decomposer.simp_app fsimp sf (f g vs)).tcount ≤ 8 ^ m :=
      Nat.pow_le_pow_right (by omega) h1
    have h3 := ih (fun f hf => hk f (List.mem_cons_of_mem _ hf))
    rw [Nat.succ_mul, Nat.add_comm (fs.length * 8 ^ m)]
    exact Nat.add_le_add h2 h3

theorem children_tcount_bss (g : Graph) (ts : List V) (hg : g.wfv)
    (hnd : ts.Nodup) (hts : ∀ v ∈ ts, hasT g v) (hlen : ts.length = 6) :
    ∀ f ∈ [Decomposer.replace_b60, Decomposer.replace_b66,
      Decomposer.replace_e6, Decomposer.replace_o6, Decomposer.replace_k6,
      Decomposer.replace_phi1, Decomposer.replace_phi2],
      (f g ts).tcount + 6 = g.tcount := by
  have htake : ts.take 6 = ts := List.take_of_length_le (le_of_eq hlen)
  intro f hf
  fin_cases hf
  · have hx := tcount_replace_b60 g ts hg.1 hnd hts
    rw [htake, hlen] at hx
    exact hx
  · have hx := tcount_replace_b66 g ts hg.1 hnd hts
    rw [hlen] at hx
    exact hx
  · have hx := tcount_replace_e6 g ts hg hnd hts
    rw [hlen] at hx
    exact hx
  · have hx := tcount_replace_o6 g ts hg hnd hts
    rw [hlen] at hx
    exact hx
  · have hx := tcount_replace_k6 g ts hg hnd hts
    rw [hlen] at hx
    exact hx
  · exact tcount_replace_phi1 g ts hg hlen hnd hts
  · exact tcount_replace_phi2 g ts hg hlen hnd hts

theorem children_wfv_bss (g : Graph) (ts : List V) (hg : g.wfv) :
    ∀ f ∈ [Decomposer.replace_b60, Decomposer.replace_b66,
      Decomposer.replace_e6, Decomposer.replace_o6, Decomposer.replace_k6,
      Decomposer.replace_phi1, Decomposer.replace_phi2],
      (f g ts).wfv := by
  intro f hf
  fin_cases hf
  · exact wfv_replace_b60 g ts hg
  · exact wfv_replace_b66 g ts hg
  · exact wfv_replace_e6 g ts hg
  · exact wfv_replace_o6 g ts hg
  · exact wfv_replace_k6 g ts hg
  · exact wfv_replace_phi1 g ts hg
  · exact wfv_replace_phi2 g ts hg

theorem children_tcount_sym (g : Graph) (ts : List V) (hg : g.wfv)
    (hnd : ts.Nodup) (hts : ∀ v ∈ ts, hasT g v) (hlen : 2 ≤ ts.length) :
    ∀ f ∈ [Decomposer.replace_bell_s, Decomposer.replace_epr],
      (f g (ts.take 2)).tcount + 2 = g.tcount := by
  cases ts with
  | nil => simp at hlen
  | cons a l =>
  cases l with
  | nil => simp at hlen
  | cons b l =>
  intro f hf
  have hab : a ≠ b := by
    have hx := List.nodup_cons.mp hnd
    exact fun he => hx.1 (he ▸ List.mem_cons_self b l)
  have ha : hasT g a := hts a (by simp)
  have hb : hasT g b := hts b (by simp)
  fin_cases hf
  · exact tcount_replace_bell_s g [a, b] hg.1 hab ha hb
  · have hx := tcount_replace_epr g [a, b] hg (by simp [hab])
      (by intro v hv; rcases List.mem_cons.mp hv with h1 | h1
          · rw [h1]; exact ha
          · rw [List.mem_singleton.mp h1]; exact hb)
    exact hx

theorem children_wfv_sym (g : Graph) (vs : List V) (hg : g.wfv) :
    ∀ f ∈ [Decomposer.replace_bell_s, Decomposer.replace_epr],
      (f g vs).wfv := by
  intro f hf
  fin_cases hf
  · exact wfv_replace_bell_s g vs hg
  · exact wfv_replace_epr g vs hg

theorem children_tcount_single (g : Graph) (ts : List V) (hg : g.wfv)
    (hts : ∀ v ∈ ts, hasT g v) (hlen : ts.length = 1) :
    ∀ f ∈ [Decomposer.replace_t0, Decomposer.replace_t1],
      (f g ts).tcount + 1 = g.tcount := by
  cases ts with
  | nil => simp at hlen
  | cons a l =>
  cases l with
  | cons b l => simp at hlen
  | nil =>
  intro f hf
  have ha : hasT g ([a].getD 0 0) := hts a (by simp)
  fin_cases hf
  · exact tcount_replace_t0 g [a] hg ha
  · exact tcount_replace_t1 g [a] hg ha

theorem children_wfv_single (g : Graph) (vs : List V) (hg : g.wfv) :
    ∀ f ∈ [Decomposer.replace_t0, Decomposer.replace_t1], (f g vs).wfv := by
  intro f hf
  fin_cases hf
  · exact wfv_replace_t0 g vs hg
  · exact wfv_replace_t1 g vs hg



theorem push_decomp_eq (fsimp : Graph → Graph) (d : Decomposer)
    (fs : List (Graph → List V → Graph)) (depth : ℕ) (g : Graph)
    (verts : List V) :
    Decomposer.push_decomp fsimp d fs depth g verts =
      { d with stack := d.stack ++ fs.map (fun f =>
          (depth, Decomposer.simp_app fsimp d.simp_func (f g verts))) } := by
  induction fs generalizing d with
  | nil => simp [Decomposer.push_decomp]
  | cons f fs ih =>
    unfold Decomposer.push_decomp
    rw [List.foldl_cons]
    have ih1 := ih { d with stack := d.stack ++ [(depth,
      Decomposer.simp_app fsimp d.simp_func (f g verts))] }
    unfold Decomposer.push_decomp at ih1
    rw [ih1]
    simp

theorem decomp_ts_step (fsimp : Graph → Graph)
    (hT : ∀ h, (fsimp h).tcount ≤ h.tcount)
    (hW : ∀ h, h.wfv → (fsimp h).wfv)
    (d : Decomposer) (depth : ℕ) (g : Graph) (ts : List V)
    (hg : g.wfv) (hsel : good_sel g ts) :
    ∃ ch : List (ℕ × Graph),
      (Decomposer.decomp_ts fsimp d depth g ts).stack = d.stack ++ ch ∧
      (∀ e ∈ ch, e.2.wfv ∧ e.2.tcount < g.tcount) ∧
      ((ch.map (fun e => 8 ^ e.2.tcount)).sum + 1 ≤ 8 ^ g.tcount) := by
  obtain ⟨hnd, hlen, hts⟩ := hsel
  unfold Decomposer.decomp_ts
  by_cases h6 : ts.length = 6
  · rw [if_pos h6]
    have ht6 : 6 ≤ g.tcount := by omega
    have hk := children_tcount_bss g ts hg hnd hts h6
    refine ⟨[Decomposer.replace_b60, Decomposer.replace_b66,
      Decomposer.replace_e6, Decomposer.replace_o6, Decomposer.replace_k6,
      Decomposer.replace_phi1, Decomposer.replace_phi2].map
        (fun f => (depth + 1,
          Decomposer.simp_app fsimp d.simp_func (f g ts))), ?_, ?_, ?_⟩
    · unfold Decomposer.push_bss_decomp
      rw [push_decomp_eq]
    · intro e he
      obtain ⟨f, hf, rfl⟩ := List.mem_map.mp he
      refine ⟨wfv_simp_app fsimp hW d.simp_func _
        (children_wfv_bss g ts hg f hf), ?_⟩
      show (Decomposer.simp_app fsimp d.simp_func (f g ts)).tcount < g.tcount
      have h1 := tcount_simp_app fsimp hT d.simp_func (f g ts)
      have h2 := hk f hf
      omega
    · have harith : 7 * 8 ^ (g.tcount - 6) + 1 ≤ 8 ^ g.tcount := by
        have hx : 1 ≤ 8 ^ (g.tcount - 6) := Nat.one_le_pow _ _ (by omega)
        have hxe : 8 ^ g.tcount = 8 ^ (g.tcount - 6) * 262144 := by
          rw [show (262144 : ℕ) = 8 ^ 6 from by norm_num, ← pow_add]
          congr 1
          omega
        omega
      have hkle : ∀ f ∈ [Decomposer.replace_b60, Decomposer.replace_b66,
          Decomposer.replace_e6, Decomposer.replace_o6,
          Decomposer.replace_k6, Decomposer.replace_phi1,
          Decomposer.replace_phi2], (f g ts).tcount ≤ g.tcount - 6 := by
        intro f hf
        have hx := hk f hf
        omega
      have hsum := children_fuel_sum fsimp d.simp_func (depth + 1) g ts
        (g.tcount - 6) hT [Decomposer.replace_b60, Decomposer.replace_b66,
          Decomposer.replace_e6, Decomposer.replace_o6,
          Decomposer.replace_k6, Decomposer.replace_phi1,
          Decomposer.replace_phi2] hkle
      exact le_trans (Nat.add_le_add_right hsum 1) harith
  · rw [if_neg h6]
    by_cases h2 : 2 ≤ ts.length
    · rw [if_pos h2]
      have ht : g.tcount = ts.length := by omega
      have hk := children_tcount_sym g ts hg hnd hts h2
      refine ⟨[Decomposer.replace_bell_s, Decomposer.replace_epr].map
        (fun f => (depth + 1,
          Decomposer.simp_app fsimp d.simp_func (f g (ts.take 2)))),
        ?_, ?_, ?_⟩
      · unfold Decomposer.push_sym_decomp
        rw [push_decomp_eq]
      · intro e he
        obtain ⟨f, hf, rfl⟩ := List.mem_map.mp he
        refine ⟨wfv_simp_app fsimp hW d.simp_func _
          (children_wfv_sym g (ts.take 2) hg f hf), ?_⟩
        show (Decomposer.simp_app fsimp d.simp_func
          (f g (ts.take 2))).tcount < g.tcount
        have h1 := tcount_simp_app fsimp hT d.simp_func (f g (ts.take 2))
        have hr := hk f hf
        omega
      · have harith : 2 * 8 ^ (g.tcount - 2) + 1 ≤ 8 ^ g.tcount := by
          have hx : 1 ≤ 8 ^ (g.tcount - 2) := Nat.one_le_pow _ _ (by omega)
          have hxe : 8 ^ g.tcount = 8 ^ (g.tcount - 2) * 64 := by
            rw [show (64 : ℕ) = 8 ^ 2 from by norm_num, ← pow_add]
            congr 1
            omega
          omega
        have hkle : ∀ f ∈ [Decomposer.replace_bell_s,
            Decomposer.replace_epr],
            (f g (ts.take 2)).tcount ≤ g.tcount - 2 := by
          intro f hf
          have hx := hk f hf
          omega
        have hsum := children_fuel_sum fsimp d.simp_func (depth + 1) g
          (ts.take 2) (g.tcount - 2) hT
          [Decomposer.replace_bell_s, Decomposer.replace_epr] hkle
        exact le_trans (Nat.add_le_add_right hsum 1) harith
    · rw [if_neg h2]
      by_cases h1 : ts.length = 1
      · rw [if_pos h1]
        have ht : g.tcount = 1 := by omega
        have hk := children_tcount_single g ts hg hts h1
        refine ⟨[Decomposer.replace_t0, Decomposer.replace_t1].map
          (fun f => (depth + 1,
            Decomposer.simp_app fsimp d.simp_func (f g ts))), ?_, ?_, ?_⟩
        · unfold Decomposer.push_single_decomp
          rw [push_decomp_eq]
        · intro e he
          obtain ⟨f, hf, rfl⟩ := List.mem_map.mp he
          refine ⟨wfv_simp_app fsimp hW d.simp_func _
            (children_wfv_single g ts hg f hf), ?_⟩
          show (Decomposer.simp_app fsimp d.simp_func
            (f g ts)).tcount < g.tcount
          have hs1 := tcount_simp_app fsimp hT d.simp_func (f g ts)
          have hs2 := hk f hf
          omega
        · have harith : 2 * 8 ^ (g.tcount - 1) + 1 ≤ 8 ^ g.tcount := by
            have h80 : (8 : ℕ) ^ (g.tcount - 1) = 1 := by
              rw [ht]
              norm_num
            have h81 : (8 : ℕ) ^ g.tcount = 8 := by
              rw [ht, pow_one]
            omega
          have hkle : ∀ f ∈ [Decomposer.replace_t0, Decomposer.replace_t1],
              (f g ts).tcount ≤ g.tcount - 1 := by
            intro f hf
            have hx := hk f hf
            omega
          have hsum := children_fuel_sum fsimp d.simp_func (depth + 1) g ts
            (g.tcount - 1) hT
            [Decomposer.replace_t0, Decomposer.replace_t1] hkle
          exact le_trans (Nat.add_le_add_right hsum 1) harith
      · rw [if_neg h1]
        have ht0 : g.tcount = 0 := by omega
        refine ⟨[], ?_, ?_, ?_⟩
        · rw [List.append_nil]
          dsimp only
          split <;> rfl
        · intro e he
          simp at he
        · rw [ht0]
          simp



theorem pop_graph_eq_none_iff (d : Decomposer) :
    d.pop_graph = none ↔ d.stack = [] := by
  unfold Decomposer.pop_graph
  cases hl : d.stack.getLast? with
  | none => simpa using List.getLast?_eq_none_iff.mp hl
  | some e =>
    simp only [reduceCtorEq, false_iff]
    intro hs
    rw [hs] at hl
    simp at hl

theorem decomp_top_eq_none_iff (fsimp : Graph → Graph) (rands : List ℕ)
    (d : Decomposer) :
    Decomposer.decomp_top fsimp rands d = none ↔ d.stack = [] := by
  unfold Decomposer.decomp_top
  cases hl : d.stack.getLast? with
  | none => simpa using List.getLast?_eq_none_iff.mp hl
  | some e =>
    simp only [reduceCtorEq, false_iff]
    intro hs
    rw [hs] at hl
    simp at hl

theorem decomp_top_step (fsimp : Graph → Graph)
    (hT : ∀ h, (fsimp h).tcount ≤ h.tcount)
    (hW : ∀ h, h.wfv → (fsimp h).wfv)
    (rands : List ℕ) (d d' : Decomposer) (hwf : d.wfv_stack)
    (htop : Decomposer.decomp_top fsimp rands d = some d') :
    d'.stack_fuel < d.stack_fuel ∧ d'.wfv_stack ∧
      ∃ e ch, d.stack.getLast? = some e ∧
        d'.stack = d.stack.dropLast ++ ch ∧
        ∀ c ∈ ch, c.2.tcount < e.2.tcount := by
  unfold Decomposer.decomp_top at htop
  cases hgl : d.stack.getLast? with
  | none =>
    rw [hgl] at htop
    exact absurd htop (by simp)
  | some e =>
    rw [hgl] at htop
    have hd' : Decomposer.decomp_ts fsimp { d with stack := d.stack.dropLast }
        e.1 e.2 (if d.random_t then Decomposer.random_ts e.2 rands
          else Decomposer.first_ts e.2) = d' := by
      injection htop
    have hnel : d.stack ≠ [] := by
      intro h0
      rw [h0] at hgl
      simp at hgl
    have hee : d.stack.getLast hnel = e := by
      have hgl2 := List.getLast?_eq_getLast d.stack hnel
      rw [hgl2] at hgl
      exact Option.some.inj hgl
    have hmem : e ∈ d.stack := hee ▸ List.getLast_mem hnel
    have hg : e.2.wfv := hwf e hmem
    have hsel : good_sel e.2 (if d.random_t then Decomposer.random_ts e.2 rands
        else Decomposer.first_ts e.2) := by
      by_cases hr : d.random_t
      · rw [if_pos hr]
        exact random_ts_good e.2 hg.1 rands
      · rw [if_neg hr]
        exact first_ts_good e.2 hg.1
    obtain ⟨ch, hst, hche, hsum⟩ := decomp_ts_step fsimp hT hW
      { d with stack := d.stack.dropLast } e.1 e.2 _ hg hsel
    rw [hd'] at hst
    have hsplit : d.stack = d.stack.dropLast ++ [e] := by
      have h1 := List.dropLast_append_getLast hnel
      rw [hee] at h1
      exact h1.symm
    refine ⟨?_, ?_, e, ch, rfl, hst, fun c hc => (hche c hc).2⟩
    · have hfd : d.stack_fuel
          = (d.stack.dropLast.map (fun e => 8 ^ e.2.tcount)).sum
            + 8 ^ e.2.tcount := by
        show (d.stack.map (fun e => 8 ^ e.2.tcount)).sum = _
        conv_lhs => rw [hsplit]
        rw [List.map_append, List.sum_append]
        simp
      have hfd' : d'.stack_fuel
          = (d.stack.dropLast.map (fun e => 8 ^ e.2.tcount)).sum
            + (ch.map (fun e => 8 ^ e.2.tcount)).sum := by
        show (d'.stack.map (fun e => 8 ^ e.2.tcount)).sum = _
        rw [hst, List.map_append, List.sum_append]
      rw [hfd, hfd']
      have := Nat.add_lt_add_left (Nat.lt_of_succ_le hsum)
        ((d.stack.dropLast.map (fun e => 8 ^ e.2.tcount)).sum)
      exact this
    · intro c hc
      rw [hst] at hc
      rcases List.mem_append.mp hc with h1 | h1
      · exact hwf c ((List.dropLast_sublist d.stack).subset h1)
      · exact (hche c h1).1

theorem decomp_all_fuel_empties (fsimp : Graph → Graph)
    (hT : ∀ h, (fsimp h).tcount ≤ h.tcount)
    (hW : ∀ h, h.wfv → (fsimp h).wfv) :
    ∀ (n : ℕ) (oracle : ℕ → List ℕ) (d : Decomposer), d.wfv_stack →
      d.stack_fuel ≤ n →
      (Decomposer.decomp_all_fuel fsimp oracle n d).stack = [] := by
  intro n
  induction n with
  | zero =>
    intro oracle d hwf hle
    show d.stack = []
    cases hs : d.stack with
    | nil => rfl
    | cons e rest =>
      exfalso
      have hfuel : d.stack_fuel
          = (d.stack.map (fun e => 8 ^ e.2.tcount)).sum := rfl
      rw [hs, List.map_cons, List.sum_cons] at hfuel
      have hx : 1 ≤ 8 ^ e.2.tcount := Nat.one_le_pow _ _ (by omega)
      omega
  | succ n ih =>
    intro oracle d hwf hle
    have hstep : Decomposer.decomp_all_fuel fsimp oracle (n + 1) d
        = if d.stack.isEmpty then d
          else match Decomposer.decomp_top fsimp (oracle 0) d with
          | some d1 => Decomposer.decomp_all_fuel fsimp
              (fun k => oracle (k + 1)) n d1
          | none => d := rfl
    rw [hstep]
    by_cases hs : d.stack.isEmpty
    · rw [if_pos hs]
      exact List.isEmpty_iff.mp hs
    · rw [if_neg hs]
      cases htop : Decomposer.decomp_top fsimp (oracle 0) d with
      | none =>
        exfalso
        have hnil := (decomp_top_eq_none_iff fsimp (oracle 0) d).mp htop
        rw [hnil] at hs
        simp at hs
      | some d1 =>
        obtain ⟨hlt, hwf1, _⟩ := decomp_top_step fsimp hT hW (oracle 0) d d1
          hwf htop
        exact ih (fun k => oracle (k + 1)) d1 hwf1 (by omega)

theorem tcount_simp_app_exact (fsimp : Graph → Graph)
    (hTe : ∀ h, (fsimp h).tcount = h.tcount) (sf : SimpFunc) (h : Graph) :
    (Decomposer.simp_app fsimp sf h).tcount = h.tcount := by
  cases sf with
  | FullSimp => exact hTe h
  | NoSimp => rfl

theorem max_terms_foldl (l : List (ℕ × Graph)) (a : ℕ) :
    l.foldl (fun n e =>
      let t := Graph.tcount e.2
      let count := 7 ^ (t / 6)
      let t1 := t % 6
      let count1 := count * 2 ^ (t1 / 2)
      n + (if t1 % 2 = 1 then count1 * 2 else count1)) a
    = a + (l.map (fun e =>
        7 ^ (e.2.tcount / 6) * 2 ^ (e.2.tcount % 6 / 2) *
          (if e.2.tcount % 6 % 2 = 1 then 2 else 1))).sum := by
  induction l generalizing a with
  | nil => simp
  | cons e l ih =>
    rw [List.foldl_cons, ih, List.map_cons, List.sum_cons]
    have hpt : (if e.2.tcount % 6 % 2 = 1
          then 7 ^ (e.2.tcount / 6) * 2 ^ (e.2.tcount % 6 / 2) * 2
          else 7 ^ (e.2.tcount / 6) * 2 ^ (e.2.tcount % 6 / 2)) =
        7 ^ (e.2.tcount / 6) * 2 ^ (e.2.tcount % 6 / 2) *
          (if e.2.tcount % 6 % 2 = 1 then 2 else 1) := by
      split_ifs <;> ring
    show a + _ + _ = _
    rw [hpt, add_assoc]

theorem max_terms_sum (d : Decomposer) :
    d.max_terms = (d.stack.map (fun e =>
      7 ^ (e.2.tcount / 6) * 2 ^ (e.2.tcount % 6 / 2) *
        (if e.2.tcount % 6 % 2 = 1 then 2 else 1))).sum := by
  unfold Decomposer.max_terms
  rw [max_terms_foldl, Nat.zero_add]

theorem children_B_sum (fsimp : Graph → Graph) (sf : SimpFunc)
    (depth : ℕ) (g : Graph) (vs : List V) (m : ℕ)
    (hTe : ∀ h, (fsimp h).tcount = h.tcount) :
    ∀ fs : List (Graph → List V → Graph),
      (∀ f ∈ fs, (f g vs).tcount = m) →
      ((fs.map (fun f =>
          (depth, Decomposer.simp_app fsimp sf (f g vs)))).map
        (fun e => 7 ^ (e.2.tcount / 6) * 2 ^ (e.2.tcount % 6 / 2) *
          (if e.2.tcount % 6 % 2 = 1 then 2 else 1))).sum
        = fs.length * (7 ^ (m / 6) * 2 ^ (m % 6 / 2) *
            (if m % 6 % 2 = 1 then 2 else 1)) := by
  intro fs
  induction fs with
  | nil => intro _; simp
  | cons f fs ih =>
    intro hk
    simp only [List.map_cons, List.sum_cons, List.length_cons]
    have h1 : (Decomposer.simp_app fsimp sf (f g vs)).tcount = m :=
      (tcount_simp_app_exact fsimp hTe sf _).trans
        (hk f (List.mem_cons_self f fs))
    have h3 := ih (fun f hf => hk f (List.mem_cons_of_mem _ hf))
    rw [Nat.succ_mul, Nat.add_comm (fs.length * _), h3, h1]

theorem decomp_ts_max_sum (fsimp : Graph → Graph)
    (hTe : ∀ h, (fsimp h).tcount = h.tcount)
    (d : Decomposer) (depth : ℕ) (g : Graph) (ts : List V)
    (hg : g.wfv) (hsel : good_sel g ts) :
    ∃ ch : List (ℕ × Graph),
      (Decomposer.decomp_ts fsimp d depth g ts).stack = d.stack ++ ch ∧
      (ch.map (fun e =>
        7 ^ (e.2.tcount / 6) * 2 ^ (e.2.tcount % 6 / 2) *
          (if e.2.tcount % 6 % 2 = 1 then 2 else 1))).sum
        ≤ 7 ^ (g.tcount / 6) * 2 ^ (g.tcount % 6 / 2) *
            (if g.tcount % 6 % 2 = 1 then 2 else 1) := by
  obtain ⟨hnd, hlen, hts⟩ := hsel
  unfold Decomposer.decomp_ts
  by_cases h6 : ts.length = 6
  · rw [if_pos h6]
    have ht6 : 6 ≤ g.tcount := by omega
    have hk := children_tcount_bss g ts hg hnd hts h6
    have harith : 7 * (7 ^ ((g.tcount - 6) / 6)
          * 2 ^ ((g.tcount - 6) % 6 / 2)
          * (if (g.tcount - 6) % 6 % 2 = 1 then 2 else 1))
        ≤ 7 ^ (g.tcount / 6) * 2 ^ (g.tcount % 6 / 2) *
            (if g.tcount % 6 % 2 = 1 then 2 else 1) := by
      have h1 : (g.tcount - 6) / 6 = g.tcount / 6 - 1 := by omega
      have h2 : (g.tcount - 6) % 6 = g.tcount % 6 := by omega
      have hp : (7 : ℕ) ^ (g.tcount / 6)
          = 7 ^ (g.tcount / 6 - 1) * 7 := by
        conv_lhs => rw [show g.tcount / 6 = (g.tcount / 6 - 1) + 1 from
          by omega]
        rw [pow_succ]
      rw [h1, h2, hp]
      exact Nat.le_of_eq (by ring)
    have hkeq : ∀ f ∈ [Decomposer.replace_b60, Decomposer.replace_b66,
        Decomposer.replace_e6, Decomposer.replace_o6,
        Decomposer.replace_k6, Decomposer.replace_phi1,
        Decomposer.replace_phi2], (f g ts).tcount = g.tcount - 6 := by
      intro f hf
      have hx := hk f hf
      omega
    have hsum := children_B_sum fsimp d.simp_func (depth + 1) g ts
      (g.tcount - 6) hTe [Decomposer.replace_b60, Decomposer.replace_b66,
        Decomposer.replace_e6, Decomposer.replace_o6,
        Decomposer.replace_k6, Decomposer.replace_phi1,
        Decomposer.replace_phi2] hkeq
    refine ⟨[Decomposer.replace_b60, Decomposer.replace_b66,
      Decomposer.replace_e6, Decomposer.replace_o6, Decomposer.replace_k6,
      Decomposer.replace_phi1, Decomposer.replace_phi2].map
        (fun f => (depth + 1,
          Decomposer.simp_app fsimp d.simp_func (f g ts))), ?_, ?_⟩
    · unfold Decomposer.push_bss_decomp
      rw [push_decomp_eq]
    · rw [hsum]
      exact harith
  · rw [if_neg h6]
    by_cases h2 : 2 ≤ ts.length
    · rw [if_pos h2]
      have hb1 : 2 ≤ g.tcount := by omega
      have hb2 : g.tcount ≤ 5 := by omega
      have hk := children_tcount_sym g ts hg hnd hts h2
      have harith : 2 * (7 ^ ((g.tcount - 2) / 6)
            * 2 ^ ((g.tcount - 2) % 6 / 2)
            * (if (g.tcount - 2) % 6 % 2 = 1 then 2 else 1))
          ≤ 7 ^ (g.tcount / 6) * 2 ^ (g.tcount % 6 / 2) *
              (if g.tcount % 6 % 2 = 1 then 2 else 1) := by
        set t := g.tcount with htdef
        interval_cases t <;> decide
      have hkeq : ∀ f ∈ [Decomposer.replace_bell_s, Decomposer.replace_epr],
          (f g (ts.take 2)).tcount = g.tcount - 2 := by
        intro f hf
        have hx := hk f hf
        omega
      have hsum := children_B_sum fsimp d.simp_func (depth + 1) g
        (ts.take 2) (g.tcount - 2) hTe
        [Decomposer.replace_bell_s, Decomposer.replace_epr] hkeq
      refine ⟨[Decomposer.replace_bell_s, Decomposer.replace_epr].map
        (fun f => (depth + 1,
          Decomposer.simp_app fsimp d.simp_func (f g (ts.take 2)))),
        ?_, ?_⟩
      · unfold Decomposer.push_sym_decomp
        rw [push_decomp_eq]
      · rw [hsum]
        exact harith
    · rw [if_neg h2]
      by_cases h1 : ts.length = 1
      · rw [if_pos h1]
        have ht : g.tcount = 1 := by omega
        have hk := children_tcount_single g ts hg hts h1
        have hkeq : ∀ f ∈ [Decomposer.replace_t0, Decomposer.replace_t1],
            (f g ts).tcount = g.tcount - 1 := by
          intro f hf
          have hx := hk f hf
          omega
        have hsum := children_B_sum fsimp d.simp_func (depth + 1) g ts
          (g.tcount - 1) hTe
          [Decomposer.replace_t0, Decomposer.replace_t1] hkeq
        refine ⟨[Decomposer.replace_t0, Decomposer.replace_t1].map
          (fun f => (depth + 1,
            Decomposer.simp_app fsimp d.simp_func (f g ts))), ?_, ?_⟩
        · unfold Decomposer.push_single_decomp
          rw [push_decomp_eq]
        · rw [hsum, ht]
          decide
      · rw [if_neg h1]
        refine ⟨[], ?_, ?_⟩
        · rw [List.append_nil]
          dsimp only
          split <;> rfl
        · exact Nat.zero_le _

section ModelLemmas

variable {R : Type} [CommRing R] [Invertible (2 : R)] {ph : ℚ → R}

theorem ph_zero (hadd : ∀ a b : ℚ, ph (a + b) = ph a * ph b)
    (h1 : ph 1 = -1) : ph 0 = 1 := by
  have h := hadd 0 1
  rw [zero_add, h1] at h
  linear_combination h

theorem ph_neg_one (hadd : ∀ a b : ℚ, ph (a + b) = ph a * ph b)
    (h1 : ph 1 = -1) : ph (-1) = -1 := by
  have h := hadd (-1) 1
  rw [neg_add_cancel, h1, ph_zero hadd h1] at h
  linear_combination h

theorem ph_nat_quarter (hadd : ∀ a b : ℚ, ph (a + b) = ph a * ph b)
    (h1 : ph 1 = -1) :
    ∀ n : ℕ, ph ((n : ℚ) * mkRat 1 4) = ph (mkRat 1 4) ^ n := by
  intro n
  induction n with
  | zero => simpa using ph_zero hadd h1
  | succ n ih =>
    have hq : ((n + 1 : ℕ) : ℚ) * mkRat 1 4
        = (n : ℚ) * mkRat 1 4 + mkRat 1 4 := by
      push_cast
      ring
    rw [hq, hadd, ih, pow_succ]

theorem ph_w4 (hadd : ∀ a b : ℚ, ph (a + b) = ph a * ph b)
    (h1 : ph 1 = -1) : ph (mkRat 1 4) ^ 4 = -1 := by
  have h := ph_nat_quarter hadd h1 4
  have hq : ((4 : ℕ) : ℚ) * mkRat 1 4 = 1 := by
    rw [Rat.mkRat_eq_div]
    norm_num
  rw [hq, h1] at h
  exact h.symm

theorem ph_two_int (hadd : ∀ a b : ℚ, ph (a + b) = ph a * ph b)
    (h1 : ph 1 = -1) : ∀ m : ℤ, ph ((2 * m : ℤ) : ℚ) = 1 := by
  have h2 : ph ((1 : ℚ) + 1) = 1 := by
    rw [hadd, h1]
    ring
  have hm2 : ph ((-1 : ℚ) + -1) = 1 := by
    rw [hadd, ph_neg_one hadd h1]
    ring
  intro m
  induction m using Int.induction_on with
  | hz => simpa using ph_zero hadd h1
  | hp k ih =>
    have hq : ((2 * (k + 1 : ℤ) : ℤ) : ℚ) = ((2 * k : ℤ) : ℚ) + (1 + 1) := by
      push_cast
      ring
    rw [hq, hadd, ih, h2, one_mul]
  | hn k ih =>
    have hq : ((2 * (-k - 1 : ℤ) : ℤ) : ℚ)
        = ((2 * (-k : ℤ) : ℤ) : ℚ) + (-1 + -1) := by
      push_cast
      ring
    rw [hq, hadd, ih, hm2, one_mul]

end ModelLemmas



section ModelLemmas2

variable {R : Type} [CommRing R] [Invertible (2 : R)] {ph : ℚ → R}

theorem ph_quarter (hadd : ∀ a b : ℚ, ph (a + b) = ph a * ph b)
    (h1 : ph 1 = -1) (j : ℤ) :
    ph (mkRat j 4) = ph (mkRat 1 4) ^ (j % 8).toNat := by
  have hnn : 0 ≤ j % 8 := Int.emod_nonneg j (by norm_num)
  have hsplit : mkRat j 4
      = ((2 * (j / 8) : ℤ) : ℚ) + (((j % 8).toNat : ℕ) : ℚ) * mkRat 1 4 := by
    rw [Rat.mkRat_eq_div, Rat.mkRat_eq_div]
    have h0 : 8 * (j / 8) + j % 8 = j := Int.ediv_add_emod j 8
    have hc : (((j % 8).toNat : ℕ) : ℚ) = ((j % 8 : ℤ) : ℚ) := by
      exact_mod_cast Int.toNat_of_nonneg hnn
    rw [hc]
    have hj : (j : ℚ) = 8 * ((j / 8 : ℤ) : ℚ) + ((j % 8 : ℤ) : ℚ) := by
      calc (j : ℚ) = ((8 * (j / 8) + j % 8 : ℤ) : ℚ) := by rw [h0]
        _ = 8 * ((j / 8 : ℤ) : ℚ) + ((j % 8 : ℤ) : ℚ) := by
          push_cast
          ring
    rw [hj]
    push_cast
    ring
  rw [hsplit, hadd, ph_two_int hadd h1, one_mul,
    ph_nat_quarter hadd h1]

theorem interpC_mul (hw4 : ph (mkRat 1 4) ^ 4 = -1) (x y : Cyc ℤ) :
    interpC R ph (x * y) = interpC R ph x * interpC R ph y := by
  simp only [interpC, Cyc.mul_a, Cyc.mul_b, Cyc.mul_c, Cyc.mul_d]
  push_cast
  linear_combination (-((x.b : R) * y.d + x.c * y.c + x.d * y.b)
    - ((x.c : R) * y.d + x.d * y.c) * ph (mkRat 1 4)
    - ((x.d : R) * y.d) * ph (mkRat 1 4) ^ 2) * hw4

theorem interpC_one : interpC R ph (1 : Cyc ℤ) = 1 := by
  simp [interpC]

theorem interpC_zero : interpC R ph (0 : Cyc ℤ) = 0 := by
  simp [interpC]

theorem interpC_neg (x : Cyc ℤ) :
    interpC R ph (-x) = -interpC R ph x := by
  simp only [interpC, Cyc.neg_a, Cyc.neg_b, Cyc.neg_c, Cyc.neg_d]
  push_cast
  ring

theorem interpC_sub (x y : Cyc ℤ) :
    interpC R ph (x - y) = interpC R ph x - interpC R ph y := by
  have hxy : x - y = x + -y := sub_eq_add_neg x y
  rw [hxy, interpC_add, interpC_neg]
  ring

theorem interpC_pow (hw4 : ph (mkRat 1 4) ^ 4 = -1) (z : Cyc ℤ) (n : ℕ) :
    interpC R ph (z ^ n) = interpC R ph z ^ n := by
  induction n with
  | zero => simpa using @interpC_one R _ _ ph
  | succ n ih => rw [pow_succ, pow_succ, interpC_mul hw4, ih]

theorem interpC_om : interpC R ph Cyc.om = ph (mkRat 1 4) := by
  simp [interpC, Cyc.om]

theorem interpC_ompow (hw4 : ph (mkRat 1 4) ^ 4 = -1) (j : ℤ) :
    interpC R ph (Cyc.ompow j) = ph (mkRat 1 4) ^ (j % 8).toNat := by
  unfold Cyc.ompow
  rw [interpC_pow hw4, interpC_om]

theorem ph_eq_interpC_ompow (hadd : ∀ a b : ℚ, ph (a + b) = ph a * ph b)
    (h1 : ph 1 = -1) (j : ℤ) :
    ph (mkRat j 4) = interpC R ph (Cyc.ompow j) := by
  rw [ph_quarter hadd h1 j, interpC_ompow (ph_w4 hadd h1)]

theorem interpC_intCast (n : ℤ) :
    interpC R ph ((n : ℤ) : Cyc ℤ) = (n : R) := by
  simp [interpC]

theorem interpS_mul (hw4 : ph (mkRat 1 4) ^ 4 = -1) (s t : ScalarN) :
    interpS R ph (s * t) = interpS R ph s * interpS R ph t := by
  cases s with
  | Exact p c =>
    cases t with
    | Exact q d =>
      rw [ScalarN.mul_def]
      simp only [interpS]
      rw [twoPow_add, interpC_mul hw4]
      ring

theorem interpS_one : interpS R ph ScalarN.one = 1 := by
  simp only [ScalarN.one, interpS]
  rw [interpC_one]
  unfold twoPow
  simp

end ModelLemmas2

theorem single_kernel_identity : ∀ b0 : Bool,
    (⟨0,1,0,-1⟩ : Cyc ℤ) * Kt0 b0 + (⟨1,0,1,0⟩ : Cyc ℤ) * Kt1 b0 = 4 := by
  decide

theorem sym_kernel_identity : ∀ b0 b1 : Bool,
    4 * Kbell b0 b1 + Cyc.ompow 1 * Kepr b0 b1 = 4 := by
  decide

set_option maxHeartbeats 2000000 in
theorem bss_kernel_identity : ∀ b0 b1 b2 b3 b4 b5 : Bool,
    2 ^ 10 * (⟨-1,0,1,1⟩ : Cyc ℤ) * Kb60 b0 b1 b2 b3 b4 b5
      + 2 ^ 10 * (⟨-1,0,1,-1⟩ : Cyc ℤ) * Kb66 b0 b1 b2 b3 b4 b5
      + 2 ^ 7 * (⟨0,-1,0,0⟩ : Cyc ℤ) * Ke6 b0 b1 b2 b3 b4 b5
      + 2 ^ 7 * (⟨-1,0,-1,0⟩ : Cyc ℤ) * Ko6 b0 b1 b2 b3 b4 b5
      + 2 ^ 13 * (⟨1,0,0,0⟩ : Cyc ℤ) * Kk6 b0 b1 b2 b3 b4 b5
      + (⟨1,0,1,0⟩ : Cyc ℤ) * Kphi1 b0 b1 b2 b3 b4 b5
      + (⟨1,0,1,0⟩ : Cyc ℤ) * Kphi1 b0 b1 b3 b4 b5 b2
      = 2 ^ 12 := by
  decide

section WtLemmas

variable {R : Type} [CommRing R] [Invertible (2 : R)] {ph : ℚ → R}

theorem vfac_Z (ψ : ℚ) (b bb : Bool) :
    vfac R ph ⟨VType.Z, ψ⟩ b bb = if b then ph ψ else 1 := rfl

theorem wt_mul_scalar (g : Graph) (s : ScalarN) (β σ : V → Bool) :
    wt R ph (g.mul_scalar s) β σ = wt R ph g β σ := rfl

theorem wt_add_edge (g : Graph) (u v : V) (et : EType) (β σ : V → Bool) :
    wt R ph (g.add_edge_with_type u v et) β σ
      = efac R ph et (σ u) (σ v) * wt R ph g β σ := by
  unfold wt Graph.add_edge_with_type
  simp only [List.map_append, List.prod_append, List.map_cons, List.map_nil,
    List.prod_cons, List.prod_nil]
  ring

theorem wt_add_vertex (g : Graph) (ty : VType) (ψ : ℚ) (β σ : V → Bool) :
    wt R ph ((g.add_vertex_with_phase ty ψ).1) β σ
      = vfac R ph ⟨ty, ψ⟩ (σ g.fresh) (β g.fresh) * wt R ph g β σ := by
  unfold wt Graph.add_vertex_with_phase
  simp only [List.map_append, List.prod_append, List.map_cons, List.map_nil,
    List.prod_cons, List.prod_nil]
  ring

theorem prod_vfac_update
    (hadd : ∀ a b : ℚ, ph (a + b) = ph a * ph b)
    (v : V) (δ : ℚ) (β σ : V → Bool) :
    ∀ l : List (V × VData), (l.map Prod.fst).Nodup →
      (∃ p ∈ l, p.1 = v ∧ p.2.ty = VType.Z) →
      ((l.map (fun p => if p.1 = v
          then (p.1, (⟨p.2.ty, Graph.qadd p.2.phase δ⟩ : VData)) else p)).map
        (fun p => vfac R ph p.2 (σ p.1) (β p.1))).prod
      = (if σ v then ph δ else 1) *
        (l.map (fun p => vfac R ph p.2 (σ p.1) (β p.1))).prod := by
  intro l
  induction l with
  | nil =>
    intro _ h
    simp at h
  | cons p l ih =>
    intro hnd hex
    by_cases hp : p.1 = v
    · have hrest : ∀ q ∈ l, q.1 ≠ v := by
        intro q hq he
        have hm := (List.nodup_cons.mp (by
          simpa using hnd : (p.1 :: l.map Prod.fst).Nodup)).1
        rw [hp] at hm
        exact hm (he ▸ List.mem_map_of_mem Prod.fst hq)
      obtain ⟨q, hq, hq1, hqZ⟩ := hex
      have hZ : p.2.ty = VType.Z := by
        rcases List.mem_cons.mp hq with h | h
        · rw [← h]
          exact hqZ
        · exact absurd hq1 (hrest q h)
      rw [List.map_cons, if_pos hp,
        map_update_eq_of_not_mem v _ (fun q hq => if_neg hq) l hrest,
        List.map_cons, List.prod_cons, List.map_cons, List.prod_cons]
      have hv : vfac R ph ⟨p.2.ty, Graph.qadd p.2.phase δ⟩ (σ p.1) (β p.1)
          = (if σ v then ph δ else 1)
            * vfac R ph p.2 (σ p.1) (β p.1) := by
        have hps : p.2 = ⟨p.2.ty, p.2.phase⟩ := rfl
        rw [hp, hZ, qadd_eq_add]
        conv_rhs => rw [hps, hZ]
        rw [vfac_Z, vfac_Z, hadd]
        by_cases hb : σ v <;> simp [hb] <;> ring
      rw [hv]
      ring
    · have hex2 : ∃ q ∈ l, q.1 = v ∧ q.2.ty = VType.Z := by
        obtain ⟨q, hq, h1, h4⟩ := hex
        rcases List.mem_cons.mp hq with h | h
        · exact absurd (h ▸ h1) hp
        · exact ⟨q, h, h1, h4⟩
      have hnd2 : (l.map Prod.fst).Nodup := by
        have := List.nodup_cons.mp (by
          simpa using hnd : (p.1 :: l.map Prod.fst).Nodup)
        exact this.2
      rw [List.map_cons, if_neg hp, List.map_cons, List.prod_cons,
        List.map_cons, List.prod_cons, ih hnd2 hex2]
      ring

theorem wt_add_to_phase
    (hadd : ∀ a b : ℚ, ph (a + b) = ph a * ph b)
    (g : Graph) (v : V) (δ : ℚ) (β σ : V → Bool)
    (hnd : g.vertexIds.Nodup) (hv : selZ g v) :
    wt R ph (g.add_to_phase v δ) β σ
      = (if σ v then ph δ else 1) * wt R ph g β σ := by
  unfold wt Graph.add_to_phase
  rw [prod_vfac_update hadd v δ β σ g.verts hnd hv]
  ring

theorem wt_congr (g : Graph) (β σ₁ σ₂ : V → Bool)
    (hE : ∀ e ∈ g.edges, e.1 ∈ g.vertexIds ∧ e.2.1 ∈ g.vertexIds)
    (hσ : ∀ v ∈ g.vertexIds, σ₁ v = σ₂ v) :
    wt R ph g β σ₁ = wt R ph g β σ₂ := by
  unfold wt
  congr 1
  · apply congrArg
    apply List.map_congr_left
    intro p hp
    rw [hσ p.1 (List.mem_map_of_mem Prod.fst hp)]
  · apply congrArg
    apply List.map_congr_left
    intro e he
    rw [hσ e.1 (hE e he).1, hσ e.2.1 (hE e he).2]

end WtLemmas

theorem selZ_add_to_phase (g : Graph) (v : V) (δ : ℚ) (w : V)
    (h : selZ g w) : selZ (g.add_to_phase v δ) w := by
  obtain ⟨p, hp, h1, hZ⟩ := h
  refine ⟨if p.1 = v then (p.1, ⟨p.2.ty, Graph.qadd p.2.phase δ⟩) else p,
    List.mem_map_of_mem _ hp, ?_⟩
  by_cases hc : p.1 = v
  · rw [if_pos hc]
    exact ⟨h1, hZ⟩
  · rw [if_neg hc]
    exact ⟨h1, hZ⟩

theorem selZ_add_edge (g : Graph) (u v : V) (et : EType) (w : V)
    (h : selZ g w) : selZ (g.add_edge_with_type u v et) w := h

theorem selZ_add_vertex (g : Graph) (ty : VType) (ψ : ℚ) (w : V)
    (h : selZ g w) : selZ ((g.add_vertex_with_phase ty ψ).1) w := by
  obtain ⟨q, hq, h1, hZ⟩ := h
  exact ⟨q, List.mem_append_left _ hq, h1, hZ⟩

theorem selZ_mul_scalar (g : Graph) (s : ScalarN) (w : V)
    (h : selZ g w) : selZ (g.mul_scalar s) w := h

theorem upd_same (σ : V → Bool) (v : V) (b : Bool) : upd σ v b v = b := by
  unfold upd
  simp

theorem upd_other (σ : V → Bool) (v : V) (b : Bool) (w : V) (h : w ≠ v) :
    upd σ v b w = σ w := by
  unfold upd
  simp [h]

theorem upd_comm (σ : V → Bool) (u v : V) (b c : Bool) (h : u ≠ v) :
    upd (upd σ v c) u b = upd (upd σ u b) v c := by
  funext x
  unfold upd
  by_cases hx : x = u <;> by_cases hy : x = v
  · exact absurd (hx.symm.trans hy) h
  · simp [hx, hy, h, Ne.symm h]
  · simp [hx, hy, h, Ne.symm h]
  · simp [hx, hy, h, Ne.symm h]

theorem asgns_false :
    ∀ (l : List V) (σ : V → Bool), σ ∈ asgns l →
      ∀ v, v ∉ l → σ v = false := by
  intro l
  induction l with
  | nil =>
    intro σ hσ v _
    simp only [asgns, List.mem_singleton] at hσ
    rw [hσ]
  | cons u l ih =>
    intro σ hσ v hv
    simp only [asgns, List.mem_append, List.mem_map] at hσ
    rcases hσ with h | ⟨τ, hτ, rfl⟩
    · exact ih σ h v (fun hm => hv (List.mem_cons_of_mem u hm))
    · rw [upd_other]
      · exact ih τ hτ v (fun hm => hv (List.mem_cons_of_mem u hm))
      · intro he
        exact hv (by rw [he]; exact List.mem_cons_self u l)

theorem asgns_append_sum {M : Type} [AddCommMonoid M] :
    ∀ (l : List V) (w : V), w ∉ l → ∀ F : (V → Bool) → M,
      ((asgns (l ++ [w])).map F).sum
        = ((asgns l).map (fun σ => F σ + F (upd σ w true))).sum := by
  intro l
  induction l with
  | nil =>
    intro w _ F
    simp [asgns]
  | cons u l ih =>
    intro w hw F
    have hwl : w ∉ l := fun h => hw (List.mem_cons_of_mem u h)
    have huw : u ≠ w := fun he =>
      hw (List.mem_cons.mpr (Or.inl he.symm))
    have hstep : (u :: l) ++ [w] = u :: (l ++ [w]) := rfl
    rw [hstep]
    simp only [asgns, List.map_append, List.sum_append, List.map_map]
    rw [ih w hwl F]
    have h2 := ih w hwl (fun σ => F (upd σ u true))
    simp only [Function.comp_def] at h2 ⊢
    rw [h2]
    have hcomm : ∀ σ : V → Bool,
        F (upd (upd σ w true) u true) = F (upd (upd σ u true) w true) :=
      fun σ => by rw [upd_comm σ u w true true huw]
    simp only [hcomm]

section Bridges

variable {R : Type} [CommRing R] [Invertible (2 : R)] {ph : ℚ → R}

theorem twoPow_neg_one : twoPow R (-1) = ⅟(2 : R) := by
  unfold twoPow
  rw [zpow_neg_one]
  rfl

theorem bridge_b (hadd : ∀ a b : ℚ, ph (a + b) = ph a * ph b)
    (h1 : ph 1 = -1) (j : ℤ) (b : Bool) :
    (if b then ph (mkRat j 4) else 1) = interpC R ph (bCyc j b) := by
  cases b with
  | true =>
    rw [if_pos rfl]
    unfold bCyc
    rw [if_pos rfl]
    exact ph_eq_interpC_ompow hadd h1 j
  | false =>
    rw [if_neg (by simp)]
    unfold bCyc
    rw [if_neg (by simp)]
    exact (interpC_one).symm

theorem bridge_ph0 (hadd : ∀ a b : ℚ, ph (a + b) = ph a * ph b)
    (h1 : ph 1 = -1) (b : Bool) :
    (if b then ph (0 : ℚ) else 1) = (1 : R) := by
  cases b with
  | true =>
    rw [if_pos rfl]
    exact ph_zero hadd h1
  | false => rw [if_neg (by simp)]

theorem bridge_ph1 (hadd : ∀ a b : ℚ, ph (a + b) = ph a * ph b)
    (h1 : ph 1 = -1) (b : Bool) :
    (if b then ph (1 : ℚ) else 1) = interpC R ph (bCyc 4 b) := by
  have h4 : (1 : ℚ) = mkRat 4 4 := by decide
  rw [h4]
  exact bridge_b hadd h1 4 b

theorem bridge_ph_half (hadd : ∀ a b : ℚ, ph (a + b) = ph a * ph b)
    (h1 : ph 1 = -1) (b : Bool) :
    (if b then ph (mkRat (-1) 2) else 1) = interpC R ph (bCyc (-2) b) := by
  have h4 : mkRat (-1) 2 = mkRat (-2) 4 := by decide
  rw [h4]
  exact bridge_b hadd h1 (-2) b

theorem bridge_sign (P : Prop) [Decidable P] :
    interpC R ph (if P then (-1 : Cyc ℤ) else 1) = if P then -1 else 1 := by
  split_ifs
  · rw [show ((-1 : Cyc ℤ)) = ((-1 : ℤ) : Cyc ℤ) from by
      refine Cyc.ext ?_ ?_ ?_ ?_ <;> simp]
    rw [interpC_intCast]
    simp
  · exact interpC_one

theorem bridge_h (hadd : ∀ a b : ℚ, ph (a + b) = ph a * ph b)
    (h1 : ph 1 = -1) (x y : Bool) :
    efac R ph EType.H x y = twoPow R (-1) * interpC R ph (hCyc x y) := by
  have hw4 := ph_w4 hadd h1
  unfold efac hCyc
  rw [interpC_mul hw4, interpC_sub, bridge_sign, twoPow_neg_one]
  have ho1 : interpC R ph Cyc.om = ph (mkRat 1 4) := interpC_om
  have ho3 : interpC R ph (Cyc.om ^ 3) = ph (mkRat 3 4) := by
    rw [interpC_pow hw4, interpC_om]
    rw [ph_quarter hadd h1 3]
    rfl
  rw [ho1, ho3]
  dsimp only
  ring

theorem bridge_n (x y : Bool) :
    efac R ph EType.N x y = interpC R ph (nCyc x y) := by
  show (if x = y then (1 : R) else 0)
      = interpC R ph (if x = y then 1 else 0)
  split_ifs
  · exact interpC_one.symm
  · exact interpC_zero.symm

end Bridges



section SemChildren

variable {R : Type} [CommRing R] [Invertible (2 : R)] {ph : ℚ → R}

theorem sem_replace_t0
    (hadd : ∀ a b : ℚ, ph (a + b) = ph a * ph b) (h1 : ph 1 = -1)
    (g : Graph) (v0 : V) (β : V → Bool)
    (hinv : g.inv) (hv : selZ g v0) :
    sem R ph (Decomposer.replace_t0 g [v0]) β
      = twoPow R (-2) * interpC R ph ⟨0, 1, 0, -1⟩ *
        (interpS R ph g.scalar *
          ((asgns g.vertexIds).map (fun σ =>
            wt R ph g β σ * interpC R ph (Kt0 (σ v0)))).sum) := by
  obtain ⟨⟨hnd, hfr⟩, hE, hB⟩ := hinv
  have hw4 := ph_w4 hadd h1
  have hfm : g.fresh ∉ g.vertexIds := fun h => lt_irrefl _ (hfr _ h)
  have hv0m : v0 ∈ g.vertexIds := by
    obtain ⟨p, hp, h1p, _⟩ := hv
    rw [← h1p]
    exact List.mem_map_of_mem Prod.fst hp
  have hv0f : v0 ≠ g.fresh := fun he => hfm (he ▸ hv0m)
  have hndapp : (g.vertexIds ++ [g.fresh]).Nodup := by
    refine hnd.append (List.nodup_singleton _) ?_
    intro a ha
    rw [List.mem_singleton]
    exact fun he => hfm (he ▸ ha)
  have hsc : (Decomposer.replace_t0 g [v0]).scalar
      = g.scalar * ScalarN.Exact (-1) ⟨0, 1, 0, -1⟩ := rfl
  have hids : (Decomposer.replace_t0 g [v0]).vertexIds
      = g.vertexIds ++ [g.fresh] := by
    unfold Decomposer.replace_t0 Graph.add_vertex
    rw [vertexIds_add_to_phase, vertexIds_add_edge, vertexIds_add_vertex]
    rfl
  have hwt : ∀ σ' : V → Bool,
      wt R ph (Decomposer.replace_t0 g [v0]) β σ'
        = (if σ' v0 then ph (mkRat (-1) 4) else 1) *
          (efac R ph EType.H (σ' v0) (σ' g.fresh) * wt R ph g β σ') := by
    intro σ'
    unfold Decomposer.replace_t0 Graph.add_vertex
    simp only [List.getD_cons_zero]
    rw [wt_add_to_phase hadd _ _ _ _ _
      (by rw [vertexIds_add_edge, vertexIds_add_vertex]; exact hndapp)
      (selZ_add_edge _ _ _ _ _
        (selZ_add_vertex _ VType.Z 0 _ (selZ_mul_scalar _ _ _ hv)))]
    rw [wt_add_edge, wt_add_vertex, wt_mul_scalar, vfac_Z,
      bridge_ph0 hadd h1, one_mul]
    rfl
  unfold sem
  rw [hsc, hids, interpS_mul hw4,
    asgns_append_sum g.vertexIds g.fresh hfm _]
  have hpt : ∀ σ ∈ asgns g.vertexIds,
      wt R ph (Decomposer.replace_t0 g [v0]) β σ
        + wt R ph (Decomposer.replace_t0 g [v0]) β (upd σ g.fresh true)
      = twoPow R (-1) *
          (wt R ph g β σ * interpC R ph (Kt0 (σ v0))) := by
    intro σ hσ
    rw [hwt σ, hwt (upd σ g.fresh true)]
    rw [asgns_false g.vertexIds σ hσ g.fresh hfm]
    rw [upd_same, upd_other σ g.fresh true v0 hv0f]
    rw [wt_congr g β (upd σ g.fresh true) σ hE
      (fun v hvm => upd_other σ g.fresh true v
        (fun he => hfm (he ▸ hvm)))]
    rw [bridge_b hadd h1 (-1) (σ v0), bridge_h hadd h1,
      bridge_h hadd h1]
    unfold Kt0
    rw [interpC_add, interpC_mul hw4, interpC_mul hw4]
    ring
  rw [List.map_congr_left hpt]
  have hfac : ((asgns g.vertexIds).map (fun σ => twoPow R (-1) *
      (wt R ph g β σ * interpC R ph (Kt0 (σ v0))))).sum
      = twoPow R (-1) * ((asgns g.vertexIds).map (fun σ =>
          wt R ph g β σ * interpC R ph (Kt0 (σ v0)))).sum := by
    rw [← List.sum_map_mul_left]
  rw [hfac]
  have ht2 : twoPow R (-1) * twoPow R (-1) = twoPow R (-2) := by
    rw [← twoPow_add]
    norm_num
  have hsE : interpS R ph (ScalarN.Exact (-1) ⟨0, 1, 0, -1⟩)
      = twoPow R (-1) * interpC R ph ⟨0, 1, 0, -1⟩ := rfl
  rw [hsE, ← ht2]
  ring

theorem interpC_ompow4 (hadd : ∀ a b : ℚ, ph (a + b) = ph a * ph b)
    (h1 : ph 1 = -1) : interpC R ph (Cyc.ompow 4) = -1 := by
  rw [← ph_eq_interpC_ompow hadd h1 4, show mkRat 4 4 = (1 : ℚ) from by
    decide, h1]

theorem sem_replace_t1
    (hadd : ∀ a b : ℚ, ph (a + b) = ph a * ph b) (h1 : ph 1 = -1)
    (g : Graph) (v0 : V) (β : V → Bool)
    (hinv : g.inv) (hv : selZ g v0) :
    sem R ph (Decomposer.replace_t1 g [v0]) β
      = twoPow R (-2) * interpC R ph ⟨1, 0, 1, 0⟩ *
        (interpS R ph g.scalar *
          ((asgns g.vertexIds).map (fun σ =>
            wt R ph g β σ * interpC R ph (Kt1 (σ v0)))).sum) := by
  obtain ⟨⟨hnd, hfr⟩, hE, hB⟩ := hinv
  have hw4 := ph_w4 hadd h1
  have hfm : g.fresh ∉ g.vertexIds := fun h => lt_irrefl _ (hfr _ h)
  have hv0m : v0 ∈ g.vertexIds := by
    obtain ⟨p, hp, h1p, _⟩ := hv
    rw [← h1p]
    exact List.mem_map_of_mem Prod.fst hp
  have hv0f : v0 ≠ g.fresh := fun he => hfm (he ▸ hv0m)
  have hndapp : (g.vertexIds ++ [g.fresh]).Nodup := by
    refine hnd.append (List.nodup_singleton _) ?_
    intro a ha
    rw [List.mem_singleton]
    exact fun he => hfm (he ▸ ha)
  have hsc : (Decomposer.replace_t1 g [v0]).scalar
      = g.scalar * ScalarN.Exact (-1) ⟨1, 0, 1, 0⟩ := rfl
  have hids : (Decomposer.replace_t1 g [v0]).vertexIds
      = g.vertexIds ++ [g.fresh] := by
    unfold Decomposer.replace_t1
    rw [vertexIds_add_to_phase, vertexIds_add_edge, vertexIds_add_vertex]
    rfl
  have hwt : ∀ σ' : V → Bool,
      wt R ph (Decomposer.replace_t1 g [v0]) β σ'
        = (if σ' v0 then ph (mkRat (-1) 4) else 1) *
          (efac R ph EType.H (σ' v0) (σ' g.fresh) *
            ((if σ' g.fresh then ph (1 : ℚ) else 1) * wt R ph g β σ')) := by
    intro σ'
    unfold Decomposer.replace_t1
    simp only [List.getD_cons_zero]
    rw [wt_add_to_phase hadd _ _ _ _ _
      (by rw [vertexIds_add_edge, vertexIds_add_vertex]; exact hndapp)
      (selZ_add_edge _ _ _ _ _
        (selZ_add_vertex _ VType.Z 1 _ (selZ_mul_scalar _ _ _ hv)))]
    rw [wt_add_edge, wt_add_vertex, wt_mul_scalar, vfac_Z]
    rfl
  unfold sem
  rw [hsc, hids, interpS_mul hw4,
    asgns_append_sum g.vertexIds g.fresh hfm _]
  have hpt : ∀ σ ∈ asgns g.vertexIds,
      wt R ph (Decomposer.replace_t1 g [v0]) β σ
        + wt R ph (Decomposer.replace_t1 g [v0]) β (upd σ g.fresh true)
      = twoPow R (-1) *
          (wt R ph g β σ * interpC R ph (Kt1 (σ v0))) := by
    intro σ hσ
    rw [hwt σ, hwt (upd σ g.fresh true)]
    rw [asgns_false g.vertexIds σ hσ g.fresh hfm]
    rw [upd_same, upd_other σ g.fresh true v0 hv0f]
    rw [wt_congr g β (upd σ g.fresh true) σ hE
      (fun v hvm => upd_other σ g.fresh true v
        (fun he => hfm (he ▸ hvm)))]
    rw [show (if (false : Bool) = true then ph (1 : ℚ) else 1) = 1 from
      rfl]
    rw [show (if (true : Bool) = true then ph (1 : ℚ) else 1) = ph 1 from
      rfl, h1]
    rw [bridge_b hadd h1 (-1) (σ v0), bridge_h hadd h1,
      bridge_h hadd h1]
    unfold Kt1
    rw [interpC_add, interpC_mul hw4, interpC_mul hw4, interpC_mul hw4,
      interpC_ompow4 hadd h1]
    ring
  rw [List.map_congr_left hpt]
  have hfac : ((asgns g.vertexIds).map (fun σ => twoPow R (-1) *
      (wt R ph g β σ * interpC R ph (Kt1 (σ v0))))).sum
      = twoPow R (-1) * ((asgns g.vertexIds).map (fun σ =>
          wt R ph g β σ * interpC R ph (Kt1 (σ v0)))).sum := by
    rw [← List.sum_map_mul_left]
  rw [hfac]
  have ht2 : twoPow R (-1) * twoPow R (-1) = twoPow R (-2) := by
    rw [← twoPow_add]
    norm_num
  have hsE : interpS R ph (ScalarN.Exact (-1) ⟨1, 0, 1, 0⟩)
      = twoPow R (-1) * interpC R ph ⟨1, 0, 1, 0⟩ := rfl
  rw [hsE, ← ht2]
  ring

theorem sem_replace_bell_s
    (hadd : ∀ a b : ℚ, ph (a + b) = ph a * ph b) (h1 : ph 1 = -1)
    (g : Graph) (v0 v1 : V) (β : V → Bool)
    (hinv : g.inv) (hv0 : selZ g v0) (hv1 : selZ g v1) :
    sem R ph (Decomposer.replace_bell_s g [v0, v1]) β
      = interpS R ph g.scalar *
          ((asgns g.vertexIds).map (fun σ =>
            wt R ph g β σ * interpC R ph (Kbell (σ v0) (σ v1)))).sum := by
  obtain ⟨⟨hnd, hfr⟩, hE, hB⟩ := hinv
  have hw4 := ph_w4 hadd h1
  have hsc : (Decomposer.replace_bell_s g [v0, v1]).scalar = g.scalar := rfl
  have hids : (Decomposer.replace_bell_s g [v0, v1]).vertexIds
      = g.vertexIds := by
    unfold Decomposer.replace_bell_s
    rw [vertexIds_add_to_phase, vertexIds_add_to_phase]
    rfl
  have hwt : ∀ σ' : V → Bool,
      wt R ph (Decomposer.replace_bell_s g [v0, v1]) β σ'
        = (if σ' v1 then ph (mkRat 1 4) else 1) *
          ((if σ' v0 then ph (mkRat (-1) 4) else 1) *
            (efac R ph EType.N (σ' v0) (σ' v1) * wt R ph g β σ')) := by
    intro σ'
    unfold Decomposer.replace_bell_s Graph.add_edge_smart
    simp only [List.getD_cons_zero, List.getD_cons_succ]
    rw [wt_add_to_phase hadd _ _ _ _ _
      (by rw [vertexIds_add_to_phase, vertexIds_add_edge]; exact hnd)
      (selZ_add_to_phase _ _ _ _ (selZ_add_edge _ _ _ _ _ hv1))]
    rw [wt_add_to_phase hadd _ _ _ _ _
      (by rw [vertexIds_add_edge]; exact hnd)
      (selZ_add_edge _ _ _ _ _ hv0)]
    rw [wt_add_edge]
  unfold sem
  rw [hsc, hids]
  congr 1
  refine congrArg List.sum (List.map_congr_left ?_)
  intro σ hσ
  rw [hwt σ]
  rw [bridge_b hadd h1 1 (σ v1), bridge_b hadd h1 (-1) (σ v0), bridge_n]
  unfold Kbell
  rw [interpC_mul hw4, interpC_mul hw4]
  ring

theorem sem_replace_b60
    (hadd : ∀ a b : ℚ, ph (a + b) = ph a * ph b) (h1 : ph 1 = -1)
    (g : Graph) (v0 v1 v2 v3 v4 v5 : V) (β : V → Bool)
    (hinv : g.inv) (hv : ∀ v ∈ [v0, v1, v2, v3, v4, v5], selZ g v) :
    sem R ph (Decomposer.replace_b60 g [v0, v1, v2, v3, v4, v5]) β
      = twoPow R (-2) * interpC R ph ⟨-1, 0, 1, 1⟩ *
        (interpS R ph g.scalar *
          ((asgns g.vertexIds).map (fun σ =>
            wt R ph g β σ * interpC R ph
              (Kb60 (σ v0) (σ v1) (σ v2) (σ v3) (σ v4) (σ v5)))).sum) := by
  obtain ⟨⟨hnd, hfr⟩, hE, hB⟩ := hinv
  have hw4 := ph_w4 hadd h1
  have hsc : (Decomposer.replace_b60 g [v0, v1, v2, v3, v4, v5]).scalar
      = g.scalar * ScalarN.Exact (-2) ⟨-1, 0, 1, 1⟩ := by
    unfold Decomposer.replace_b60
    refine (scalar_foldl ?_ _ _).trans rfl
    intro h v
    rfl
  have hids : (Decomposer.replace_b60 g [v0, v1, v2, v3, v4, v5]).vertexIds
      = g.vertexIds := by
    unfold Decomposer.replace_b60
    refine ((foldl_verts_invariant ?_ ?_ _ _).1).trans rfl
    · intro h v
      exact vertexIds_add_to_phase h v _
    · intro h v
      rfl
  have hwt : ∀ σ' : V → Bool,
      wt R ph (Decomposer.replace_b60 g [v0, v1, v2, v3, v4, v5]) β σ'
        = (if σ' v5 then ph (mkRat (-1) 4) else 1) *
          ((if σ' v4 then ph (mkRat (-1) 4) else 1) *
          ((if σ' v3 then ph (mkRat (-1) 4) else 1) *
          ((if σ' v2 then ph (mkRat (-1) 4) else 1) *
          ((if σ' v1 then ph (mkRat (-1) 4) else 1) *
          ((if σ' v0 then ph (mkRat (-1) 4) else 1) *
            wt R ph g β σ'))))) := by
    intro σ'
    unfold Decomposer.replace_b60
    simp only [List.take_succ_cons, List.take_nil, List.foldl_cons,
      List.foldl_nil]
    rw [wt_add_to_phase hadd _ _ _ _ _
      (by
        rw [vertexIds_add_to_phase, vertexIds_add_to_phase,
          vertexIds_add_to_phase, vertexIds_add_to_phase,
          vertexIds_add_to_phase]
        exact hnd)
      (selZ_add_to_phase _ _ _ _ (selZ_add_to_phase _ _ _ _
        (selZ_add_to_phase _ _ _ _ (selZ_add_to_phase _ _ _ _
          (selZ_add_to_phase _ _ _ _ (selZ_mul_scalar _ _ _
            (hv v5 (by simp))))))))]
    rw [wt_add_to_phase hadd _ _ _ _ _
      (by
        rw [vertexIds_add_to_phase, vertexIds_add_to_phase,
          vertexIds_add_to_phase, vertexIds_add_to_phase]
        exact hnd)
      (selZ_add_to_phase _ _ _ _ (selZ_add_to_phase _ _ _ _
        (selZ_add_to_phase _ _ _ _ (selZ_add_to_phase _ _ _ _
          (selZ_mul_scalar _ _ _ (hv v4 (by simp)))))))]
    rw [wt_add_to_phase hadd _ _ _ _ _
      (by
        rw [vertexIds_add_to_phase, vertexIds_add_to_phase,
          vertexIds_add_to_phase]
        exact hnd)
      (selZ_add_to_phase _ _ _ _ (selZ_add_to_phase _ _ _ _
        (selZ_add_to_phase _ _ _ _ (selZ_mul_scalar _ _ _
          (hv v3 (by simp))))))]
    rw [wt_add_to_phase hadd _ _ _ _ _
      (by
        rw [vertexIds_add_to_phase, vertexIds_add_to_phase]
        exact hnd)
      (selZ_add_to_phase _ _ _ _ (selZ_add_to_phase _ _ _ _
        (selZ_mul_scalar _ _ _ (hv v2 (by simp)))))]
    rw [wt_add_to_phase hadd _ _ _ _ _
      (by
        rw [vertexIds_add_to_phase]
        exact hnd)
      (selZ_add_to_phase _ _ _ _ (selZ_mul_scalar _ _ _
        (hv v1 (by simp))))]
    rw [wt_add_to_phase hadd _ _ _ _ _ (by exact hnd)
      (selZ_mul_scalar _ _ _ (hv v0 (by simp)))]
    rfl
  unfold sem
  rw [hsc, hids, interpS_mul hw4]
  have hsE : interpS R ph (ScalarN.Exact (-2) ⟨-1, 0, 1, 1⟩)
      = twoPow R (-2) * interpC R ph ⟨-1, 0, 1, 1⟩ := rfl
  rw [hsE]
  have hpt : ∀ σ ∈ asgns g.vertexIds,
      wt R ph (Decomposer.replace_b60 g [v0, v1, v2, v3, v4, v5]) β σ
      = wt R ph g β σ * interpC R ph
          (Kb60 (σ v0) (σ v1) (σ v2) (σ v3) (σ v4) (σ v5)) := by
    intro σ hσ
    rw [hwt σ]
    rw [bridge_b hadd h1 (-1) (σ v0), bridge_b hadd h1 (-1) (σ v1),
      bridge_b hadd h1 (-1) (σ v2), bridge_b hadd h1 (-1) (σ v3),
      bridge_b hadd h1 (-1) (σ v4), bridge_b hadd h1 (-1) (σ v5)]
    unfold Kb60 prod6
    rw [interpC_mul hw4, interpC_mul hw4, interpC_mul hw4,
      interpC_mul hw4, interpC_mul hw4]
    ring
  rw [List.map_congr_left hpt]
  ring

theorem sem_replace_b66
    (hadd : ∀ a b : ℚ, ph (a + b) = ph a * ph b) (h1 : ph 1 = -1)
    (g : Graph) (v0 v1 v2 v3 v4 v5 : V) (β : V → Bool)
    (hinv : g.inv) (hv : ∀ v ∈ [v0, v1, v2, v3, v4, v5], selZ g v) :
    sem R ph (Decomposer.replace_b66 g [v0, v1, v2, v3, v4, v5]) β
      = twoPow R (-2) * interpC R ph ⟨-1, 0, 1, -1⟩ *
        (interpS R ph g.scalar *
          ((asgns g.vertexIds).map (fun σ =>
            wt R ph g β σ * interpC R ph
              (Kb66 (σ v0) (σ v1) (σ v2) (σ v3) (σ v4) (σ v5)))).sum) := by
  obtain ⟨⟨hnd, hfr⟩, hE, hB⟩ := hinv
  have hw4 := ph_w4 hadd h1
  have hsc : (Decomposer.replace_b66 g [v0, v1, v2, v3, v4, v5]).scalar
      = g.scalar * ScalarN.Exact (-2) ⟨-1, 0, 1, -1⟩ := by
    unfold Decomposer.replace_b66
    refine (scalar_foldl ?_ _ _).trans rfl
    intro h v
    rfl
  have hids : (Decomposer.replace_b66 g [v0, v1, v2, v3, v4, v5]).vertexIds
      = g.vertexIds := by
    unfold Decomposer.replace_b66
    refine ((foldl_verts_invariant ?_ ?_ _ _).1).trans rfl
    · intro h v
      exact vertexIds_add_to_phase h v _
    · intro h v
      rfl
  have hwt : ∀ σ' : V → Bool,
      wt R ph (Decomposer.replace_b66 g [v0, v1, v2, v3, v4, v5]) β σ'
        = (if σ' v5 then ph (mkRat 3 4) else 1) *
          ((if σ' v4 then ph (mkRat 3 4) else 1) *
          ((if σ' v3 then ph (mkRat 3 4) else 1) *
          ((if σ' v2 then ph (mkRat 3 4) else 1) *
          ((if σ' v1 then ph (mkRat 3 4) else 1) *
          ((if σ' v0 then ph (mkRat 3 4) else 1) *
            wt R ph g β σ'))))) := by
    intro σ'
    unfold Decomposer.replace_b66
    simp only [List.foldl_cons, List.foldl_nil]
    rw [wt_add_to_phase hadd _ _ _ _ _
      (by
        rw [vertexIds_add_to_phase, vertexIds_add_to_phase,
          vertexIds_add_to_phase, vertexIds_add_to_phase,
          vertexIds_add_to_phase]
        exact hnd)
      (selZ_add_to_phase _ _ _ _ (selZ_add_to_phase _ _ _ _
        (selZ_add_to_phase _ _ _ _ (selZ_add_to_phase _ _ _ _
          (selZ_add_to_phase _ _ _ _ (selZ_mul_scalar _ _ _
            (hv v5 (by simp))))))))]
    rw [wt_add_to_phase hadd _ _ _ _ _
      (by
        rw [vertexIds_add_to_phase, vertexIds_add_to_phase,
          vertexIds_add_to_phase, vertexIds_add_to_phase]
        exact hnd)
      (selZ_add_to_phase _ _ _ _ (selZ_add_to_phase _ _ _ _
        (selZ_add_to_phase _ _ _ _ (selZ_add_to_phase _ _ _ _
          (selZ_mul_scalar _ _ _ (hv v4 (by simp)))))))]
    rw [wt_add_to_phase hadd _ _ _ _ _
      (by
        rw [vertexIds_add_to_phase, vertexIds_add_to_phase,
          vertexIds_add_to_phase]
        exact hnd)
      (selZ_add_to_phase _ _ _ _ (selZ_add_to_phase _ _ _ _
        (selZ_add_to_phase _ _ _ _ (selZ_mul_scalar _ _ _
          (hv v3 (by simp))))))]
    rw [wt_add_to_phase hadd _ _ _ _ _
      (by
        rw [vertexIds_add_to_phase, vertexIds_add_to_phase]
        exact hnd)
      (selZ_add_to_phase _ _ _ _ (selZ_add_to_phase _ _ _ _
        (selZ_mul_scalar _ _ _ (hv v2 (by simp)))))]
    rw [wt_add_to_phase hadd _ _ _ _ _
      (by
        rw [vertexIds_add_to_phase]
        exact hnd)
      (selZ_add_to_phase _ _ _ _ (selZ_mul_scalar _ _ _
        (hv v1 (by simp))))]
    rw [wt_add_to_phase hadd _ _ _ _ _ (by exact hnd)
      (selZ_mul_scalar _ _ _ (hv v0 (by simp)))]
    rfl
  unfold sem
  rw [hsc, hids, interpS_mul hw4]
  have hsE : interpS R ph (ScalarN.Exact (-2) ⟨-1, 0, 1, -1⟩)
      = twoPow R (-2) * interpC R ph ⟨-1, 0, 1, -1⟩ := rfl
  rw [hsE]
  have hpt : ∀ σ ∈ asgns g.vertexIds,
      wt R ph (Decomposer.replace_b66 g [v0, v1, v2, v3, v4, v5]) β σ
      = wt R ph g β σ * interpC R ph
          (Kb66 (σ v0) (σ v1) (σ v2) (σ v3) (σ v4) (σ v5)) := by
    intro σ hσ
    rw [hwt σ]
    rw [bridge_b hadd h1 3 (σ v0), bridge_b hadd h1 3 (σ v1),
      bridge_b hadd h1 3 (σ v2), bridge_b hadd h1 3 (σ v3),
      bridge_b hadd h1 3 (σ v4), bridge_b hadd h1 3 (σ v5)]
    unfold Kb66 prod6
    rw [interpC_mul hw4, interpC_mul hw4, interpC_mul hw4,
      interpC_mul hw4, interpC_mul hw4]
    ring
  rw [List.map_congr_left hpt]
  ring

theorem bCyc_true (j : ℤ) : bCyc j true = Cyc.ompow j := rfl

theorem bCyc_false (j : ℤ) : bCyc j false = 1 := rfl

theorem twoPow_zero : twoPow R 0 = 1 := by
  unfold twoPow
  simp

theorem twoPow_neg_nat (n : ℕ) :
    twoPow R (-(n : ℤ)) = twoPow R (-1) ^ n := by
  unfold twoPow
  rw [← Units.val_pow_eq_pow_val]
  congr 1
  rw [← zpow_natCast ((unitOfInvertible (2 : R)) ^ (-1 : ℤ)), ← zpow_mul]
  congr 1
  ring

theorem wt_phase_edge_fold
    (hadd : ∀ a b : ℚ, ph (a + b) = ph a * ph b)
    (j : ℤ) (w : V) (et : EType) (β σ' : V → Bool) :
    ∀ (ts : List V) (h : Graph), h.vertexIds.Nodup →
      (∀ v ∈ ts, selZ h v) →
      wt R ph (ts.foldl (fun h v =>
          (h.add_to_phase v (mkRat j 4)).add_edge_with_type v w et) h) β σ'
        = (ts.map (fun v => efac R ph et (σ' v) (σ' w) *
            (if σ' v then ph (mkRat j 4) else 1))).prod * wt R ph h β σ' := by
  intro ts
  induction ts with
  | nil =>
    intro h _ _
    simp
  | cons v ts ih =>
    intro h hnd hsel
    rw [List.foldl_cons, ih _ ?hnd2 ?hsel2, wt_add_edge,
      wt_add_to_phase hadd _ _ _ _ _ hnd (hsel v (List.mem_cons_self v ts)),
      List.map_cons, List.prod_cons]
    · ring
    case hnd2 =>
      rw [vertexIds_add_edge, vertexIds_add_to_phase]
      exact hnd
    case hsel2 =>
      intro u hu
      exact selZ_add_edge _ _ _ _ _ (selZ_add_to_phase _ _ _ _
        (hsel u (List.mem_cons_of_mem v hu)))

theorem wt_edge_phase_fold
    (hadd : ∀ a b : ℚ, ph (a + b) = ph a * ph b)
    (j : ℤ) (w : V) (et : EType) (β σ' : V → Bool) :
    ∀ (ts : List V) (h : Graph), h.vertexIds.Nodup →
      (∀ v ∈ ts, selZ h v) →
      wt R ph (ts.foldl (fun h v =>
          (h.add_edge_with_type v w et).add_to_phase v (mkRat j 4)) h) β σ'
        = (ts.map (fun v => efac R ph et (σ' v) (σ' w) *
            (if σ' v then ph (mkRat j 4) else 1))).prod * wt R ph h β σ' := by
  intro ts
  induction ts with
  | nil =>
    intro h _ _
    simp
  | cons v ts ih =>
    intro h hnd hsel
    rw [List.foldl_cons, ih _ ?hnd2 ?hsel2,
      wt_add_to_phase hadd _ _ _ _ _ (by rw [vertexIds_add_edge]; exact hnd)
        (selZ_add_edge _ _ _ _ _ (hsel v (List.mem_cons_self v ts))),
      wt_add_edge, List.map_cons, List.prod_cons]
    · ring
    case hnd2 =>
      rw [vertexIds_add_to_phase, vertexIds_add_edge]
      exact hnd
    case hsel2 =>
      intro u hu
      exact selZ_add_to_phase _ _ _ _ (selZ_add_edge _ _ _ _ _
        (hsel u (List.mem_cons_of_mem v hu)))

theorem sem_replace_e6
    (hadd : ∀ a b : ℚ, ph (a + b) = ph a * ph b) (h1 : ph 1 = -1)
    (g : Graph) (v0 v1 v2 v3 v4 v5 : V) (β : V → Bool)
    (hinv : g.inv) (hv : ∀ v ∈ [v0, v1, v2, v3, v4, v5], selZ g v) :
    sem R ph (Decomposer.replace_e6 g [v0, v1, v2, v3, v4, v5]) β
      = twoPow R (-5) * interpC R ph ⟨0, -1, 0, 0⟩ *
        (interpS R ph g.scalar *
          ((asgns g.vertexIds).map (fun σ =>
            wt R ph g β σ * interpC R ph
              (Ke6 (σ v0) (σ v1) (σ v2) (σ v3) (σ v4) (σ v5)))).sum) := by
  obtain ⟨⟨hnd, hfr⟩, hE, hB⟩ := hinv
  have hw4 := ph_w4 hadd h1
  have hfm : g.fresh ∉ g.vertexIds := fun h => lt_irrefl _ (hfr _ h)
  have hvm : ∀ v ∈ [v0, v1, v2, v3, v4, v5], v ∈ g.vertexIds := by
    intro v hvv
    obtain ⟨p, hp, h1p, _⟩ := hv v hvv
    rw [← h1p]
    exact List.mem_map_of_mem Prod.fst hp
  have hndapp : (g.vertexIds ++ [g.fresh]).Nodup := by
    refine hnd.append (List.nodup_singleton _) ?_
    intro a ha
    rw [List.mem_singleton]
    exact fun he => hfm (he ▸ ha)
  have hsc : (Decomposer.replace_e6 g [v0, v1, v2, v3, v4, v5]).scalar
      = g.scalar * ScalarN.Exact 1 ⟨0, -1, 0, 0⟩ := by
    unfold Decomposer.replace_e6
    refine (scalar_foldl ?_ _ _).trans rfl
    intro h v
    rfl
  have hids : (Decomposer.replace_e6 g [v0, v1, v2, v3, v4, v5]).vertexIds
      = g.vertexIds ++ [g.fresh] := by
    unfold Decomposer.replace_e6
    refine ((foldl_verts_invariant ?_ ?_ _ _).1).trans ?_
    · intro h v
      rw [vertexIds_add_edge, vertexIds_add_to_phase]
    · intro h v
      rfl
    · rw [vertexIds_add_vertex]
      rfl
  have hwt : ∀ σ' : V → Bool,
      wt R ph (Decomposer.replace_e6 g [v0, v1, v2, v3, v4, v5]) β σ'
        = ([v0, v1, v2, v3, v4, v5].map (fun v =>
              efac R ph EType.H (σ' v) (σ' g.fresh) *
              (if σ' v then ph (mkRat 1 4) else 1))).prod *
          ((if σ' g.fresh then ph (1 : ℚ) else 1) * wt R ph g β σ') := by
    intro σ'
    unfold Decomposer.replace_e6
    rw [wt_phase_edge_fold hadd 1 _ EType.H β σ' _ _
      (by rw [vertexIds_add_vertex]; exact hndapp)
      (fun v hvv => selZ_add_vertex _ VType.Z 1 _
        (selZ_mul_scalar _ _ _ (hv v hvv)))]
    rw [wt_add_vertex, wt_mul_scalar, vfac_Z]
    rfl
  unfold sem
  rw [hsc, hids, interpS_mul hw4,
    asgns_append_sum g.vertexIds g.fresh hfm _]
  have hpt : ∀ σ ∈ asgns g.vertexIds,
      wt R ph (Decomposer.replace_e6 g [v0, v1, v2, v3, v4, v5]) β σ
        + wt R ph (Decomposer.replace_e6 g [v0, v1, v2, v3, v4, v5]) β
            (upd σ g.fresh true)
      = twoPow R (-6) *
          (wt R ph g β σ * interpC R ph
            (Ke6 (σ v0) (σ v1) (σ v2) (σ v3) (σ v4) (σ v5))) := by
    intro σ hσ
    rw [hwt σ, hwt (upd σ g.fresh true)]
    rw [asgns_false g.vertexIds σ hσ g.fresh hfm]
    simp only [List.map_cons, List.map_nil, List.prod_cons, List.prod_nil]
    rw [upd_same,
      upd_other σ g.fresh true v0
        (fun he => hfm (he ▸ hvm v0 (by simp))),
      upd_other σ g.fresh true v1
        (fun he => hfm (he ▸ hvm v1 (by simp))),
      upd_other σ g.fresh true v2
        (fun he => hfm (he ▸ hvm v2 (by simp))),
      upd_other σ g.fresh true v3
        (fun he => hfm (he ▸ hvm v3 (by simp))),
      upd_other σ g.fresh true v4
        (fun he => hfm (he ▸ hvm v4 (by simp))),
      upd_other σ g.fresh true v5
        (fun he => hfm (he ▸ hvm v5 (by simp)))]
    rw [wt_congr g β (upd σ g.fresh true) σ hE
      (fun v hvmem => upd_other σ g.fresh true v
        (fun he => hfm (he ▸ hvmem)))]
    rw [show (if (false : Bool) = true then ph (1 : ℚ) else 1) = 1 from rfl]
    rw [show (if (true : Bool) = true then ph (1 : ℚ) else 1) = ph 1 from
      rfl, h1]
    simp only [bridge_b hadd h1, bridge_h hadd h1]
    rw [show twoPow R (-6) = twoPow R (-1) ^ 6 from by
      have := twoPow_neg_nat (R := R) 6
      simpa using this]
    unfold Ke6 prod6H
    simp only [interpC_add, interpC_mul hw4, interpC_ompow4 hadd h1]
    ring
  rw [List.map_congr_left hpt]
  have hfac : ((asgns g.vertexIds).map (fun σ => twoPow R (-6) *
      (wt R ph g β σ * interpC R ph
        (Ke6 (σ v0) (σ v1) (σ v2) (σ v3) (σ v4) (σ v5))))).sum
      = twoPow R (-6) * ((asgns g.vertexIds).map (fun σ =>
          wt R ph g β σ * interpC R ph
            (Ke6 (σ v0) (σ v1) (σ v2) (σ v3) (σ v4) (σ v5)))).sum := by
    rw [← List.sum_map_mul_left]
  rw [hfac]
  have hsE : interpS R ph (ScalarN.Exact 1 ⟨0, -1, 0, 0⟩)
      = twoPow R 1 * interpC R ph ⟨0, -1, 0, 0⟩ := rfl
  rw [hsE]
  have ht2 : twoPow R 1 * twoPow R (-6) = twoPow R (-5) := by
    rw [← twoPow_add]
    norm_num
  rw [← ht2]
  ring

theorem sem_replace_k6
    (hadd : ∀ a b : ℚ, ph (a + b) = ph a * ph b) (h1 : ph 1 = -1)
    (g : Graph) (v0 v1 v2 v3 v4 v5 : V) (β : V → Bool)
    (hinv : g.inv) (hv : ∀ v ∈ [v0, v1, v2, v3, v4, v5], selZ g v) :
    sem R ph (Decomposer.replace_k6 g [v0, v1, v2, v3, v4, v5]) β
      = twoPow R 1 * interpC R ph ⟨1, 0, 0, 0⟩ *
        (interpS R ph g.scalar *
          ((asgns g.vertexIds).map (fun σ =>
            wt R ph g β σ * interpC R ph
              (Kk6 (σ v0) (σ v1) (σ v2) (σ v3) (σ v4) (σ v5)))).sum) := by
  obtain ⟨⟨hnd, hfr⟩, hE, hB⟩ := hinv
  have hw4 := ph_w4 hadd h1
  have hfm : g.fresh ∉ g.vertexIds := fun h => lt_irrefl _ (hfr _ h)
  have hvm : ∀ v ∈ [v0, v1, v2, v3, v4, v5], v ∈ g.vertexIds := by
    intro v hvv
    obtain ⟨p, hp, h1p, _⟩ := hv v hvv
    rw [← h1p]
    exact List.mem_map_of_mem Prod.fst hp
  have hndapp : (g.vertexIds ++ [g.fresh]).Nodup := by
    refine hnd.append (List.nodup_singleton _) ?_
    intro a ha
    rw [List.mem_singleton]
    exact fun he => hfm (he ▸ ha)
  have hsc : (Decomposer.replace_k6 g [v0, v1, v2, v3, v4, v5]).scalar
      = g.scalar * ScalarN.Exact 1 ⟨1, 0, 0, 0⟩ := by
    unfold Decomposer.replace_k6
    refine (scalar_foldl ?_ _ _).trans rfl
    intro h v
    rfl
  have hids : (Decomposer.replace_k6 g [v0, v1, v2, v3, v4, v5]).vertexIds
      = g.vertexIds ++ [g.fresh] := by
    unfold Decomposer.replace_k6
    refine ((foldl_verts_invariant ?_ ?_ _ _).1).trans ?_
    · intro h v
      rw [vertexIds_add_edge, vertexIds_add_to_phase]
    · intro h v
      rfl
    · rw [vertexIds_add_vertex]
      rfl
  have hwt : ∀ σ' : V → Bool,
      wt R ph (Decomposer.replace_k6 g [v0, v1, v2, v3, v4, v5]) β σ'
        = ([v0, v1, v2, v3, v4, v5].map (fun v =>
              efac R ph EType.N (σ' v) (σ' g.fresh) *
              (if σ' v then ph (mkRat (-1) 4) else 1))).prod *
          ((if σ' g.fresh then ph (mkRat (-1) 2) else 1) * wt R ph g β σ') := by
    intro σ'
    unfold Decomposer.replace_k6
    rw [wt_phase_edge_fold hadd (-1) _ EType.N β σ' _ _
      (by rw [vertexIds_add_vertex]; exact hndapp)
      (fun v hvv => selZ_add_vertex _ VType.Z (mkRat (-1) 2) _
        (selZ_mul_scalar _ _ _ (hv v hvv)))]
    rw [wt_add_vertex, wt_mul_scalar, vfac_Z]
    rfl
  unfold sem
  rw [hsc, hids, interpS_mul hw4,
    asgns_append_sum g.vertexIds g.fresh hfm _]
  have hpt : ∀ σ ∈ asgns g.vertexIds,
      wt R ph (Decomposer.replace_k6 g [v0, v1, v2, v3, v4, v5]) β σ
        + wt R ph (Decomposer.replace_k6 g [v0, v1, v2, v3, v4, v5]) β
            (upd σ g.fresh true)
      = wt R ph g β σ * interpC R ph
          (Kk6 (σ v0) (σ v1) (σ v2) (σ v3) (σ v4) (σ v5)) := by
    intro σ hσ
    rw [hwt σ, hwt (upd σ g.fresh true)]
    rw [asgns_false g.vertexIds σ hσ g.fresh hfm]
    simp only [List.map_cons, List.map_nil, List.prod_cons, List.prod_nil]
    rw [upd_same,
      upd_other σ g.fresh true v0
        (fun he => hfm (he ▸ hvm v0 (by simp))),
      upd_other σ g.fresh true v1
        (fun he => hfm (he ▸ hvm v1 (by simp))),
      upd_other σ g.fresh true v2
        (fun he => hfm (he ▸ hvm v2 (by simp))),
      upd_other σ g.fresh true v3
        (fun he => hfm (he ▸ hvm v3 (by simp))),
      upd_other σ g.fresh true v4
        (fun he => hfm (he ▸ hvm v4 (by simp))),
      upd_other σ g.fresh true v5
        (fun he => hfm (he ▸ hvm v5 (by simp)))]
    rw [wt_congr g β (upd σ g.fresh true) σ hE
      (fun v hvmem => upd_other σ g.fresh true v
        (fun he => hfm (he ▸ hvmem)))]
    rw [show (if (false : Bool) = true then ph (mkRat (-1) 2) else 1) = 1
      from rfl]
    rw [show (if (true : Bool) = true then ph (mkRat (-1) 2) else 1)
        = ph (mkRat (-1) 2) from rfl]
    rw [show ph (mkRat (-1) 2) = interpC R ph (Cyc.ompow (-2)) from by
      rw [show mkRat (-1) 2 = mkRat (-2) 4 from by decide]
      exact ph_eq_interpC_ompow hadd h1 (-2)]
    simp only [bridge_b hadd h1, bridge_n]
    unfold Kk6 prod6N
    simp only [interpC_add, interpC_mul hw4, interpC_ompow4 hadd h1]
    ring
  rw [List.map_congr_left hpt]
  have hsE : interpS R ph (ScalarN.Exact 1 ⟨1, 0, 0, 0⟩)
      = twoPow R 1 * interpC R ph ⟨1, 0, 0, 0⟩ := rfl
  rw [hsE]
  ring


theorem sem_replace_o6
    (hadd : ∀ a b : ℚ, ph (a + b) = ph a * ph b) (h1 : ph 1 = -1)
    (g : Graph) (v0 v1 v2 v3 v4 v5 : V) (β : V → Bool)
    (hinv : g.inv) (hv : ∀ v ∈ [v0, v1, v2, v3, v4, v5], selZ g v) :
    sem R ph (Decomposer.replace_o6 g [v0, v1, v2, v3, v4, v5]) β
      = twoPow R (-5) * interpC R ph ⟨-1, 0, -1, 0⟩ *
        (interpS R ph g.scalar *
          ((asgns g.vertexIds).map (fun σ =>
            wt R ph g β σ * interpC R ph
              (Ko6 (σ v0) (σ v1) (σ v2) (σ v3) (σ v4) (σ v5)))).sum) := by
  obtain ⟨⟨hnd, hfr⟩, hE, hB⟩ := hinv
  have hw4 := ph_w4 hadd h1
  have hfm : g.fresh ∉ g.vertexIds := fun h => lt_irrefl _ (hfr _ h)
  have hvm : ∀ v ∈ [v0, v1, v2, v3, v4, v5], v ∈ g.vertexIds := by
    intro v hvv
    obtain ⟨p, hp, h1p, _⟩ := hv v hvv
    rw [← h1p]
    exact List.mem_map_of_mem Prod.fst hp
  have hndapp : (g.vertexIds ++ [g.fresh]).Nodup := by
    refine hnd.append (List.nodup_singleton _) ?_
    intro a ha
    rw [List.mem_singleton]
    exact fun he => hfm (he ▸ ha)
  have hsc : (Decomposer.replace_o6 g [v0, v1, v2, v3, v4, v5]).scalar
      = g.scalar * ScalarN.Exact 1 ⟨-1, 0, -1, 0⟩ := by
    unfold Decomposer.replace_o6 Graph.add_vertex
    refine (scalar_foldl ?_ _ _).trans rfl
    intro h v
    rfl
  have hids : (Decomposer.replace_o6 g [v0, v1, v2, v3, v4, v5]).vertexIds
      = g.vertexIds ++ [g.fresh] := by
    unfold Decomposer.replace_o6 Graph.add_vertex
    refine ((foldl_verts_invariant ?_ ?_ _ _).1).trans ?_
    · intro h v
      rw [vertexIds_add_edge, vertexIds_add_to_phase]
    · intro h v
      rfl
    · rw [vertexIds_add_vertex]
      rfl
  have hwt : ∀ σ' : V → Bool,
      wt R ph (Decomposer.replace_o6 g [v0, v1, v2, v3, v4, v5]) β σ'
        = ([v0, v1, v2, v3, v4, v5].map (fun v =>
              efac R ph EType.H (σ' v) (σ' g.fresh) *
              (if σ' v then ph (mkRat 1 4) else 1))).prod *
          ((if σ' g.fresh then ph (0 : ℚ) else 1) * wt R ph g β σ') := by
    intro σ'
    unfold Decomposer.replace_o6 Graph.add_vertex
    rw [wt_phase_edge_fold hadd 1 _ EType.H β σ' _ _
      (by rw [vertexIds_add_vertex]; exact hndapp)
      (fun v hvv => selZ_add_vertex _ VType.Z 0 _
        (selZ_mul_scalar _ _ _ (hv v hvv)))]
    rw [wt_add_vertex, wt_mul_scalar, vfac_Z]
    rfl
  unfold sem
  rw [hsc, hids, interpS_mul hw4,
    asgns_append_sum g.vertexIds g.fresh hfm _]
  have hpt : ∀ σ ∈ asgns g.vertexIds,
      wt R ph (Decomposer.replace_o6 g [v0, v1, v2, v3, v4, v5]) β σ
        + wt R ph (Decomposer.replace_o6 g [v0, v1, v2, v3, v4, v5]) β
            (upd σ g.fresh true)
      = twoPow R (-6) *
          (wt R ph g β σ * interpC R ph
            (Ko6 (σ v0) (σ v1) (σ v2) (σ v3) (σ v4) (σ v5))) := by
    intro σ hσ
    rw [hwt σ, hwt (upd σ g.fresh true)]
    rw [asgns_false g.vertexIds σ hσ g.fresh hfm]
    simp only [List.map_cons, List.map_nil, List.prod_cons, List.prod_nil]
    rw [upd_same,
      upd_other σ g.fresh true v0
        (fun he => hfm (he ▸ hvm v0 (by simp))),
      upd_other σ g.fresh true v1
        (fun he => hfm (he ▸ hvm v1 (by simp))),
      upd_other σ g.fresh true v2
        (fun he => hfm (he ▸ hvm v2 (by simp))),
      upd_other σ g.fresh true v3
        (fun he => hfm (he ▸ hvm v3 (by simp))),
      upd_other σ g.fresh true v4
        (fun he => hfm (he ▸ hvm v4 (by simp))),
      upd_other σ g.fresh true v5
        (fun he => hfm (he ▸ hvm v5 (by simp)))]
    rw [wt_congr g β (upd σ g.fresh true) σ hE
      (fun v hvmem => upd_other σ g.fresh true v
        (fun he => hfm (he ▸ hvmem)))]
    rw [show (if (false : Bool) = true then ph (0 : ℚ) else 1) = 1 from rfl]
    rw [show (if (true : Bool) = true then ph (0 : ℚ) else 1) = ph 0 from
      rfl, ph_zero hadd h1]
    simp only [bridge_b hadd h1, bridge_h hadd h1]
    rw [show twoPow R (-6) = twoPow R (-1) ^ 6 from by
      have := twoPow_neg_nat (R := R) 6
      simpa using this]
    unfold Ko6 prod6H
    simp only [interpC_add, interpC_mul hw4, interpC_ompow4 hadd h1]
    ring
  rw [List.map_congr_left hpt]
  have hfac : ((asgns g.vertexIds).map (fun σ => twoPow R (-6) *
      (wt R ph g β σ * interpC R ph
        (Ko6 (σ v0) (σ v1) (σ v2) (σ v3) (σ v4) (σ v5))))).sum
      = twoPow R (-6) * ((asgns g.vertexIds).map (fun σ =>
          wt R ph g β σ * interpC R ph
            (Ko6 (σ v0) (σ v1) (σ v2) (σ v3) (σ v4) (σ v5)))).sum := by
    rw [← List.sum_map_mul_left]
  rw [hfac]
  have hsE : interpS R ph (ScalarN.Exact 1 ⟨-1, 0, -1, 0⟩)
      = twoPow R 1 * interpC R ph ⟨-1, 0, -1, 0⟩ := rfl
  rw [hsE]
  have ht2 : twoPow R 1 * twoPow R (-6) = twoPow R (-5) := by
    rw [← twoPow_add]
    norm_num
  rw [← ht2]
  ring

theorem sem_replace_epr
    (hadd : ∀ a b : ℚ, ph (a + b) = ph a * ph b) (h1 : ph 1 = -1)
    (g : Graph) (v0 v1 : V) (β : V → Bool)
    (hinv : g.inv) (hv : ∀ v ∈ [v0, v1], selZ g v) :
    sem R ph (Decomposer.replace_epr g [v0, v1]) β
      = twoPow R (-2) * interpC R ph (Cyc.ompow 1) *
        (interpS R ph g.scalar *
          ((asgns g.vertexIds).map (fun σ =>
            wt R ph g β σ * interpC R ph (Kepr (σ v0) (σ v1)))).sum) := by
  obtain ⟨⟨hnd, hfr⟩, hE, hB⟩ := hinv
  have hw4 := ph_w4 hadd h1
  have hfm : g.fresh ∉ g.vertexIds := fun h => lt_irrefl _ (hfr _ h)
  have hvm : ∀ v ∈ [v0, v1], v ∈ g.vertexIds := by
    intro v hvv
    obtain ⟨p, hp, h1p, _⟩ := hv v hvv
    rw [← h1p]
    exact List.mem_map_of_mem Prod.fst hp
  have hndapp : (g.vertexIds ++ [g.fresh]).Nodup := by
    refine hnd.append (List.nodup_singleton _) ?_
    intro a ha
    rw [List.mem_singleton]
    exact fun he => hfm (he ▸ ha)
  have hsc : (Decomposer.replace_epr g [v0, v1]).scalar
      = g.scalar * ScalarN.from_phase (mkRat 1 4) := by
    unfold Decomposer.replace_epr
    refine (scalar_foldl ?_ _ _).trans rfl
    intro h v
    rfl
  have hids : (Decomposer.replace_epr g [v0, v1]).vertexIds
      = g.vertexIds ++ [g.fresh] := by
    unfold Decomposer.replace_epr
    refine ((foldl_verts_invariant ?_ ?_ _ _).1).trans ?_
    · intro h v
      rw [vertexIds_add_to_phase, vertexIds_add_edge]
    · intro h v
      rfl
    · rw [vertexIds_add_vertex]
      rfl
  have hwt : ∀ σ' : V → Bool,
      wt R ph (Decomposer.replace_epr g [v0, v1]) β σ'
        = ([v0, v1].map (fun v =>
              efac R ph EType.H (σ' v) (σ' g.fresh) *
              (if σ' v then ph (mkRat (-1) 4) else 1))).prod *
          ((if σ' g.fresh then ph (1 : ℚ) else 1) * wt R ph g β σ') := by
    intro σ'
    unfold Decomposer.replace_epr
    rw [wt_edge_phase_fold hadd (-1) _ EType.H β σ' _ _
      (by rw [vertexIds_add_vertex]; exact hndapp)
      (fun v hvv => selZ_add_vertex _ VType.Z 1 _
        (selZ_mul_scalar _ _ _ (hv v hvv)))]
    rw [wt_add_vertex, wt_mul_scalar, vfac_Z]
    rfl
  unfold sem
  rw [hsc, hids, interpS_mul hw4,
    asgns_append_sum g.vertexIds g.fresh hfm _]
  have hpt : ∀ σ ∈ asgns g.vertexIds,
      wt R ph (Decomposer.replace_epr g [v0, v1]) β σ
        + wt R ph (Decomposer.replace_epr g [v0, v1]) β
            (upd σ g.fresh true)
      = twoPow R (-2) *
          (wt R ph g β σ * interpC R ph (Kepr (σ v0) (σ v1))) := by
    intro σ hσ
    rw [hwt σ, hwt (upd σ g.fresh true)]
    rw [asgns_false g.vertexIds σ hσ g.fresh hfm]
    simp only [List.map_cons, List.map_nil, List.prod_cons, List.prod_nil]
    rw [upd_same,
      upd_other σ g.fresh true v0
        (fun he => hfm (he ▸ hvm v0 (by simp))),
      upd_other σ g.fresh true v1
        (fun he => hfm (he ▸ hvm v1 (by simp)))]
    rw [wt_congr g β (upd σ g.fresh true) σ hE
      (fun v hvmem => upd_other σ g.fresh true v
        (fun he => hfm (he ▸ hvmem)))]
    rw [show (if (false : Bool) = true then ph (1 : ℚ) else 1) = 1 from rfl]
    rw [show (if (true : Bool) = true then ph (1 : ℚ) else 1) = ph 1 from
      rfl, h1]
    simp only [bridge_b hadd h1, bridge_h hadd h1]
    rw [show twoPow R (-2) = twoPow R (-1) ^ 2 from by
      have := twoPow_neg_nat (R := R) 2
      simpa using this]
    unfold Kepr
    simp only [interpC_add, interpC_mul hw4, interpC_ompow4 hadd h1]
    ring
  rw [List.map_congr_left hpt]
  have hfac : ((asgns g.vertexIds).map (fun σ => twoPow R (-2) *
      (wt R ph g β σ * interpC R ph (Kepr (σ v0) (σ v1))))).sum
      = twoPow R (-2) * ((asgns g.vertexIds).map (fun σ =>
          wt R ph g β σ * interpC R ph (Kepr (σ v0) (σ v1)))).sum := by
    rw [← List.sum_map_mul_left]
  rw [hfac]
  have hsE : interpS R ph (ScalarN.from_phase (mkRat 1 4))
      = twoPow R 0 * interpC R ph (Cyc.ompow 1) := rfl
  rw [hsE, twoPow_zero, one_mul]
  ring

end SemChildren



theorem fresh_mul_scalar (g : Graph) (s : ScalarN) :
    (g.mul_scalar s).fresh = g.fresh := rfl

theorem vertexIds_mul_scalar (g : Graph) (s : ScalarN) :
    (g.mul_scalar s).vertexIds = g.vertexIds := rfl

theorem fresh_add_edge (g : Graph) (u v : V) (et : EType) :
    (g.add_edge_with_type u v et).fresh = g.fresh := rfl

theorem fresh_add_to_phase (g : Graph) (v : V) (δ : ℚ) :
    (g.add_to_phase v δ).fresh = g.fresh := rfl

theorem fresh_add_vertex (g : Graph) (ty : VType) (ψ : ℚ) :
    ((g.add_vertex_with_phase ty ψ).1).fresh = g.fresh + 1 := rfl

theorem snd_add_vertex (g : Graph) (ty : VType) (ψ : ℚ) :
    (g.add_vertex_with_phase ty ψ).2 = g.fresh := rfl

section SemPhi

variable {R : Type} [CommRing R] [Invertible (2 : R)] {ph : ℚ → R}

set_option maxHeartbeats 6000000 in
set_option maxRecDepth 8000 in
theorem sem_replace_phi1
    (hadd : ∀ a b : ℚ, ph (a + b) = ph a * ph b) (h1 : ph 1 = -1)
    (g : Graph) (v0 v1 v2 v3 v4 v5 : V) (β : V → Bool)
    (hinv : g.inv) (hv : ∀ v ∈ [v0, v1, v2, v3, v4, v5], selZ g v) :
    sem R ph (Decomposer.replace_phi1 g [v0, v1, v2, v3, v4, v5]) β
      = twoPow R (-12) * interpC R ph ⟨1, 0, 1, 0⟩ *
        (interpS R ph g.scalar *
          ((asgns g.vertexIds).map (fun σ =>
            wt R ph g β σ * interpC R ph
              (Kphi1 (σ v0) (σ v1) (σ v2) (σ v3) (σ v4) (σ v5)))).sum) := by
  obtain ⟨⟨hnd, hfr⟩, hE, hB⟩ := hinv
  have hw4 := ph_w4 hadd h1
  have hvm : ∀ v ∈ [v0, v1, v2, v3, v4, v5], v ∈ g.vertexIds := by
    intro v hvv
    obtain ⟨p, hp, h1p, _⟩ := hv v hvv
    rw [← h1p]
    exact List.mem_map_of_mem Prod.fst hp
  have hle0 : g.fresh ≤ g.fresh := Nat.le.refl
  have hle1 : g.fresh ≤ g.fresh + 1 := Nat.le_succ_of_le hle0
  have hle2 : g.fresh ≤ g.fresh + 1 + 1 := Nat.le_succ_of_le hle1
  have hle3 : g.fresh ≤ g.fresh + 1 + 1 + 1 := Nat.le_succ_of_le hle2
  have hle4 : g.fresh ≤ g.fresh + 1 + 1 + 1 + 1 := Nat.le_succ_of_le hle3
  have hlt01 : g.fresh < g.fresh + 1 := Nat.lt_succ_self _
  have hlt02 : g.fresh < g.fresh + 1 + 1 := Nat.lt_succ_of_lt hlt01
  have hlt03 : g.fresh < g.fresh + 1 + 1 + 1 := Nat.lt_succ_of_lt hlt02
  have hlt04 : g.fresh < g.fresh + 1 + 1 + 1 + 1 := Nat.lt_succ_of_lt hlt03
  have hlt12 : g.fresh + 1 < g.fresh + 1 + 1 := Nat.lt_succ_self _
  have hlt13 : g.fresh + 1 < g.fresh + 1 + 1 + 1 := Nat.lt_succ_of_lt hlt12
  have hlt14 : g.fresh + 1 < g.fresh + 1 + 1 + 1 + 1 := Nat.lt_succ_of_lt hlt13
  have hlt23 : g.fresh + 1 + 1 < g.fresh + 1 + 1 + 1 := Nat.lt_succ_self _
  have hlt24 : g.fresh + 1 + 1 < g.fresh + 1 + 1 + 1 + 1 := Nat.lt_succ_of_lt hlt23
  have hlt34 : g.fresh + 1 + 1 + 1 < g.fresh + 1 + 1 + 1 + 1 := Nat.lt_succ_self _
  have hbnd0 : ∀ a ∈ g.vertexIds, a < g.fresh := hfr
  have hap0 : (g.vertexIds).Nodup := hnd
  have hbnd1 : ∀ a ∈ (g.vertexIds ++ [g.fresh]), a < g.fresh + 1 := by
    intro a ha
    rcases List.mem_append.mp ha with h | h
    · exact Nat.lt_succ_of_lt (hbnd0 a h)
    · rw [List.mem_singleton] at h
      rw [h]
      exact Nat.lt_succ_self _
  have hap1 : ((g.vertexIds ++ [g.fresh])).Nodup := by
    refine hap0.append (List.nodup_singleton _) ?_
    intro a ha
    rw [List.mem_singleton]
    exact Nat.ne_of_lt (hbnd0 a ha)
  have hbnd2 : ∀ a ∈ ((g.vertexIds ++ [g.fresh]) ++ [g.fresh + 1]), a < g.fresh + 1 + 1 := by
    intro a ha
    rcases List.mem_append.mp ha with h | h
    · exact Nat.lt_succ_of_lt (hbnd1 a h)
    · rw [List.mem_singleton] at h
      rw [h]
      exact Nat.lt_succ_self _
  have hap2 : (((g.vertexIds ++ [g.fresh]) ++ [g.fresh + 1])).Nodup := by
    refine hap1.append (List.nodup_singleton _) ?_
    intro a ha
    rw [List.mem_singleton]
    exact Nat.ne_of_lt (hbnd1 a ha)
  have hbnd3 : ∀ a ∈ (((g.vertexIds ++ [g.fresh]) ++ [g.fresh + 1]) ++ [g.fresh + 1 + 1]), a < g.fresh + 1 + 1 + 1 := by
    intro a ha
    rcases List.mem_append.mp ha with h | h
    · exact Nat.lt_succ_of_lt (hbnd2 a h)
    · rw [List.mem_singleton] at h
      rw [h]
      exact Nat.lt_succ_self _
  have hap3 : ((((g.vertexIds ++ [g.fresh]) ++ [g.fresh + 1]) ++ [g.fresh + 1 + 1])).Nodup := by
    refine hap2.append (List.nodup_singleton _) ?_
    intro a ha
    rw [List.mem_singleton]
    exact Nat.ne_of_lt (hbnd2 a ha)
  have hbnd4 : ∀ a ∈ ((((g.vertexIds ++ [g.fresh]) ++ [g.fresh + 1]) ++ [g.fresh + 1 + 1]) ++ [g.fresh + 1 + 1 + 1]), a < g.fresh + 1 + 1 + 1 + 1 := by
    intro a ha
    rcases List.mem_append.mp ha with h | h
    · exact Nat.lt_succ_of_lt (hbnd3 a h)
    · rw [List.mem_singleton] at h
      rw [h]
      exact Nat.lt_succ_self _
  have hap4 : (((((g.vertexIds ++ [g.fresh]) ++ [g.fresh + 1]) ++ [g.fresh + 1 + 1]) ++ [g.fresh + 1 + 1 + 1])).Nodup := by
    refine hap3.append (List.nodup_singleton _) ?_
    intro a ha
    rw [List.mem_singleton]
    exact Nat.ne_of_lt (hbnd3 a ha)
  have hbnd5 : ∀ a ∈ (((((g.vertexIds ++ [g.fresh]) ++ [g.fresh + 1]) ++ [g.fresh + 1 + 1]) ++ [g.fresh + 1 + 1 + 1]) ++ [g.fresh + 1 + 1 + 1 + 1]), a < g.fresh + 1 + 1 + 1 + 1 + 1 := by
    intro a ha
    rcases List.mem_append.mp ha with h | h
    · exact Nat.lt_succ_of_lt (hbnd4 a h)
    · rw [List.mem_singleton] at h
      rw [h]
      exact Nat.lt_succ_self _
  have hap5 : ((((((g.vertexIds ++ [g.fresh]) ++ [g.fresh + 1]) ++ [g.fresh + 1 + 1]) ++ [g.fresh + 1 + 1 + 1]) ++ [g.fresh + 1 + 1 + 1 + 1])).Nodup := by
    refine hap4.append (List.nodup_singleton _) ?_
    intro a ha
    rw [List.mem_singleton]
    exact Nat.ne_of_lt (hbnd4 a ha)
  have hsc : (Decomposer.replace_phi1 g [v0, v1, v2, v3, v4, v5]).scalar
      = g.scalar * ScalarN.Exact 3 ⟨1, 0, 1, 0⟩ := rfl
  have hids : (Decomposer.replace_phi1 g [v0, v1, v2, v3, v4, v5]).vertexIds
      = (((((g.vertexIds ++ [g.fresh]) ++ [g.fresh + 1]) ++ [g.fresh + 1 + 1]) ++ [g.fresh + 1 + 1 + 1]) ++ [g.fresh + 1 + 1 + 1 + 1]) := by
    unfold Decomposer.replace_phi1 Graph.add_vertex
    simp only [List.getD_cons_zero, List.getD_cons_succ,
      vertexIds_add_to_phase, vertexIds_add_edge, vertexIds_add_vertex,
      vertexIds_mul_scalar, fresh_mul_scalar, fresh_add_edge,
      fresh_add_to_phase, fresh_add_vertex]
  have hwt : ∀ σ' : V → Bool,
      wt R ph (Decomposer.replace_phi1 g [v0, v1, v2, v3, v4, v5]) β σ'
        = efac R ph EType.H (σ' (g.fresh)) (σ' (g.fresh + 1 + 1)) * efac R ph EType.H (σ' (g.fresh)) (σ' (g.fresh + 1 + 1 + 1)) * efac R ph EType.H (σ' (g.fresh + 1)) (σ' (g.fresh + 1 + 1 + 1)) * efac R ph EType.H (σ' (g.fresh + 1)) (σ' (g.fresh + 1 + 1 + 1 + 1)) * efac R ph EType.H (σ' (g.fresh + 1 + 1)) (σ' (g.fresh + 1 + 1 + 1 + 1)) * (if σ' v5 then ph (mkRat 3 4) else 1) * ((if σ' v0 then ph (mkRat (-1) 4) else 1) * efac R ph EType.H (σ' v0) (σ' (g.fresh)) * efac R ph EType.H (σ' (g.fresh)) (σ' v5) * (if σ' (g.fresh) then ph (0 : ℚ) else 1)) * ((if σ' v1 then ph (mkRat (-1) 4) else 1) * efac R ph EType.H (σ' v1) (σ' (g.fresh + 1)) * efac R ph EType.H (σ' (g.fresh + 1)) (σ' v5) * (if σ' (g.fresh + 1) then ph (0 : ℚ) else 1)) * ((if σ' v2 then ph (mkRat (-1) 4) else 1) * efac R ph EType.H (σ' v2) (σ' (g.fresh + 1 + 1)) * efac R ph EType.H (σ' (g.fresh + 1 + 1)) (σ' v5) * (if σ' (g.fresh + 1 + 1) then ph (0 : ℚ) else 1)) * ((if σ' v3 then ph (mkRat (-1) 4) else 1) * efac R ph EType.H (σ' v3) (σ' (g.fresh + 1 + 1 + 1)) * efac R ph EType.H (σ' (g.fresh + 1 + 1 + 1)) (σ' v5) * (if σ' (g.fresh + 1 + 1 + 1) then ph (0 : ℚ) else 1)) * ((if σ' v4 then ph (mkRat (-1) 4) else 1) * efac R ph EType.H (σ' v4) (σ' (g.fresh + 1 + 1 + 1 + 1)) * efac R ph EType.H (σ' (g.fresh + 1 + 1 + 1 + 1)) (σ' v5) * (if σ' (g.fresh + 1 + 1 + 1 + 1) then ph (0 : ℚ) else 1)) * wt R ph g β σ' := by
    intro σ'
    unfold Decomposer.replace_phi1 Graph.add_vertex
    simp only [List.getD_cons_zero, List.getD_cons_succ]
    rw [wt_add_edge, wt_add_edge, wt_add_edge, wt_add_edge, wt_add_edge]
    rw [wt_add_to_phase hadd _ _ _ _ _
      (by simp only [vertexIds_add_to_phase, vertexIds_add_edge, vertexIds_add_vertex]; exact hap5)
      (selZ_add_to_phase _ _ _ _ (selZ_add_edge _ _ _ _ _ (selZ_add_edge _ _ _ _ _ (selZ_add_vertex _ VType.Z 0 _ (selZ_add_to_phase _ _ _ _ (selZ_add_edge _ _ _ _ _ (selZ_add_edge _ _ _ _ _ (selZ_add_vertex _ VType.Z 0 _ (selZ_add_to_phase _ _ _ _ (selZ_add_edge _ _ _ _ _ (selZ_add_edge _ _ _ _ _ (selZ_add_vertex _ VType.Z 0 _ (selZ_add_to_phase _ _ _ _ (selZ_add_edge _ _ _ _ _ (selZ_add_edge _ _ _ _ _ (selZ_add_vertex _ VType.Z 0 _ (selZ_add_to_phase _ _ _ _ (selZ_add_edge _ _ _ _ _ (selZ_add_edge _ _ _ _ _ (selZ_add_vertex _ VType.Z 0 _ (selZ_mul_scalar _ _ _ (hv v5 (by simp)))))))))))))))))))))))]
    rw [wt_add_to_phase hadd _ _ _ _ _
      (by simp only [vertexIds_add_to_phase, vertexIds_add_edge, vertexIds_add_vertex]; exact hap5)
      (selZ_add_edge _ _ _ _ _ (selZ_add_edge _ _ _ _ _ (selZ_add_vertex _ VType.Z 0 _ (selZ_add_to_phase _ _ _ _ (selZ_add_edge _ _ _ _ _ (selZ_add_edge _ _ _ _ _ (selZ_add_vertex _ VType.Z 0 _ (selZ_add_to_phase _ _ _ _ (selZ_add_edge _ _ _ _ _ (selZ_add_edge _ _ _ _ _ (selZ_add_vertex _ VType.Z 0 _ (selZ_add_to_phase _ _ _ _ (selZ_add_edge _ _ _ _ _ (selZ_add_edge _ _ _ _ _ (selZ_add_vertex _ VType.Z 0 _ (selZ_add_to_phase _ _ _ _ (selZ_add_edge _ _ _ _ _ (selZ_add_edge _ _ _ _ _ (selZ_add_vertex _ VType.Z 0 _ (selZ_mul_scalar _ _ _ (hv v4 (by simp))))))))))))))))))))))]
    rw [wt_add_edge, wt_add_edge, wt_add_vertex]
    rw [wt_add_to_phase hadd _ _ _ _ _
      (by simp only [vertexIds_add_to_phase, vertexIds_add_edge, vertexIds_add_vertex]; exact hap4)
      (selZ_add_edge _ _ _ _ _ (selZ_add_edge _ _ _ _ _ (selZ_add_vertex _ VType.Z 0 _ (selZ_add_to_phase _ _ _ _ (selZ_add_edge _ _ _ _ _ (selZ_add_edge _ _ _ _ _ (selZ_add_vertex _ VType.Z 0 _ (selZ_add_to_phase _ _ _ _ (selZ_add_edge _ _ _ _ _ (selZ_add_edge _ _ _ _ _ (selZ_add_vertex _ VType.Z 0 _ (selZ_add_to_phase _ _ _ _ (selZ_add_edge _ _ _ _ _ (selZ_add_edge _ _ _ _ _ (selZ_add_vertex _ VType.Z 0 _ (selZ_mul_scalar _ _ _ (hv v3 (by simp))))))))))))))))))]
    rw [wt_add_edge, wt_add_edge, wt_add_vertex]
    rw [wt_add_to_phase hadd _ _ _ _ _
      (by simp only [vertexIds_add_to_phase, vertexIds_add_edge, vertexIds_add_vertex]; exact hap3)
      (selZ_add_edge _ _ _ _ _ (selZ_add_edge _ _ _ _ _ (selZ_add_vertex _ VType.Z 0 _ (selZ_add_to_phase _ _ _ _ (selZ_add_edge _ _ _ _ _ (selZ_add_edge _ _ _ _ _ (selZ_add_vertex _ VType.Z 0 _ (selZ_add_to_phase _ _ _ _ (selZ_add_edge _ _ _ _ _ (selZ_add_edge _ _ _ _ _ (selZ_add_vertex _ VType.Z 0 _ (selZ_mul_scalar _ _ _ (hv v2 (by simp))))))))))))))]
    rw [wt_add_edge, wt_add_edge, wt_add_vertex]
    rw [wt_add_to_phase hadd _ _ _ _ _
      (by simp only [vertexIds_add_to_phase, vertexIds_add_edge, vertexIds_add_vertex]; exact hap2)
      (selZ_add_edge _ _ _ _ _ (selZ_add_edge _ _ _ _ _ (selZ_add_vertex _ VType.Z 0 _ (selZ_add_to_phase _ _ _ _ (selZ_add_edge _ _ _ _ _ (selZ_add_edge _ _ _ _ _ (selZ_add_vertex _ VType.Z 0 _ (selZ_mul_scalar _ _ _ (hv v1 (by simp))))))))))]
    rw [wt_add_edge, wt_add_edge, wt_add_vertex]
    rw [wt_add_to_phase hadd _ _ _ _ _
      (by simp only [vertexIds_add_to_phase, vertexIds_add_edge, vertexIds_add_vertex]; exact hap1)
      (selZ_add_edge _ _ _ _ _ (selZ_add_edge _ _ _ _ _ (selZ_add_vertex _ VType.Z 0 _ (selZ_mul_scalar _ _ _ (hv v0 (by simp))))))]
    rw [wt_add_edge, wt_add_edge, wt_add_vertex]
    rw [wt_mul_scalar]
    simp only [vfac_Z, fresh_mul_scalar, fresh_add_edge, fresh_add_to_phase, fresh_add_vertex, snd_add_vertex]
    ring
  have hmem0 : (g.fresh : V) ∉ g.vertexIds := fun h => lt_irrefl _ (hfr _ h)
  have hmem1 : (g.fresh + 1 : V) ∉ (g.vertexIds ++ [g.fresh]) := fun h => lt_irrefl _ (hbnd1 _ h)
  have hmem2 : (g.fresh + 1 + 1 : V) ∉ ((g.vertexIds ++ [g.fresh]) ++ [g.fresh + 1]) := fun h => lt_irrefl _ (hbnd2 _ h)
  have hmem3 : (g.fresh + 1 + 1 + 1 : V) ∉ (((g.vertexIds ++ [g.fresh]) ++ [g.fresh + 1]) ++ [g.fresh + 1 + 1]) := fun h => lt_irrefl _ (hbnd3 _ h)
  have hmem4 : (g.fresh + 1 + 1 + 1 + 1 : V) ∉ ((((g.vertexIds ++ [g.fresh]) ++ [g.fresh + 1]) ++ [g.fresh + 1 + 1]) ++ [g.fresh + 1 + 1 + 1]) := fun h => lt_irrefl _ (hbnd4 _ h)
  unfold sem
  rw [hsc, hids, interpS_mul hw4]
  rw [asgns_append_sum ((((g.vertexIds ++ [g.fresh]) ++ [g.fresh + 1]) ++ [g.fresh + 1 + 1]) ++ [g.fresh + 1 + 1 + 1]) (g.fresh + 1 + 1 + 1 + 1) hmem4 _]
  rw [asgns_append_sum (((g.vertexIds ++ [g.fresh]) ++ [g.fresh + 1]) ++ [g.fresh + 1 + 1]) (g.fresh + 1 + 1 + 1) hmem3 _]
  rw [asgns_append_sum ((g.vertexIds ++ [g.fresh]) ++ [g.fresh + 1]) (g.fresh + 1 + 1) hmem2 _]
  rw [asgns_append_sum (g.vertexIds ++ [g.fresh]) (g.fresh + 1) hmem1 _]
  rw [asgns_append_sum g.vertexIds g.fresh hmem0 _]
  have hpt : ∀ σ ∈ asgns g.vertexIds,
      (((((wt R ph (Decomposer.replace_phi1 g [v0, v1, v2, v3, v4, v5]) β (σ) + wt R ph (Decomposer.replace_phi1 g [v0, v1, v2, v3, v4, v5]) β (upd (σ) (g.fresh + 1 + 1 + 1 + 1) true)) + (wt R ph (Decomposer.replace_phi1 g [v0, v1, v2, v3, v4, v5]) β (upd (σ) (g.fresh + 1 + 1 + 1) true) + wt R ph (Decomposer.replace_phi1 g [v0, v1, v2, v3, v4, v5]) β (upd (upd (σ) (g.fresh + 1 + 1 + 1) true) (g.fresh + 1 + 1 + 1 + 1) true))) + ((wt R ph (Decomposer.replace_phi1 g [v0, v1, v2, v3, v4, v5]) β (upd (σ) (g.fresh + 1 + 1) true) + wt R ph (Decomposer.replace_phi1 g [v0, v1, v2, v3, v4, v5]) β (upd (upd (σ) (g.fresh + 1 + 1) true) (g.fresh + 1 + 1 + 1 + 1) true)) + (wt R ph (Decomposer.replace_phi1 g [v0, v1, v2, v3, v4, v5]) β (upd (upd (σ) (g.fresh + 1 + 1) true) (g.fresh + 1 + 1 + 1) true) + wt R ph (Decomposer.replace_phi1 g [v0, v1, v2, v3, v4, v5]) β (upd (upd (upd (σ) (g.fresh + 1 + 1) true) (g.fresh + 1 + 1 + 1) true) (g.fresh + 1 + 1 + 1 + 1) true)))) + (((wt R ph (Decomposer.replace_phi1 g [v0, v1, v2, v3, v4, v5]) β (upd (σ) (g.fresh + 1) true) + wt R ph (Decomposer.replace_phi1 g [v0, v1, v2, v3, v4, v5]) β (upd (upd (σ) (g.fresh + 1) true) (g.fresh + 1 + 1 + 1 + 1) true)) + (wt R ph (Decomposer.replace_phi1 g [v0, v1, v2, v3, v4, v5]) β (upd (upd (σ) (g.fresh + 1) true) (g.fresh + 1 + 1 + 1) true) + wt R ph (Decomposer.replace_phi1 g [v0, v1, v2, v3, v4, v5]) β (upd (upd (upd (σ) (g.fresh + 1) true) (g.fresh + 1 + 1 + 1) true) (g.fresh + 1 + 1 + 1 + 1) true))) + ((wt R ph (Decomposer.replace_phi1 g [v0, v1, v2, v3, v4, v5]) β (upd (upd (σ) (g.fresh + 1) true) (g.fresh + 1 + 1) true) + wt R ph (Decomposer.replace_phi1 g [v0, v1, v2, v3, v4, v5]) β (upd (upd (upd (σ) (g.fresh + 1) true) (g.fresh + 1 + 1) true) (g.fresh + 1 + 1 + 1 + 1) true)) + (wt R ph (Decomposer.replace_phi1 g [v0, v1, v2, v3, v4, v5]) β (upd (upd (upd (σ) (g.fresh + 1) true) (g.fresh + 1 + 1) true) (g.fresh + 1 + 1 + 1) true) + wt R ph (Decomposer.replace_phi1 g [v0, v1, v2, v3, v4, v5]) β (upd (upd (upd (upd (σ) (g.fresh + 1) true) (g.fresh + 1 + 1) true) (g.fresh + 1 + 1 + 1) true) (g.fresh + 1 + 1 + 1 + 1) true))))) + ((((wt R ph (Decomposer.replace_phi1 g [v0, v1, v2, v3, v4, v5]) β (upd (σ) (g.fresh) true) + wt R ph (Decomposer.replace_phi1 g [v0, v1, v2, v3, v4, v5]) β (upd (upd (σ) (g.fresh) true) (g.fresh + 1 + 1 + 1 + 1) true)) + (wt R ph (Decomposer.replace_phi1 g [v0, v1, v2, v3, v4, v5]) β (upd (upd (σ) (g.fresh) true) (g.fresh + 1 + 1 + 1) true) + wt R ph (Decomposer.replace_phi1 g [v0, v1, v2, v3, v4, v5]) β (upd (upd (upd (σ) (g.fresh) true) (g.fresh + 1 + 1 + 1) true) (g.fresh + 1 + 1 + 1 + 1) true))) + ((wt R ph (Decomposer.replace_phi1 g [v0, v1, v2, v3, v4, v5]) β (upd (upd (σ) (g.fresh) true) (g.fresh + 1 + 1) true) + wt R ph (Decomposer.replace_phi1 g [v0, v1, v2, v3, v4, v5]) β (upd (upd (upd (σ) (g.fresh) true) (g.fresh + 1 + 1) true) (g.fresh + 1 + 1 + 1 + 1) true)) + (wt R ph (Decomposer.replace_phi1 g [v0, v1, v2, v3, v4, v5]) β (upd (upd (upd (σ) (g.fresh) true) (g.fresh + 1 + 1) true) (g.fresh + 1 + 1 + 1) true) + wt R ph (Decomposer.replace_phi1 g [v0, v1, v2, v3, v4, v5]) β (upd (upd (upd (upd (σ) (g.fresh) true) (g.fresh + 1 + 1) true) (g.fresh + 1 + 1 + 1) true) (g.fresh + 1 + 1 + 1 + 1) true)))) + (((wt R ph (Decomposer.replace_phi1 g [v0, v1, v2, v3, v4, v5]) β (upd (upd (σ) (g.fresh) true) (g.fresh + 1) true) + wt R ph (Decomposer.replace_phi1 g [v0, v1, v2, v3, v4, v5]) β (upd (upd (upd (σ) (g.fresh) true) (g.fresh + 1) true) (g.fresh + 1 + 1 + 1 + 1) true)) + (wt R ph (Decomposer.replace_phi1 g [v0, v1, v2, v3, v4, v5]) β (upd (upd (upd (σ) (g.fresh) true) (g.fresh + 1) true) (g.fresh + 1 + 1 + 1) true) + wt R ph (Decomposer.replace_phi1 g [v0, v1, v2, v3, v4, v5]) β (upd (upd (upd (upd (σ) (g.fresh) true) (g.fresh + 1) true) (g.fresh + 1 + 1 + 1) true) (g.fresh + 1 + 1 + 1 + 1) true))) + ((wt R ph (Decomposer.replace_phi1 g [v0, v1, v2, v3, v4, v5]) β (upd (upd (upd (σ) (g.fresh) true) (g.fresh + 1) true) (g.fresh + 1 + 1) true) + wt R ph (Decomposer.replace_phi1 g [v0, v1, v2, v3, v4, v5]) β (upd (upd (upd (upd (σ) (g.fresh) true) (g.fresh + 1) true) (g.fresh + 1 + 1) true) (g.fresh + 1 + 1 + 1 + 1) true)) + (wt R ph (Decomposer.replace_phi1 g [v0, v1, v2, v3, v4, v5]) β (upd (upd (upd (upd (σ) (g.fresh) true) (g.fresh + 1) true) (g.fresh + 1 + 1) true) (g.fresh + 1 + 1 + 1) true) + wt R ph (Decomposer.replace_phi1 g [v0, v1, v2, v3, v4, v5]) β (upd (upd (upd (upd (upd (σ) (g.fresh) true) (g.fresh + 1) true) (g.fresh + 1 + 1) true) (g.fresh + 1 + 1 + 1) true) (g.fresh + 1 + 1 + 1 + 1) true))))))
      = twoPow R (-15) *
          (wt R ph g β σ * interpC R ph
            (Kphi1 (σ v0) (σ v1) (σ v2) (σ v3) (σ v4) (σ v5))) := by
    intro σ hσ
    simp only [hwt]
    simp only [bridge_ph0 hadd h1, bridge_b hadd h1, bridge_h hadd h1]
    have hb0 : σ (g.fresh) = false :=
      asgns_false g.vertexIds σ hσ (g.fresh)
        (fun h => absurd (hfr _ h) (Nat.not_lt.mpr hle0))
    have hb1 : σ (g.fresh + 1) = false :=
      asgns_false g.vertexIds σ hσ (g.fresh + 1)
        (fun h => absurd (hfr _ h) (Nat.not_lt.mpr hle1))
    have hb2 : σ (g.fresh + 1 + 1) = false :=
      asgns_false g.vertexIds σ hσ (g.fresh + 1 + 1)
        (fun h => absurd (hfr _ h) (Nat.not_lt.mpr hle2))
    have hb3 : σ (g.fresh + 1 + 1 + 1) = false :=
      asgns_false g.vertexIds σ hσ (g.fresh + 1 + 1 + 1)
        (fun h => absurd (hfr _ h) (Nat.not_lt.mpr hle3))
    have hb4 : σ (g.fresh + 1 + 1 + 1 + 1) = false :=
      asgns_false g.vertexIds σ hσ (g.fresh + 1 + 1 + 1 + 1)
        (fun h => absurd (hfr _ h) (Nat.not_lt.mpr hle4))
    have hu00 : ∀ τ : V → Bool, upd τ (g.fresh) true v0 = τ v0 :=
      fun τ => upd_other τ _ true v0
        (Nat.ne_of_lt (Nat.lt_of_lt_of_le (hfr v0 (hvm v0 (by simp))) hle0))
    have hu01 : ∀ τ : V → Bool, upd τ (g.fresh) true v1 = τ v1 :=
      fun τ => upd_other τ _ true v1
        (Nat.ne_of_lt (Nat.lt_of_lt_of_le (hfr v1 (hvm v1 (by simp))) hle0))
    have hu02 : ∀ τ : V → Bool, upd τ (g.fresh) true v2 = τ v2 :=
      fun τ => upd_other τ _ true v2
        (Nat.ne_of_lt (Nat.lt_of_lt_of_le (hfr v2 (hvm v2 (by simp))) hle0))
    have hu03 : ∀ τ : V → Bool, upd τ (g.fresh) true v3 = τ v3 :=
      fun τ => upd_other τ _ true v3
        (Nat.ne_of_lt (Nat.lt_of_lt_of_le (hfr v3 (hvm v3 (by simp))) hle0))
    have hu04 : ∀ τ : V → Bool, upd τ (g.fresh) true v4 = τ v4 :=
      fun τ => upd_other τ _ true v4
        (Nat.ne_of_lt (Nat.lt_of_lt_of_le (hfr v4 (hvm v4 (by simp))) hle0))
    have hu05 : ∀ τ : V → Bool, upd τ (g.fresh) true v5 = τ v5 :=
      fun τ => upd_other τ _ true v5
        (Nat.ne_of_lt (Nat.lt_of_lt_of_le (hfr v5 (hvm v5 (by simp))) hle0))
    have hu10 : ∀ τ : V → Bool, upd τ (g.fresh + 1) true v0 = τ v0 :=
      fun τ => upd_other τ _ true v0
        (Nat.ne_of_lt (Nat.lt_of_lt_of_le (hfr v0 (hvm v0 (by simp))) hle1))
    have hu11 : ∀ τ : V → Bool, upd τ (g.fresh + 1) true v1 = τ v1 :=
      fun τ => upd_other τ _ true v1
        (Nat.ne_of_lt (Nat.lt_of_lt_of_le (hfr v1 (hvm v1 (by simp))) hle1))
    have hu12 : ∀ τ : V → Bool, upd τ (g.fresh + 1) true v2 = τ v2 :=
      fun τ => upd_other τ _ true v2
        (Nat.ne_of_lt (Nat.lt_of_lt_of_le (hfr v2 (hvm v2 (by simp))) hle1))
    have hu13 : ∀ τ : V → Bool, upd τ (g.fresh + 1) true v3 = τ v3 :=
      fun τ => upd_other τ _ true v3
        (Nat.ne_of_lt (Nat.lt_of_lt_of_le (hfr v3 (hvm v3 (by simp))) hle1))
    have hu14 : ∀ τ : V → Bool, upd τ (g.fresh + 1) true v4 = τ v4 :=
      fun τ => upd_other τ _ true v4
        (Nat.ne_of_lt (Nat.lt_of_lt_of_le (hfr v4 (hvm v4 (by simp))) hle1))
    have hu15 : ∀ τ : V → Bool, upd τ (g.fresh + 1) true v5 = τ v5 :=
      fun τ => upd_other τ _ true v5
        (Nat.ne_of_lt (Nat.lt_of_lt_of_le (hfr v5 (hvm v5 (by simp))) hle1))
    have hu20 : ∀ τ : V → Bool, upd τ (g.fresh + 1 + 1) true v0 = τ v0 :=
      fun τ => upd_other τ _ true v0
        (Nat.ne_of_lt (Nat.lt_of_lt_of_le (hfr v0 (hvm v0 (by simp))) hle2))
    have hu21 : ∀ τ : V → Bool, upd τ (g.fresh + 1 + 1) true v1 = τ v1 :=
      fun τ => upd_other τ _ true v1
        (Nat.ne_of_lt (Nat.lt_of_lt_of_le (hfr v1 (hvm v1 (by simp))) hle2))
    have hu22 : ∀ τ : V → Bool, upd τ (g.fresh + 1 + 1) true v2 = τ v2 :=
      fun τ => upd_other τ _ true v2
        (Nat.ne_of_lt (Nat.lt_of_lt_of_le (hfr v2 (hvm v2 (by simp))) hle2))
    have hu23 : ∀ τ : V → Bool, upd τ (g.fresh + 1 + 1) true v3 = τ v3 :=
      fun τ => upd_other τ _ true v3
        (Nat.ne_of_lt (Nat.lt_of_lt_of_le (hfr v3 (hvm v3 (by simp))) hle2))
    have hu24 : ∀ τ : V → Bool, upd τ (g.fresh + 1 + 1) true v4 = τ v4 :=
      fun τ => upd_other τ _ true v4
        (Nat.ne_of_lt (Nat.lt_of_lt_of_le (hfr v4 (hvm v4 (by simp))) hle2))
    have hu25 : ∀ τ : V → Bool, upd τ (g.fresh + 1 + 1) true v5 = τ v5 :=
      fun τ => upd_other τ _ true v5
        (Nat.ne_of_lt (Nat.lt_of_lt_of_le (hfr v5 (hvm v5 (by simp))) hle2))
    have hu30 : ∀ τ : V → Bool, upd τ (g.fresh + 1 + 1 + 1) true v0 = τ v0 :=
      fun τ => upd_other τ _ true v0
        (Nat.ne_of_lt (Nat.lt_of_lt_of_le (hfr v0 (hvm v0 (by simp))) hle3))
    have hu31 : ∀ τ : V → Bool, upd τ (g.fresh + 1 + 1 + 1) true v1 = τ v1 :=
      fun τ => upd_other τ _ true v1
        (Nat.ne_of_lt (Nat.lt_of_lt_of_le (hfr v1 (hvm v1 (by simp))) hle3))
    have hu32 : ∀ τ : V → Bool, upd τ (g.fresh + 1 + 1 + 1) true v2 = τ v2 :=
      fun τ => upd_other τ _ true v2
        (Nat.ne_of_lt (Nat.lt_of_lt_of_le (hfr v2 (hvm v2 (by simp))) hle3))
    have hu33 : ∀ τ : V → Bool, upd τ (g.fresh + 1 + 1 + 1) true v3 = τ v3 :=
      fun τ => upd_other τ _ true v3
        (Nat.ne_of_lt (Nat.lt_of_lt_of_le (hfr v3 (hvm v3 (by simp))) hle3))
    have hu34 : ∀ τ : V → Bool, upd τ (g.fresh + 1 + 1 + 1) true v4 = τ v4 :=
      fun τ => upd_other τ _ true v4
        (Nat.ne_of_lt (Nat.lt_of_lt_of_le (hfr v4 (hvm v4 (by simp))) hle3))
    have hu35 : ∀ τ : V → Bool, upd τ (g.fresh + 1 + 1 + 1) true v5 = τ v5 :=
      fun τ => upd_other τ _ true v5
        (Nat.ne_of_lt (Nat.lt_of_lt_of_le (hfr v5 (hvm v5 (by simp))) hle3))
    have hu40 : ∀ τ : V → Bool, upd τ (g.fresh + 1 + 1 + 1 + 1) true v0 = τ v0 :=
      fun τ => upd_other τ _ true v0
        (Nat.ne_of_lt (Nat.lt_of_lt_of_le (hfr v0 (hvm v0 (by simp))) hle4))
    have hu41 : ∀ τ : V → Bool, upd τ (g.fresh + 1 + 1 + 1 + 1) true v1 = τ v1 :=
      fun τ => upd_other τ _ true v1
        (Nat.ne_of_lt (Nat.lt_of_lt_of_le (hfr v1 (hvm v1 (by simp))) hle4))
    have hu42 : ∀ τ : V → Bool, upd τ (g.fresh + 1 + 1 + 1 + 1) true v2 = τ v2 :=
      fun τ => upd_other τ _ true v2
        (Nat.ne_of_lt (Nat.lt_of_lt_of_le (hfr v2 (hvm v2 (by simp))) hle4))
    have hu43 : ∀ τ : V → Bool, upd τ (g.fresh + 1 + 1 + 1 + 1) true v3 = τ v3 :=
      fun τ => upd_other τ _ true v3
        (Nat.ne_of_lt (Nat.lt_of_lt_of_le (hfr v3 (hvm v3 (by simp))) hle4))
    have hu44 : ∀ τ : V → Bool, upd τ (g.fresh + 1 + 1 + 1 + 1) true v4 = τ v4 :=
      fun τ => upd_other τ _ true v4
        (Nat.ne_of_lt (Nat.lt_of_lt_of_le (hfr v4 (hvm v4 (by simp))) hle4))
    have hu45 : ∀ τ : V → Bool, upd τ (g.fresh + 1 + 1 + 1 + 1) true v5 = τ v5 :=
      fun τ => upd_other τ _ true v5
        (Nat.ne_of_lt (Nat.lt_of_lt_of_le (hfr v5 (hvm v5 (by simp))) hle4))
    have hw01 : ∀ τ : V → Bool, upd τ (g.fresh) true (g.fresh + 1) = τ (g.fresh + 1) :=
      fun τ => upd_other τ _ true _ (Nat.ne_of_gt hlt01)
    have hw02 : ∀ τ : V → Bool, upd τ (g.fresh) true (g.fresh + 1 + 1) = τ (g.fresh + 1 + 1) :=
      fun τ => upd_other τ _ true _ (Nat.ne_of_gt hlt02)
    have hw03 : ∀ τ : V → Bool, upd τ (g.fresh) true (g.fresh + 1 + 1 + 1) = τ (g.fresh + 1 + 1 + 1) :=
      fun τ => upd_other τ _ true _ (Nat.ne_of_gt hlt03)
    have hw04 : ∀ τ : V → Bool, upd τ (g.fresh) true (g.fresh + 1 + 1 + 1 + 1) = τ (g.fresh + 1 + 1 + 1 + 1) :=
      fun τ => upd_other τ _ true _ (Nat.ne_of_gt hlt04)
    have hw10 : ∀ τ : V → Bool, upd τ (g.fresh + 1) true (g.fresh) = τ (g.fresh) :=
      fun τ => upd_other τ _ true _ (Nat.ne_of_lt hlt01)
    have hw12 : ∀ τ : V → Bool, upd τ (g.fresh + 1) true (g.fresh + 1 + 1) = τ (g.fresh + 1 + 1) :=
      fun τ => upd_other τ _ true _ (Nat.ne_of_gt hlt12)
    have hw13 : ∀ τ : V → Bool, upd τ (g.fresh + 1) true (g.fresh + 1 + 1 + 1) = τ (g.fresh + 1 + 1 + 1) :=
      fun τ => upd_other τ _ true _ (Nat.ne_of_gt hlt13)
    have hw14 : ∀ τ : V → Bool, upd τ (g.fresh + 1) true (g.fresh + 1 + 1 + 1 + 1) = τ (g.fresh + 1 + 1 + 1 + 1) :=
      fun τ => upd_other τ _ true _ (Nat.ne_of_gt hlt14)
    have hw20 : ∀ τ : V → Bool, upd τ (g.fresh + 1 + 1) true (g.fresh) = τ (g.fresh) :=
      fun τ => upd_other τ _ true _ (Nat.ne_of_lt hlt02)
    have hw21 : ∀ τ : V → Bool, upd τ (g.fresh + 1 + 1) true (g.fresh + 1) = τ (g.fresh + 1) :=
      fun τ => upd_other τ _ true _ (Nat.ne_of_lt hlt12)
    have hw23 : ∀ τ : V → Bool, upd τ (g.fresh + 1 + 1) true (g.fresh + 1 + 1 + 1) = τ (g.fresh + 1 + 1 + 1) :=
      fun τ => upd_other τ _ true _ (Nat.ne_of_gt hlt23)
    have hw24 : ∀ τ : V → Bool, upd τ (g.fresh + 1 + 1) true (g.fresh + 1 + 1 + 1 + 1) = τ (g.fresh + 1 + 1 + 1 + 1) :=
      fun τ => upd_other τ _ true _ (Nat.ne_of_gt hlt24)
    have hw30 : ∀ τ : V → Bool, upd τ (g.fresh + 1 + 1 + 1) true (g.fresh) = τ (g.fresh) :=
      fun τ => upd_other τ _ true _ (Nat.ne_of_lt hlt03)
    have hw31 : ∀ τ : V → Bool, upd τ (g.fresh + 1 + 1 + 1) true (g.fresh + 1) = τ (g.fresh + 1) :=
      fun τ => upd_other τ _ true _ (Nat.ne_of_lt hlt13)
    have hw32 : ∀ τ : V → Bool, upd τ (g.fresh + 1 + 1 + 1) true (g.fresh + 1 + 1) = τ (g.fresh + 1 + 1) :=
      fun τ => upd_other τ _ true _ (Nat.ne_of_lt hlt23)
    have hw34 : ∀ τ : V → Bool, upd τ (g.fresh + 1 + 1 + 1) true (g.fresh + 1 + 1 + 1 + 1) = τ (g.fresh + 1 + 1 + 1 + 1) :=
      fun τ => upd_other τ _ true _ (Nat.ne_of_gt hlt34)
    have hw40 : ∀ τ : V → Bool, upd τ (g.fresh + 1 + 1 + 1 + 1) true (g.fresh) = τ (g.fresh) :=
      fun τ => upd_other τ _ true _ (Nat.ne_of_lt hlt04)
    have hw41 : ∀ τ : V → Bool, upd τ (g.fresh + 1 + 1 + 1 + 1) true (g.fresh + 1) = τ (g.fresh + 1) :=
      fun τ => upd_other τ _ true _ (Nat.ne_of_lt hlt14)
    have hw42 : ∀ τ : V → Bool, upd τ (g.fresh + 1 + 1 + 1 + 1) true (g.fresh + 1 + 1) = τ (g.fresh + 1 + 1) :=
      fun τ => upd_other τ _ true _ (Nat.ne_of_lt hlt24)
    have hw43 : ∀ τ : V → Bool, upd τ (g.fresh + 1 + 1 + 1 + 1) true (g.fresh + 1 + 1 + 1) = τ (g.fresh + 1 + 1 + 1) :=
      fun τ => upd_other τ _ true _ (Nat.ne_of_lt hlt34)
    have hui0 : ∀ (τ : V → Bool) (v : V), v ∈ g.vertexIds → upd τ (g.fresh) true v = τ v :=
      fun τ v hvv => upd_other τ _ true v
        (Nat.ne_of_lt (Nat.lt_of_lt_of_le (hfr v hvv) hle0))
    have hui1 : ∀ (τ : V → Bool) (v : V), v ∈ g.vertexIds → upd τ (g.fresh + 1) true v = τ v :=
      fun τ v hvv => upd_other τ _ true v
        (Nat.ne_of_lt (Nat.lt_of_lt_of_le (hfr v hvv) hle1))
    have hui2 : ∀ (τ : V → Bool) (v : V), v ∈ g.vertexIds → upd τ (g.fresh + 1 + 1) true v = τ v :=
      fun τ v hvv => upd_other τ _ true v
        (Nat.ne_of_lt (Nat.lt_of_lt_of_le (hfr v hvv) hle2))
    have hui3 : ∀ (τ : V → Bool) (v : V), v ∈ g.vertexIds → upd τ (g.fresh + 1 + 1 + 1) true v = τ v :=
      fun τ v hvv => upd_other τ _ true v
        (Nat.ne_of_lt (Nat.lt_of_lt_of_le (hfr v hvv) hle3))
    have hui4 : ∀ (τ : V → Bool) (v : V), v ∈ g.vertexIds → upd τ (g.fresh + 1 + 1 + 1 + 1) true v = τ v :=
      fun τ v hvv => upd_other τ _ true v
        (Nat.ne_of_lt (Nat.lt_of_lt_of_le (hfr v hvv) hle4))
    have hwg0 : wt R ph g β (upd (σ) (g.fresh) true) = wt R ph g β σ :=
      wt_congr g β _ σ hE (fun v hvv => by rw [hui0 _ v hvv])
    have hwg1 : wt R ph g β (upd (σ) (g.fresh + 1) true) = wt R ph g β σ :=
      wt_congr g β _ σ hE (fun v hvv => by rw [hui1 _ v hvv])
    have hwg01 : wt R ph g β (upd (upd (σ) (g.fresh) true) (g.fresh + 1) true) = wt R ph g β σ :=
      wt_congr g β _ σ hE (fun v hvv => by rw [hui1 _ v hvv, hui0 _ v hvv])
    have hwg2 : wt R ph g β (upd (σ) (g.fresh + 1 + 1) true) = wt R ph g β σ :=
      wt_congr g β _ σ hE (fun v hvv => by rw [hui2 _ v hvv])
    have hwg02 : wt R ph g β (upd (upd (σ) (g.fresh) true) (g.fresh + 1 + 1) true) = wt R ph g β σ :=
      wt_congr g β _ σ hE (fun v hvv => by rw [hui2 _ v hvv, hui0 _ v hvv])
    have hwg12 : wt R ph g β (upd (upd (σ) (g.fresh + 1) true) (g.fresh + 1 + 1) true) = wt R ph g β σ :=
      wt_congr g β _ σ hE (fun v hvv => by rw [hui2 _ v hvv, hui1 _ v hvv])
    have hwg012 : wt R ph g β (upd (upd (upd (σ) (g.fresh) true) (g.fresh + 1) true) (g.fresh + 1 + 1) true) = wt R ph g β σ :=
      wt_congr g β _ σ hE (fun v hvv => by rw [hui2 _ v hvv, hui1 _ v hvv, hui0 _ v hvv])
    have hwg3 : wt R ph g β (upd (σ) (g.fresh + 1 + 1 + 1) true) = wt R ph g β σ :=
      wt_congr g β _ σ hE (fun v hvv => by rw [hui3 _ v hvv])
    have hwg03 : wt R ph g β (upd (upd (σ) (g.fresh) true) (g.fresh + 1 + 1 + 1) true) = wt R ph g β σ :=
      wt_congr g β _ σ hE (fun v hvv => by rw [hui3 _ v hvv, hui0 _ v hvv])
    have hwg13 : wt R ph g β (upd (upd (σ) (g.fresh + 1) true) (g.fresh + 1 + 1 + 1) true) = wt R ph g β σ :=
      wt_congr g β _ σ hE (fun v hvv => by rw [hui3 _ v hvv, hui1 _ v hvv])
    have hwg013 : wt R ph g β (upd (upd (upd (σ) (g.fresh) true) (g.fresh + 1) true) (g.fresh + 1 + 1 + 1) true) = wt R ph g β σ :=
      wt_congr g β _ σ hE (fun v hvv => by rw [hui3 _ v hvv, hui1 _ v hvv, hui0 _ v hvv])
    have hwg23 : wt R ph g β (upd (upd (σ) (g.fresh + 1 + 1) true) (g.fresh + 1 + 1 + 1) true) = wt R ph g β σ :=
      wt_congr g β _ σ hE (fun v hvv => by rw [hui3 _ v hvv, hui2 _ v hvv])
    have hwg023 : wt R ph g β (upd (upd (upd (σ) (g.fresh) true) (g.fresh + 1 + 1) true) (g.fresh + 1 + 1 + 1) true) = wt R ph g β σ :=
      wt_congr g β _ σ hE (fun v hvv => by rw [hui3 _ v hvv, hui2 _ v hvv, hui0 _ v hvv])
    have hwg123 : wt R ph g β (upd (upd (upd (σ) (g.fresh + 1) true) (g.fresh + 1 + 1) true) (g.fresh + 1 + 1 + 1) true) = wt R ph g β σ :=
      wt_congr g β _ σ hE (fun v hvv => by rw [hui3 _ v hvv, hui2 _ v hvv, hui1 _ v hvv])
    have hwg0123 : wt R ph g β (upd (upd (upd (upd (σ) (g.fresh) true) (g.fresh + 1) true) (g.fresh + 1 + 1) true) (g.fresh + 1 + 1 + 1) true) = wt R ph g β σ :=
      wt_congr g β _ σ hE (fun v hvv => by rw [hui3 _ v hvv, hui2 _ v hvv, hui1 _ v hvv, hui0 _ v hvv])
    have hwg4 : wt R ph g β (upd (σ) (g.fresh + 1 + 1 + 1 + 1) true) = wt R ph g β σ :=
      wt_congr g β _ σ hE (fun v hvv => by rw [hui4 _ v hvv])
    have hwg04 : wt R ph g β (upd (upd (σ) (g.fresh) true) (g.fresh + 1 + 1 + 1 + 1) true) = wt R ph g β σ :=
      wt_congr g β _ σ hE (fun v hvv => by rw [hui4 _ v hvv, hui0 _ v hvv])
    have hwg14 : wt R ph g β (upd (upd (σ) (g.fresh + 1) true) (g.fresh + 1 + 1 + 1 + 1) true) = wt R ph g β σ :=
      wt_congr g β _ σ hE (fun v hvv => by rw [hui4 _ v hvv, hui1 _ v hvv])
    have hwg014 : wt R ph g β (upd (upd (upd (σ) (g.fresh) true) (g.fresh + 1) true) (g.fresh + 1 + 1 + 1 + 1) true) = wt R ph g β σ :=
      wt_congr g β _ σ hE (fun v hvv => by rw [hui4 _ v hvv, hui1 _ v hvv, hui0 _ v hvv])
    have hwg24 : wt R ph g β (upd (upd (σ) (g.fresh + 1 + 1) true) (g.fresh + 1 + 1 + 1 + 1) true) = wt R ph g β σ :=
      wt_congr g β _ σ hE (fun v hvv => by rw [hui4 _ v hvv, hui2 _ v hvv])
    have hwg024 : wt R ph g β (upd (upd (upd (σ) (g.fresh) true) (g.fresh + 1 + 1) true) (g.fresh + 1 + 1 + 1 + 1) true) = wt R ph g β σ :=
      wt_congr g β _ σ hE (fun v hvv => by rw [hui4 _ v hvv, hui2 _ v hvv, hui0 _ v hvv])
    have hwg124 : wt R ph g β (upd (upd (upd (σ) (g.fresh + 1) true) (g.fresh + 1 + 1) true) (g.fresh + 1 + 1 + 1 + 1) true) = wt R ph g β σ :=
      wt_congr g β _ σ hE (fun v hvv => by rw [hui4 _ v hvv, hui2 _ v hvv, hui1 _ v hvv])
    have hwg0124 : wt R ph g β (upd (upd (upd (upd (σ) (g.fresh) true) (g.fresh + 1) true) (g.fresh + 1 + 1) true) (g.fresh + 1 + 1 + 1 + 1) true) = wt R ph g β σ :=
      wt_congr g β _ σ hE (fun v hvv => by rw [hui4 _ v hvv, hui2 _ v hvv, hui1 _ v hvv, hui0 _ v hvv])
    have hwg34 : wt R ph g β (upd (upd (σ) (g.fresh + 1 + 1 + 1) true) (g.fresh + 1 + 1 + 1 + 1) true) = wt R ph g β σ :=
      wt_congr g β _ σ hE (fun v hvv => by rw [hui4 _ v hvv, hui3 _ v hvv])
    have hwg034 : wt R ph g β (upd (upd (upd (σ) (g.fresh) true) (g.fresh + 1 + 1 + 1) true) (g.fresh + 1 + 1 + 1 + 1) true) = wt R ph g β σ :=
      wt_congr g β _ σ hE (fun v hvv => by rw [hui4 _ v hvv, hui3 _ v hvv, hui0 _ v hvv])
    have hwg134 : wt R ph g β (upd (upd (upd (σ) (g.fresh + 1) true) (g.fresh + 1 + 1 + 1) true) (g.fresh + 1 + 1 + 1 + 1) true) = wt R ph g β σ :=
      wt_congr g β _ σ hE (fun v hvv => by rw [hui4 _ v hvv, hui3 _ v hvv, hui1 _ v hvv])
    have hwg0134 : wt R ph g β (upd (upd (upd (upd (σ) (g.fresh) true) (g.fresh + 1) true) (g.fresh + 1 + 1 + 1) true) (g.fresh + 1 + 1 + 1 + 1) true) = wt R ph g β σ :=
      wt_congr g β _ σ hE (fun v hvv => by rw [hui4 _ v hvv, hui3 _ v hvv, hui1 _ v hvv, hui0 _ v hvv])
    have hwg234 : wt R ph g β (upd (upd (upd (σ) (g.fresh + 1 + 1) true) (g.fresh + 1 + 1 + 1) true) (g.fresh + 1 + 1 + 1 + 1) true) = wt R ph g β σ :=
      wt_congr g β _ σ hE (fun v hvv => by rw [hui4 _ v hvv, hui3 _ v hvv, hui2 _ v hvv])
    have hwg0234 : wt R ph g β (upd (upd (upd (upd (σ) (g.fresh) true) (g.fresh + 1 + 1) true) (g.fresh + 1 + 1 + 1) true) (g.fresh + 1 + 1 + 1 + 1) true) = wt R ph g β σ :=
      wt_congr g β _ σ hE (fun v hvv => by rw [hui4 _ v hvv, hui3 _ v hvv, hui2 _ v hvv, hui0 _ v hvv])
    have hwg1234 : wt R ph g β (upd (upd (upd (upd (σ) (g.fresh + 1) true) (g.fresh + 1 + 1) true) (g.fresh + 1 + 1 + 1) true) (g.fresh + 1 + 1 + 1 + 1) true) = wt R ph g β σ :=
      wt_congr g β _ σ hE (fun v hvv => by rw [hui4 _ v hvv, hui3 _ v hvv, hui2 _ v hvv, hui1 _ v hvv])
    have hwg01234 : wt R ph g β (upd (upd (upd (upd (upd (σ) (g.fresh) true) (g.fresh + 1) true) (g.fresh + 1 + 1) true) (g.fresh + 1 + 1 + 1) true) (g.fresh + 1 + 1 + 1 + 1) true) = wt R ph g β σ :=
      wt_congr g β _ σ hE (fun v hvv => by rw [hui4 _ v hvv, hui3 _ v hvv, hui2 _ v hvv, hui1 _ v hvv, hui0 _ v hvv])
    simp only [hu00, hu01, hu02, hu03, hu04, hu05, hu10, hu11, hu12, hu13, hu14, hu15, hu20, hu21, hu22, hu23, hu24, hu25, hu30, hu31, hu32, hu33, hu34, hu35, hu40, hu41, hu42, hu43, hu44, hu45,
      hw01, hw02, hw03, hw04, hw10, hw12, hw13, hw14, hw20, hw21, hw23, hw24, hw30, hw31, hw32, hw34, hw40, hw41, hw42, hw43,
      upd_same, hb0, hb1, hb2, hb3, hb4]
    simp only [hwg0, hwg1, hwg01, hwg2, hwg02, hwg12, hwg012, hwg3, hwg03, hwg13, hwg013, hwg23, hwg023, hwg123, hwg0123, hwg4, hwg04, hwg14, hwg014, hwg24, hwg024, hwg124, hwg0124, hwg34, hwg034, hwg134, hwg0134, hwg234, hwg0234, hwg1234, hwg01234]
    rw [show twoPow R (-15) = twoPow R (-1) ^ 15 from by
      have := twoPow_neg_nat (R := R) 15
      simpa using this]
    unfold Kphi1 sumBool phi1term
    simp only [interpC_add, interpC_mul hw4]
    ring
  rw [List.map_congr_left hpt]
  have hfac : ((asgns g.vertexIds).map (fun σ => twoPow R (-15) *
      (wt R ph g β σ * interpC R ph
        (Kphi1 (σ v0) (σ v1) (σ v2) (σ v3) (σ v4) (σ v5))))).sum
      = twoPow R (-15) * ((asgns g.vertexIds).map (fun σ =>
          wt R ph g β σ * interpC R ph
            (Kphi1 (σ v0) (σ v1) (σ v2) (σ v3) (σ v4) (σ v5)))).sum := by
    rw [← List.sum_map_mul_left]
  rw [hfac]
  have hsE : interpS R ph (ScalarN.Exact 3 ⟨1, 0, 1, 0⟩)
      = twoPow R 3 * interpC R ph ⟨1, 0, 1, 0⟩ := rfl
  rw [hsE]
  have ht2 : twoPow R 3 * twoPow R (-15) = twoPow R (-12) := by
    rw [← twoPow_add]
    norm_num
  rw [← ht2]
  ring

end SemPhi



section SemPhi2

variable {R : Type} [CommRing R] [Invertible (2 : R)] {ph : ℚ → R}

theorem sem_replace_phi2
    (hadd : ∀ a b : ℚ, ph (a + b) = ph a * ph b) (h1 : ph 1 = -1)
    (g : Graph) (v0 v1 v2 v3 v4 v5 : V) (β : V → Bool)
    (hinv : g.inv) (hv : ∀ v ∈ [v0, v1, v2, v3, v4, v5], selZ g v) :
    sem R ph (Decomposer.replace_phi2 g [v0, v1, v2, v3, v4, v5]) β
      = twoPow R (-12) * interpC R ph ⟨1, 0, 1, 0⟩ *
        (interpS R ph g.scalar *
          ((asgns g.vertexIds).map (fun σ =>
            wt R ph g β σ * interpC R ph
              (Kphi1 (σ v0) (σ v1) (σ v3) (σ v4) (σ v5) (σ v2)))).sum) := by
  have hre : Decomposer.replace_phi2 g [v0, v1, v2, v3, v4, v5]
      = Decomposer.replace_phi1 g [v0, v1, v3, v4, v5, v2] := rfl
  rw [hre]
  refine sem_replace_phi1 hadd h1 g v0 v1 v3 v4 v5 v2 β hinv ?_
  intro v hvv
  refine hv v ?_
  simp only [List.mem_cons, List.not_mem_nil, or_false] at hvv ⊢
  tauto

end SemPhi2



section FamilyAssembly

variable {R : Type} [CommRing R] [Invertible (2 : R)] {ph : ℚ → R}

theorem sum_map_addR {α : Type} (l : List α) (f g : α → R) :
    (l.map (fun x => f x + g x)).sum = (l.map f).sum + (l.map g).sum := by
  induction l with
  | nil => simp
  | cons a t ih =>
    simp only [List.map_cons, List.sum_cons, ih]
    ring

theorem interpC_two : interpC R ph (2 : Cyc ℤ) = 2 := by
  rw [show (2 : Cyc ℤ) = ((2 : ℤ) : Cyc ℤ) from by decide, interpC_intCast]
  norm_num

theorem interpC_four : interpC R ph (4 : Cyc ℤ) = 4 := by
  rw [show (4 : Cyc ℤ) = ((4 : ℤ) : Cyc ℤ) from by decide, interpC_intCast]
  norm_num

theorem twoPow_neg_cancel (n : ℕ) :
    twoPow R (-(n : ℤ)) * (2 : R) ^ n = 1 := by
  rw [← twoPow_natCast n, ← twoPow_add]
  simp [neg_add_cancel, twoPow_zero]

/-- The single-family child scales sum to one in the model. -/
theorem single_scalar_identity
    (hadd : ∀ a b : ℚ, ph (a + b) = ph a * ph b) (h1 : ph 1 = -1)
    (b0 : Bool) :
    twoPow R (-2) * interpC R ph ⟨0, 1, 0, -1⟩ * interpC R ph (Kt0 b0)
      + twoPow R (-2) * interpC R ph ⟨1, 0, 1, 0⟩ * interpC R ph (Kt1 b0)
      = 1 := by
  have hw4 := ph_w4 hadd h1
  have hkey := congrArg (interpC R ph) (single_kernel_identity b0)
  simp only [interpC_add, interpC_mul hw4, interpC_four] at hkey
  have hb2 : twoPow R (-2) * (4 : R) = 1 := by
    have h := twoPow_neg_cancel (R := R) 2
    norm_num at h
    exact h
  linear_combination twoPow R (-2) * hkey + hb2

/-- The symmetric-family child scales sum to one in the model. -/
theorem sym_scalar_identity
    (hadd : ∀ a b : ℚ, ph (a + b) = ph a * ph b) (h1 : ph 1 = -1)
    (b0 b1 : Bool) :
    interpC R ph (Kbell b0 b1)
      + twoPow R (-2) * interpC R ph (Cyc.ompow 1) * interpC R ph (Kepr b0 b1)
      = 1 := by
  have hw4 := ph_w4 hadd h1
  have hkey := congrArg (interpC R ph) (sym_kernel_identity b0 b1)
  simp only [interpC_add, interpC_mul hw4, interpC_four] at hkey
  have hb2 : twoPow R (-2) * (4 : R) = 1 := by
    have h := twoPow_neg_cancel (R := R) 2
    norm_num at h
    exact h
  linear_combination twoPow R (-2) * hkey
    - interpC R ph (Kbell b0 b1) * hb2 + hb2

/-- The BSS-family child scales sum to one in the model. -/
theorem bss_scalar_identity
    (hadd : ∀ a b : ℚ, ph (a + b) = ph a * ph b) (h1 : ph 1 = -1)
    (b0 b1 b2 b3 b4 b5 : Bool) :
    twoPow R (-2) * interpC R ph ⟨-1, 0, 1, 1⟩ * interpC R ph (Kb60 b0 b1 b2 b3 b4 b5)
      + twoPow R (-2) * interpC R ph ⟨-1, 0, 1, -1⟩ * interpC R ph (Kb66 b0 b1 b2 b3 b4 b5)
      + twoPow R (-5) * interpC R ph ⟨0, -1, 0, 0⟩ * interpC R ph (Ke6 b0 b1 b2 b3 b4 b5)
      + twoPow R (-5) * interpC R ph ⟨-1, 0, -1, 0⟩ * interpC R ph (Ko6 b0 b1 b2 b3 b4 b5)
      + twoPow R 1 * interpC R ph ⟨1, 0, 0, 0⟩ * interpC R ph (Kk6 b0 b1 b2 b3 b4 b5)
      + twoPow R (-12) * interpC R ph ⟨1, 0, 1, 0⟩ * interpC R ph (Kphi1 b0 b1 b2 b3 b4 b5)
      + twoPow R (-12) * interpC R ph ⟨1, 0, 1, 0⟩ * interpC R ph (Kphi1 b0 b1 b3 b4 b5 b2)
      = 1 := by
  have hw4 := ph_w4 hadd h1
  have hkey := congrArg (interpC R ph) (bss_kernel_identity b0 b1 b2 b3 b4 b5)
  simp only [interpC_add, interpC_mul hw4, interpC_pow hw4, interpC_two] at hkey
  have hb10 : twoPow R (-12) * (2 : R) ^ (10 : ℕ) = twoPow R (-2) := by
    rw [← twoPow_natCast, ← twoPow_add,
      show ((-12 : ℤ) + ((10 : ℕ) : ℤ)) = (-2 : ℤ) from by norm_num]
  have hb7 : twoPow R (-12) * (2 : R) ^ (7 : ℕ) = twoPow R (-5) := by
    rw [← twoPow_natCast, ← twoPow_add,
      show ((-12 : ℤ) + ((7 : ℕ) : ℤ)) = (-5 : ℤ) from by norm_num]
  have hb13 : twoPow R (-12) * (2 : R) ^ (13 : ℕ) = twoPow R 1 := by
    rw [← twoPow_natCast, ← twoPow_add,
      show ((-12 : ℤ) + ((13 : ℕ) : ℤ)) = (1 : ℤ) from by norm_num]
  have hb12 : twoPow R (-12) * (2 : R) ^ (12 : ℕ) = 1 := by
    rw [← twoPow_natCast, ← twoPow_add,
      show ((-12 : ℤ) + ((12 : ℕ) : ℤ)) = (0 : ℤ) from by norm_num, twoPow_zero]
  rw [← hb10, ← hb7, ← hb13]
  linear_combination twoPow R (-12) * hkey + hb12

/-- The two single-family children jointly preserve the tensor evaluation. -/
theorem sem_children_single
    (hadd : ∀ a b : ℚ, ph (a + b) = ph a * ph b) (h1 : ph 1 = -1)
    (g : Graph) (v0 : V) (β : V → Bool)
    (hinv : g.inv) (hv : selZ g v0) :
    sem R ph (Decomposer.replace_t0 g [v0]) β
      + sem R ph (Decomposer.replace_t1 g [v0]) β
      = sem R ph g β := by
  rw [sem_replace_t0 hadd h1 g v0 β hinv hv,
    sem_replace_t1 hadd h1 g v0 β hinv hv]
  unfold sem
  have hcomb : ((asgns g.vertexIds).map (fun σ =>
        twoPow R (-2) * interpC R ph ⟨0, 1, 0, -1⟩ *
          (wt R ph g β σ * interpC R ph (Kt0 (σ v0)))
        + twoPow R (-2) * interpC R ph ⟨1, 0, 1, 0⟩ *
          (wt R ph g β σ * interpC R ph (Kt1 (σ v0))))).sum
      = ((asgns g.vertexIds).map (wt R ph g β)).sum := by
    refine congrArg List.sum (List.map_congr_left ?_)
    intro σ hσ
    have hid := single_scalar_identity hadd h1 (σ v0)
    linear_combination (wt R ph g β σ) * hid
  rw [sum_map_addR, List.sum_map_mul_left, List.sum_map_mul_left] at hcomb
  linear_combination (interpS R ph g.scalar) * hcomb

/-- The two symmetric-family children jointly preserve the tensor
evaluation. -/
theorem sem_children_sym
    (hadd : ∀ a b : ℚ, ph (a + b) = ph a * ph b) (h1 : ph 1 = -1)
    (g : Graph) (v0 v1 : V) (β : V → Bool)
    (hinv : g.inv) (hv0 : selZ g v0) (hv1 : selZ g v1) :
    sem R ph (Decomposer.replace_bell_s g [v0, v1]) β
      + sem R ph (Decomposer.replace_epr g [v0, v1]) β
      = sem R ph g β := by
  rw [sem_replace_bell_s hadd h1 g v0 v1 β hinv hv0 hv1,
    sem_replace_epr hadd h1 g v0 v1 β hinv (by
      intro v hvv
      simp only [List.mem_cons, List.not_mem_nil, or_false] at hvv
      rcases hvv with h | h
      · rw [h]; exact hv0
      · rw [h]; exact hv1)]
  unfold sem
  have hcomb : ((asgns g.vertexIds).map (fun σ =>
        wt R ph g β σ * interpC R ph (Kbell (σ v0) (σ v1))
        + twoPow R (-2) * interpC R ph (Cyc.ompow 1) *
          (wt R ph g β σ * interpC R ph (Kepr (σ v0) (σ v1))))).sum
      = ((asgns g.vertexIds).map (wt R ph g β)).sum := by
    refine congrArg List.sum (List.map_congr_left ?_)
    intro σ hσ
    have hid := sym_scalar_identity hadd h1 (σ v0) (σ v1)
    linear_combination (wt R ph g β σ) * hid
  rw [sum_map_addR, List.sum_map_mul_left] at hcomb
  linear_combination (interpS R ph g.scalar) * hcomb

/-- The seven BSS-family children jointly preserve the tensor evaluation. -/
theorem sem_children_bss
    (hadd : ∀ a b : ℚ, ph (a + b) = ph a * ph b) (h1 : ph 1 = -1)
    (g : Graph) (v0 v1 v2 v3 v4 v5 : V) (β : V → Bool)
    (hinv : g.inv) (hv : ∀ v ∈ [v0, v1, v2, v3, v4, v5], selZ g v) :
    sem R ph (Decomposer.replace_b60 g [v0, v1, v2, v3, v4, v5]) β
      + sem R ph (Decomposer.replace_b66 g [v0, v1, v2, v3, v4, v5]) β
      + sem R ph (Decomposer.replace_e6 g [v0, v1, v2, v3, v4, v5]) β
      + sem R ph (Decomposer.replace_o6 g [v0, v1, v2, v3, v4, v5]) β
      + sem R ph (Decomposer.replace_k6 g [v0, v1, v2, v3, v4, v5]) β
      + sem R ph (Decomposer.replace_phi1 g [v0, v1, v2, v3, v4, v5]) β
      + sem R ph (Decomposer.replace_phi2 g [v0, v1, v2, v3, v4, v5]) β
      = sem R ph g β := by
  rw [sem_replace_b60 hadd h1 g v0 v1 v2 v3 v4 v5 β hinv hv,
    sem_replace_b66 hadd h1 g v0 v1 v2 v3 v4 v5 β hinv hv,
    sem_replace_e6 hadd h1 g v0 v1 v2 v3 v4 v5 β hinv hv,
    sem_replace_o6 hadd h1 g v0 v1 v2 v3 v4 v5 β hinv hv,
    sem_replace_k6 hadd h1 g v0 v1 v2 v3 v4 v5 β hinv hv,
    sem_replace_phi1 hadd h1 g v0 v1 v2 v3 v4 v5 β hinv hv,
    sem_replace_phi2 hadd h1 g v0 v1 v2 v3 v4 v5 β hinv hv]
  unfold sem
  have hcomb : ((asgns g.vertexIds).map (fun σ =>
        twoPow R (-2) * interpC R ph ⟨-1, 0, 1, 1⟩ *
          (wt R ph g β σ * interpC R ph (Kb60 (σ v0) (σ v1) (σ v2) (σ v3) (σ v4) (σ v5)))
        + twoPow R (-2) * interpC R ph ⟨-1, 0, 1, -1⟩ *
          (wt R ph g β σ * interpC R ph (Kb66 (σ v0) (σ v1) (σ v2) (σ v3) (σ v4) (σ v5)))
        + twoPow R (-5) * interpC R ph ⟨0, -1, 0, 0⟩ *
          (wt R ph g β σ * interpC R ph (Ke6 (σ v0) (σ v1) (σ v2) (σ v3) (σ v4) (σ v5)))
        + twoPow R (-5) * interpC R ph ⟨-1, 0, -1, 0⟩ *
          (wt R ph g β σ * interpC R ph (Ko6 (σ v0) (σ v1) (σ v2) (σ v3) (σ v4) (σ v5)))
        + twoPow R 1 * interpC R ph ⟨1, 0, 0, 0⟩ *
          (wt R ph g β σ * interpC R ph (Kk6 (σ v0) (σ v1) (σ v2) (σ v3) (σ v4) (σ v5)))
        + twoPow R (-12) * interpC R ph ⟨1, 0, 1, 0⟩ *
          (wt R ph g β σ * interpC R ph (Kphi1 (σ v0) (σ v1) (σ v2) (σ v3) (σ v4) (σ v5)))
        + twoPow R (-12) * interpC R ph ⟨1, 0, 1, 0⟩ *
          (wt R ph g β σ * interpC R ph (Kphi1 (σ v0) (σ v1) (σ v3) (σ v4) (σ v5) (σ v2))))).sum
      = ((asgns g.vertexIds).map (wt R ph g β)).sum := by
    refine congrArg List.sum (List.map_congr_left ?_)
    intro σ hσ
    have hid := bss_scalar_identity hadd h1 (σ v0) (σ v1) (σ v2) (σ v3) (σ v4) (σ v5)
    linear_combination (wt R ph g β σ) * hid
  rw [sum_map_addR, sum_map_addR, sum_map_addR, sum_map_addR, sum_map_addR,
    sum_map_addR, List.sum_map_mul_left, List.sum_map_mul_left,
    List.sum_map_mul_left, List.sum_map_mul_left, List.sum_map_mul_left,
    List.sum_map_mul_left, List.sum_map_mul_left] at hcomb
  linear_combination (interpS R ph g.scalar) * hcomb

end FamilyAssembly



theorem selZ_mem (g : Graph) (v : V) (h : selZ g v) : v ∈ g.vertexIds := by
  obtain ⟨p, hp, h1, _⟩ := h
  rw [← h1]
  exact List.mem_map_of_mem Prod.fst hp

theorem hasT_mem (g : Graph) (v : V) (h : hasT g v) : v ∈ g.vertexIds := by
  obtain ⟨p, hp, h1, _⟩ := h
  rw [← h1]
  exact List.mem_map_of_mem Prod.fst hp

theorem hasT_selZ (g : Graph) (v : V) (hinv : g.inv) (h : hasT g v) :
    selZ g v := by
  obtain ⟨p, hp, h1, hden⟩ := h
  refine ⟨p, hp, h1, ?_⟩
  cases hty : p.2.ty with
  | Z => rfl
  | B => exact absurd hden (hinv.2.2 p hp hty)

theorem entry_unique (g : Graph) (hnd : g.vertexIds.Nodup)
    {p q : V × VData} (hp : p ∈ g.verts) (hq : q ∈ g.verts)
    (he : p.1 = q.1) : p = q :=
  List.inj_on_of_nodup_map hnd hp hq he

theorem inv_mul_scalar (g : Graph) (s : ScalarN) (h : g.inv) :
    (g.mul_scalar s).inv := h

theorem inv_add_edge (g : Graph) (u v : V) (et : EType) (h : g.inv)
    (hu : u ∈ g.vertexIds) (hv : v ∈ g.vertexIds) :
    (g.add_edge_with_type u v et).inv := by
  obtain ⟨hw, hE, hB⟩ := h
  refine ⟨wfv_add_edge g u v et hw, ?_, hB⟩
  intro e he
  rw [vertexIds_add_edge]
  have he' : e ∈ g.edges ++ [(u, v, et)] := he
  rcases List.mem_append.mp he' with h2 | h2
  · exact hE e h2
  · rw [List.mem_singleton] at h2
    rw [h2]
    exact ⟨hu, hv⟩

theorem inv_add_vertex_Z (g : Graph) (ψ : ℚ) (h : g.inv) :
    ((g.add_vertex_with_phase VType.Z ψ).1).inv := by
  obtain ⟨hw, hE, hB⟩ := h
  refine ⟨wfv_add_vertex g VType.Z ψ hw, ?_, ?_⟩
  · intro e he
    rw [vertexIds_add_vertex]
    have he' : e ∈ g.edges := he
    exact ⟨List.mem_append_left _ (hE e he').1,
      List.mem_append_left _ (hE e he').2⟩
  · intro p hp hBt
    have hp' : p ∈ g.verts ++ [(g.fresh, ⟨VType.Z, ψ⟩)] := hp
    rcases List.mem_append.mp hp' with h2 | h2
    · exact hB p h2 hBt
    · rw [List.mem_singleton] at h2
      rw [h2] at hBt
      exact absurd hBt (by simp)

theorem inv_add_to_phase (g : Graph) (v : V) (δ : ℚ) (hinv : g.inv)
    (hv : selZ g v) : (g.add_to_phase v δ).inv := by
  obtain ⟨hw, hE, hB⟩ := hinv
  refine ⟨wfv_add_to_phase g v δ hw, ?_, ?_⟩
  · intro e he
    rw [vertexIds_add_to_phase]
    exact hE e he
  · intro p hp hBt
    have hp' : p ∈ g.verts.map (fun q =>
        if q.1 = v then (q.1, ⟨q.2.ty, Graph.qadd q.2.phase δ⟩) else q) := hp
    obtain ⟨q, hq, hqe⟩ := List.mem_map.mp hp'
    by_cases hc : q.1 = v
    · obtain ⟨r, hr, hr1, hrZ⟩ := hv
      have hqr : q = r := entry_unique g hw.1 hq hr (by rw [hc, hr1])
      rw [if_pos hc] at hqe
      rw [← hqe] at hBt
      have hqB : q.2.ty = VType.B := hBt
      rw [hqr, hrZ] at hqB
      exact VType.noConfusion hqB
    · rw [if_neg hc] at hqe
      rw [← hqe] at hBt ⊢
      exact hB q hq hBt

theorem inv_foldl_phase (δ : ℚ) :
    ∀ (l : List V) (h : Graph), h.inv → (∀ v ∈ l, selZ h v) →
      (l.foldl (fun h v => h.add_to_phase v δ) h).inv := by
  intro l
  induction l with
  | nil =>
    intro h hi _
    exact hi
  | cons a t ih =>
    intro h hi hsel
    simp only [List.foldl_cons]
    refine ih _ (inv_add_to_phase h a δ hi (hsel a (by simp))) ?_
    intro v hv
    exact selZ_add_to_phase h a δ v (hsel v (List.mem_cons_of_mem a hv))

theorem inv_foldl_pe (w : V) (et : EType) (δ : ℚ) :
    ∀ (l : List V) (h : Graph), h.inv → (∀ v ∈ l, selZ h v) →
      w ∈ h.vertexIds →
      (l.foldl (fun h v =>
        (h.add_to_phase v δ).add_edge_with_type v w et) h).inv := by
  intro l
  induction l with
  | nil =>
    intro h hi _ _
    exact hi
  | cons a t ih =>
    intro h hi hsel hw
    simp only [List.foldl_cons]
    refine ih _ ?_ ?_ ?_
    · refine inv_add_edge _ a w et
        (inv_add_to_phase h a δ hi (hsel a (by simp))) ?_ ?_
      · rw [vertexIds_add_to_phase]
        exact selZ_mem h a (hsel a (by simp))
      · rw [vertexIds_add_to_phase]
        exact hw
    · intro v hv
      exact selZ_add_edge _ _ _ _ _
        (selZ_add_to_phase h a δ v (hsel v (List.mem_cons_of_mem a hv)))
    · rw [vertexIds_add_edge, vertexIds_add_to_phase]
      exact hw

theorem inv_foldl_ep (w : V) (et : EType) (δ : ℚ) :
    ∀ (l : List V) (h : Graph), h.inv → (∀ v ∈ l, selZ h v) →
      w ∈ h.vertexIds →
      (l.foldl (fun h v =>
        (h.add_edge_with_type v w et).add_to_phase v δ) h).inv := by
  intro l
  induction l with
  | nil =>
    intro h hi _ _
    exact hi
  | cons a t ih =>
    intro h hi hsel hw
    simp only [List.foldl_cons]
    refine ih _ ?_ ?_ ?_
    · refine inv_add_to_phase _ a δ
        (inv_add_edge h a w et hi (selZ_mem h a (hsel a (by simp))) hw) ?_
      exact selZ_add_edge _ _ _ _ _ (hsel a (by simp))
    · intro v hv
      exact selZ_add_to_phase _ _ _ _
        (selZ_add_edge _ _ _ _ _ (hsel v (List.mem_cons_of_mem a hv)))
    · rw [vertexIds_add_to_phase, vertexIds_add_edge]
      exact hw

theorem inv_replace_b60 (g : Graph) (v0 v1 v2 v3 v4 v5 : V)
    (hinv : g.inv) (hv : ∀ v ∈ [v0, v1, v2, v3, v4, v5], selZ g v) :
    (Decomposer.replace_b60 g [v0, v1, v2, v3, v4, v5]).inv := by
  unfold Decomposer.replace_b60
  exact inv_foldl_phase _ _ _ (inv_mul_scalar _ _ hinv)
    (fun v hv' => selZ_mul_scalar _ _ _ (hv v hv'))

theorem inv_replace_b66 (g : Graph) (v0 v1 v2 v3 v4 v5 : V)
    (hinv : g.inv) (hv : ∀ v ∈ [v0, v1, v2, v3, v4, v5], selZ g v) :
    (Decomposer.replace_b66 g [v0, v1, v2, v3, v4, v5]).inv := by
  unfold Decomposer.replace_b66
  exact inv_foldl_phase _ _ _ (inv_mul_scalar _ _ hinv)
    (fun v hv' => selZ_mul_scalar _ _ _ (hv v hv'))

theorem inv_replace_e6 (g : Graph) (v0 v1 v2 v3 v4 v5 : V)
    (hinv : g.inv) (hv : ∀ v ∈ [v0, v1, v2, v3, v4, v5], selZ g v) :
    (Decomposer.replace_e6 g [v0, v1, v2, v3, v4, v5]).inv := by
  unfold Decomposer.replace_e6
  refine inv_foldl_pe _ _ _ _ _
    (inv_add_vertex_Z _ _ (inv_mul_scalar _ _ hinv)) ?_ ?_
  · intro v hv'
    exact selZ_add_vertex _ VType.Z 1 _ (selZ_mul_scalar _ _ _ (hv v hv'))
  · rw [vertexIds_add_vertex]
    exact List.mem_append_right _ (List.mem_singleton_self _)

theorem inv_replace_o6 (g : Graph) (v0 v1 v2 v3 v4 v5 : V)
    (hinv : g.inv) (hv : ∀ v ∈ [v0, v1, v2, v3, v4, v5], selZ g v) :
    (Decomposer.replace_o6 g [v0, v1, v2, v3, v4, v5]).inv := by
  unfold Decomposer.replace_o6 Graph.add_vertex
  refine inv_foldl_pe _ _ _ _ _
    (inv_add_vertex_Z _ _ (inv_mul_scalar _ _ hinv)) ?_ ?_
  · intro v hv'
    exact selZ_add_vertex _ VType.Z 0 _ (selZ_mul_scalar _ _ _ (hv v hv'))
  · rw [vertexIds_add_vertex]
    exact List.mem_append_right _ (List.mem_singleton_self _)

theorem inv_replace_k6 (g : Graph) (v0 v1 v2 v3 v4 v5 : V)
    (hinv : g.inv) (hv : ∀ v ∈ [v0, v1, v2, v3, v4, v5], selZ g v) :
    (Decomposer.replace_k6 g [v0, v1, v2, v3, v4, v5]).inv := by
  unfold Decomposer.replace_k6
  refine inv_foldl_pe _ _ _ _ _
    (inv_add_vertex_Z _ _ (inv_mul_scalar _ _ hinv)) ?_ ?_
  · intro v hv'
    exact selZ_add_vertex _ VType.Z (mkRat (-1) 2) _
      (selZ_mul_scalar _ _ _ (hv v hv'))
  · rw [vertexIds_add_vertex]
    exact List.mem_append_right _ (List.mem_singleton_self _)

theorem inv_replace_epr (g : Graph) (v0 v1 : V)
    (hinv : g.inv) (hv : ∀ v ∈ [v0, v1], selZ g v) :
    (Decomposer.replace_epr g [v0, v1]).inv := by
  unfold Decomposer.replace_epr
  refine inv_foldl_ep _ _ _ _ _
    (inv_add_vertex_Z _ _ (inv_mul_scalar _ _ hinv)) ?_ ?_
  · intro v hv'
    exact selZ_add_vertex _ VType.Z 1 _ (selZ_mul_scalar _ _ _ (hv v hv'))
  · rw [vertexIds_add_vertex]
    exact List.mem_append_right _ (List.mem_singleton_self _)

theorem inv_replace_bell_s (g : Graph) (v0 v1 : V)
    (hinv : g.inv) (hv : ∀ v ∈ [v0, v1], selZ g v) :
    (Decomposer.replace_bell_s g [v0, v1]).inv := by
  unfold Decomposer.replace_bell_s Graph.add_edge_smart
  refine inv_add_to_phase _ _ _ (inv_add_to_phase _ _ _
    (inv_add_edge _ _ _ _ hinv
      (selZ_mem g _ (hv v0 (by simp)))
      (selZ_mem g _ (hv v1 (by simp)))) ?_) ?_
  · exact selZ_add_edge _ _ _ _ _ (hv v0 (by simp))
  · exact selZ_add_to_phase _ _ _ _
      (selZ_add_edge _ _ _ _ _ (hv v1 (by simp)))

theorem inv_replace_t0 (g : Graph) (v0 : V)
    (hinv : g.inv) (hv : selZ g v0) :
    (Decomposer.replace_t0 g [v0]).inv := by
  unfold Decomposer.replace_t0 Graph.add_vertex
  refine inv_add_to_phase _ _ _ (inv_add_edge _ _ _ _
    (inv_add_vertex_Z _ _ (inv_mul_scalar _ _ hinv)) ?_ ?_) ?_
  · rw [vertexIds_add_vertex]
    exact List.mem_append_left _ (selZ_mem g _ hv)
  · rw [vertexIds_add_vertex]
    exact List.mem_append_right _ (List.mem_singleton_self _)
  · exact selZ_add_edge _ _ _ _ _
      (selZ_add_vertex _ VType.Z 0 _ (selZ_mul_scalar _ _ _ hv))

theorem inv_replace_t1 (g : Graph) (v0 : V)
    (hinv : g.inv) (hv : selZ g v0) :
    (Decomposer.replace_t1 g [v0]).inv := by
  unfold Decomposer.replace_t1
  refine inv_add_to_phase _ _ _ (inv_add_edge _ _ _ _
    (inv_add_vertex_Z _ _ (inv_mul_scalar _ _ hinv)) ?_ ?_) ?_
  · rw [vertexIds_add_vertex]
    exact List.mem_append_left _ (selZ_mem g _ hv)
  · rw [vertexIds_add_vertex]
    exact List.mem_append_right _ (List.mem_singleton_self _)
  · exact selZ_add_edge _ _ _ _ _
      (selZ_add_vertex _ VType.Z 1 _ (selZ_mul_scalar _ _ _ hv))

theorem inv_replace_phi1 (g : Graph) (v0 v1 v2 v3 v4 v5 : V)
    (hinv : g.inv) (hv : ∀ v ∈ [v0, v1, v2, v3, v4, v5], selZ g v) :
    (Decomposer.replace_phi1 g [v0, v1, v2, v3, v4, v5]).inv := by
  have hvm : ∀ v ∈ [v0, v1, v2, v3, v4, v5], v ∈ g.vertexIds :=
    fun v hvv => selZ_mem g v (hv v hvv)
  unfold Decomposer.replace_phi1 Graph.add_vertex
  simp only [List.getD_cons_zero, List.getD_cons_succ]
  exact (inv_add_edge _ _ _ _ (inv_add_edge _ _ _ _ (inv_add_edge _ _ _ _ (inv_add_edge _ _ _ _ (inv_add_edge _ _ _ _ (inv_add_to_phase _ _ _ (inv_add_to_phase _ _ _ (inv_add_edge _ _ _ _ (inv_add_edge _ _ _ _ (inv_add_vertex_Z _ _ (inv_add_to_phase _ _ _ (inv_add_edge _ _ _ _ (inv_add_edge _ _ _ _ (inv_add_vertex_Z _ _ (inv_add_to_phase _ _ _ (inv_add_edge _ _ _ _ (inv_add_edge _ _ _ _ (inv_add_vertex_Z _ _ (inv_add_to_phase _ _ _ (inv_add_edge _ _ _ _ (inv_add_edge _ _ _ _ (inv_add_vertex_Z _ _ (inv_add_to_phase _ _ _ (inv_add_edge _ _ _ _ (inv_add_edge _ _ _ _ (inv_add_vertex_Z _ _ (inv_mul_scalar _ _ hinv)) (by simp only [vertexIds_add_to_phase, vertexIds_add_edge, vertexIds_add_vertex, vertexIds_mul_scalar]; exact List.mem_append_left _ (hvm v0 (by simp))) (by simp only [vertexIds_add_to_phase, vertexIds_add_edge, vertexIds_add_vertex, vertexIds_mul_scalar]; exact List.mem_append_right _ (List.mem_singleton_self _))) (by simp only [vertexIds_add_to_phase, vertexIds_add_edge, vertexIds_add_vertex, vertexIds_mul_scalar]; exact List.mem_append_right _ (List.mem_singleton_self _)) (by simp only [vertexIds_add_to_phase, vertexIds_add_edge, vertexIds_add_vertex, vertexIds_mul_scalar]; exact List.mem_append_left _ (hvm v5 (by simp)))) (selZ_add_edge _ _ _ _ _ (selZ_add_edge _ _ _ _ _ (selZ_add_vertex _ VType.Z 0 _ (selZ_mul_scalar _ _ _ (hv v0 (by simp)))))))) (by simp only [vertexIds_add_to_phase, vertexIds_add_edge, vertexIds_add_vertex, vertexIds_mul_scalar]; exact List.mem_append_left _ (List.mem_append_left _ (hvm v1 (by simp)))) (by simp only [vertexIds_add_to_phase, vertexIds_add_edge, vertexIds_add_vertex, vertexIds_mul_scalar]; exact List.mem_append_right _ (List.mem_singleton_self _))) (by simp only [vertexIds_add_to_phase, vertexIds_add_edge, vertexIds_add_vertex, vertexIds_mul_scalar]; exact List.mem_append_right _ (List.mem_singleton_self _)) (by simp only [vertexIds_add_to_phase, vertexIds_add_edge, vertexIds_add_vertex, vertexIds_mul_scalar]; exact List.mem_append_left _ (List.mem_append_left _ (hvm v5 (by simp))))) (selZ_add_edge _ _ _ _ _ (selZ_add_edge _ _ _ _ _ (selZ_add_vertex _ VType.Z 0 _ (selZ_add_to_phase _ _ _ _ (selZ_add_edge _ _ _ _ _ (selZ_add_edge _ _ _ _ _ (selZ_add_vertex _ VType.Z 0 _ (selZ_mul_scalar _ _ _ (hv v1 (by simp)))))))))))) (by simp only [vertexIds_add_to_phase, vertexIds_add_edge, vertexIds_add_vertex, vertexIds_mul_scalar]; exact List.mem_append_left _ (List.mem_append_left _ (List.mem_append_left _ (hvm v2 (by simp))))) (by simp only [vertexIds_add_to_phase, vertexIds_add_edge, vertexIds_add_vertex, vertexIds_mul_scalar]; exact List.mem_append_right _ (List.mem_singleton_self _))) (by simp only [vertexIds_add_to_phase, vertexIds_add_edge, vertexIds_add_vertex, vertexIds_mul_scalar]; exact List.mem_append_right _ (List.mem_singleton_self _)) (by simp only [vertexIds_add_to_phase, vertexIds_add_edge, vertexIds_add_vertex, vertexIds_mul_scalar]; exact List.mem_append_left _ (List.mem_append_left _ (List.mem_append_left _ (hvm v5 (by simp)))))) (selZ_add_edge _ _ _ _ _ (selZ_add_edge _ _ _ _ _ (selZ_add_vertex _ VType.Z 0 _ (selZ_add_to_phase _ _ _ _ (selZ_add_edge _ _ _ _ _ (selZ_add_edge _ _ _ _ _ (selZ_add_vertex _ VType.Z 0 _ (selZ_add_to_phase _ _ _ _ (selZ_add_edge _ _ _ _ _ (selZ_add_edge _ _ _ _ _ (selZ_add_vertex _ VType.Z 0 _ (selZ_mul_scalar _ _ _ (hv v2 (by simp)))))))))))))))) (by simp only [vertexIds_add_to_phase, vertexIds_add_edge, vertexIds_add_vertex, vertexIds_mul_scalar]; exact List.mem_append_left _ (List.mem_append_left _ (List.mem_append_left _ (List.mem_append_left _ (hvm v3 (by simp)))))) (by simp only [vertexIds_add_to_phase, vertexIds_add_edge, vertexIds_add_vertex, vertexIds_mul_scalar]; exact List.mem_append_right _ (List.mem_singleton_self _))) (by simp only [vertexIds_add_to_phase, vertexIds_add_edge, vertexIds_add_vertex, vertexIds_mul_scalar]; exact List.mem_append_right _ (List.mem_singleton_self _)) (by simp only [vertexIds_add_to_phase, vertexIds_add_edge, vertexIds_add_vertex, vertexIds_mul_scalar]; exact List.mem_append_left _ (List.mem_append_left _ (List.mem_append_left _ (List.mem_append_left _ (hvm v5 (by simp))))))) (selZ_add_edge _ _ _ _ _ (selZ_add_edge _ _ _ _ _ (selZ_add_vertex _ VType.Z 0 _ (selZ_add_to_phase _ _ _ _ (selZ_add_edge _ _ _ _ _ (selZ_add_edge _ _ _ _ _ (selZ_add_vertex _ VType.Z 0 _ (selZ_add_to_phase _ _ _ _ (selZ_add_edge _ _ _ _ _ (selZ_add_edge _ _ _ _ _ (selZ_add_vertex _ VType.Z 0 _ (selZ_add_to_phase _ _ _ _ (selZ_add_edge _ _ _ _ _ (selZ_add_edge _ _ _ _ _ (selZ_add_vertex _ VType.Z 0 _ (selZ_mul_scalar _ _ _ (hv v3 (by simp)))))))))))))))))))) (by simp only [vertexIds_add_to_phase, vertexIds_add_edge, vertexIds_add_vertex, vertexIds_mul_scalar]; exact List.mem_append_left _ (List.mem_append_left _ (List.mem_append_left _ (List.mem_append_left _ (List.mem_append_left _ (hvm v4 (by simp))))))) (by simp only [vertexIds_add_to_phase, vertexIds_add_edge, vertexIds_add_vertex, vertexIds_mul_scalar]; exact List.mem_append_right _ (List.mem_singleton_self _))) (by simp only [vertexIds_add_to_phase, vertexIds_add_edge, vertexIds_add_vertex, vertexIds_mul_scalar]; exact List.mem_append_right _ (List.mem_singleton_self _)) (by simp only [vertexIds_add_to_phase, vertexIds_add_edge, vertexIds_add_vertex, vertexIds_mul_scalar]; exact List.mem_append_left _ (List.mem_append_left _ (List.mem_append_left _ (List.mem_append_left _ (List.mem_append_left _ (hvm v5 (by simp)))))))) (selZ_add_edge _ _ _ _ _ (selZ_add_edge _ _ _ _ _ (selZ_add_vertex _ VType.Z 0 _ (selZ_add_to_phase _ _ _ _ (selZ_add_edge _ _ _ _ _ (selZ_add_edge _ _ _ _ _ (selZ_add_vertex _ VType.Z 0 _ (selZ_add_to_phase _ _ _ _ (selZ_add_edge _ _ _ _ _ (selZ_add_edge _ _ _ _ _ (selZ_add_vertex _ VType.Z 0 _ (selZ_add_to_phase _ _ _ _ (selZ_add_edge _ _ _ _ _ (selZ_add_edge _ _ _ _ _ (selZ_add_vertex _ VType.Z 0 _ (selZ_add_to_phase _ _ _ _ (selZ_add_edge _ _ _ _ _ (selZ_add_edge _ _ _ _ _ (selZ_add_vertex _ VType.Z 0 _ (selZ_mul_scalar _ _ _ (hv v4 (by simp))))))))))))))))))))))) (selZ_add_to_phase _ _ _ _ (selZ_add_edge _ _ _ _ _ (selZ_add_edge _ _ _ _ _ (selZ_add_vertex _ VType.Z 0 _ (selZ_add_to_phase _ _ _ _ (selZ_add_edge _ _ _ _ _ (selZ_add_edge _ _ _ _ _ (selZ_add_vertex _ VType.Z 0 _ (selZ_add_to_phase _ _ _ _ (selZ_add_edge _ _ _ _ _ (selZ_add_edge _ _ _ _ _ (selZ_add_vertex _ VType.Z 0 _ (selZ_add_to_phase _ _ _ _ (selZ_add_edge _ _ _ _ _ (selZ_add_edge _ _ _ _ _ (selZ_add_vertex _ VType.Z 0 _ (selZ_add_to_phase _ _ _ _ (selZ_add_edge _ _ _ _ _ (selZ_add_edge _ _ _ _ _ (selZ_add_vertex _ VType.Z 0 _ (selZ_mul_scalar _ _ _ (hv v5 (by simp)))))))))))))))))))))))) (by simp only [vertexIds_add_to_phase, vertexIds_add_edge, vertexIds_add_vertex, vertexIds_mul_scalar]; exact List.mem_append_left _ (List.mem_append_left _ (List.mem_append_left _ (List.mem_append_left _ (List.mem_append_right _ (List.mem_singleton_self _)))))) (by simp only [vertexIds_add_to_phase, vertexIds_add_edge, vertexIds_add_vertex, vertexIds_mul_scalar]; exact List.mem_append_left _ (List.mem_append_left _ (List.mem_append_right _ (List.mem_singleton_self _))))) (by simp only [vertexIds_add_to_phase, vertexIds_add_edge, vertexIds_add_vertex, vertexIds_mul_scalar]; exact List.mem_append_left _ (List.mem_append_left _ (List.mem_append_left _ (List.mem_append_left _ (List.mem_append_right _ (List.mem_singleton_self _)))))) (by simp only [vertexIds_add_to_phase, vertexIds_add_edge, vertexIds_add_vertex, vertexIds_mul_scalar]; exact List.mem_append_left _ (List.mem_append_right _ (List.mem_singleton_self _)))) (by simp only [vertexIds_add_to_phase, vertexIds_add_edge, vertexIds_add_vertex, vertexIds_mul_scalar]; exact List.mem_append_left _ (List.mem_append_left _ (List.mem_append_left _ (List.mem_append_right _ (List.mem_singleton_self _))))) (by simp only [vertexIds_add_to_phase, vertexIds_add_edge, vertexIds_add_vertex, vertexIds_mul_scalar]; exact List.mem_append_left _ (List.mem_append_right _ (List.mem_singleton_self _)))) (by simp only [vertexIds_add_to_phase, vertexIds_add_edge, vertexIds_add_vertex, vertexIds_mul_scalar]; exact List.mem_append_left _ (List.mem_append_left _ (List.mem_append_left _ (List.mem_append_right _ (List.mem_singleton_self _))))) (by simp only [vertexIds_add_to_phase, vertexIds_add_edge, vertexIds_add_vertex, vertexIds_mul_scalar]; exact List.mem_append_right _ (List.mem_singleton_self _))) (by simp only [vertexIds_add_to_phase, vertexIds_add_edge, vertexIds_add_vertex, vertexIds_mul_scalar]; exact List.mem_append_left _ (List.mem_append_left _ (List.mem_append_right _ (List.mem_singleton_self _)))) (by simp only [vertexIds_add_to_phase, vertexIds_add_edge, vertexIds_add_vertex, vertexIds_mul_scalar]; exact List.mem_append_right _ (List.mem_singleton_self _)))

theorem inv_replace_phi2 (g : Graph) (v0 v1 v2 v3 v4 v5 : V)
    (hinv : g.inv) (hv : ∀ v ∈ [v0, v1, v2, v3, v4, v5], selZ g v) :
    (Decomposer.replace_phi2 g [v0, v1, v2, v3, v4, v5]).inv := by
  have hre : Decomposer.replace_phi2 g [v0, v1, v2, v3, v4, v5]
      = Decomposer.replace_phi1 g [v0, v1, v3, v4, v5, v2] := rfl
  rw [hre]
  refine inv_replace_phi1 g v0 v1 v3 v4 v5 v2 hinv ?_
  intro v hvv
  refine hv v ?_
  simp only [List.mem_cons, List.not_mem_nil, or_false] at hvv ⊢
  tauto

/-! ### Claim theorems: rewrite identities (C2, C10) -/

/-- C2 counterexample: `replace_phi2` is not `replace_phi1` with positions 2
and 3 swapped — already on six isolated T-vertices the two sides differ (the
swap would send the +3π/4 hub increment to vertex 5, but the source's
permutation sends it to vertex 2). -/
theorem replace_phi2_swap23_counterexample :
    Decomposer.replace_phi2 cexG6 [0, 1, 2, 3, 4, 5] ≠
      Decomposer.replace_phi1 cexG6 [0, 1, 3, 2, 4, 5] := by decide

/-- C2 amended: `replace_phi2` equals `replace_phi1` applied to the input
list reordered as positions `[0, 1, 3, 4, 5, 2]` (position 2 moves to the
end, positions 3–5 shift down), with the same attached-scalar multiplier as
`replace_phi1`; the graph edit is then literally identical, not merely
isomorphic. -/
theorem replace_phi2_eq_phi1_perm (g : Graph) (vs : List V) :
    Decomposer.replace_phi2 g vs =
      Decomposer.replace_phi1 g [vs.getD 0 0, vs.getD 1 0, vs.getD 3 0,
        vs.getD 4 0, vs.getD 5 0, vs.getD 2 0] ∧
    (Decomposer.replace_phi2 g vs).scalar =
      g.scalar * ScalarN.Exact 3 ⟨1, 0, 1, 0⟩ :=
  ⟨rfl, rfl⟩

/-- C10: `replace_bell_s` is the only rewrite identity leaving the attached
scalar unchanged; every other identity multiplies it by a fixed constant
whose value in `ℤ[ω, 1/2]` is not 1. -/
theorem bell_s_only_scalar_neutral_identity :
    (∀ g vs, (Decomposer.replace_bell_s g vs).scalar = g.scalar) ∧
    (∀ g vs, (Decomposer.replace_epr g vs).scalar =
      g.scalar * ScalarN.from_phase (mkRat 1 4)) ∧
    ¬(ScalarN.from_phase (mkRat 1 4)).val_eq_one ∧
    (∀ g vs, (Decomposer.replace_b60 g vs).scalar =
      g.scalar * ScalarN.Exact (-2) ⟨-1, 0, 1, 1⟩) ∧
    ¬(ScalarN.Exact (-2) ⟨-1, 0, 1, 1⟩).val_eq_one ∧
    (∀ g vs, (Decomposer.replace_b66 g vs).scalar =
      g.scalar * ScalarN.Exact (-2) ⟨-1, 0, 1, -1⟩) ∧
    ¬(ScalarN.Exact (-2) ⟨-1, 0, 1, -1⟩).val_eq_one ∧
    (∀ g vs, (Decomposer.replace_e6 g vs).scalar =
      g.scalar * ScalarN.Exact 1 ⟨0, -1, 0, 0⟩) ∧
    ¬(ScalarN.Exact 1 ⟨0, -1, 0, 0⟩).val_eq_one ∧
    (∀ g vs, (Decomposer.replace_o6 g vs).scalar =
      g.scalar * ScalarN.Exact 1 ⟨-1, 0, -1, 0⟩) ∧
    ¬(ScalarN.Exact 1 ⟨-1, 0, -1, 0⟩).val_eq_one ∧
    (∀ g vs, (Decomposer.replace_k6 g vs).scalar =
      g.scalar * ScalarN.Exact 1 ⟨1, 0, 0, 0⟩) ∧
    ¬(ScalarN.Exact 1 ⟨1, 0, 0, 0⟩).val_eq_one ∧
    (∀ g vs, (Decomposer.replace_phi1 g vs).scalar =
      g.scalar * ScalarN.Exact 3 ⟨1, 0, 1, 0⟩) ∧
    (∀ g vs, (Decomposer.replace_phi2 g vs).scalar =
      g.scalar * ScalarN.Exact 3 ⟨1, 0, 1, 0⟩) ∧
    ¬(ScalarN.Exact 3 ⟨1, 0, 1, 0⟩).val_eq_one ∧
    (∀ g vs, (Decomposer.replace_t0 g vs).scalar =
      g.scalar * ScalarN.Exact (-1) ⟨0, 1, 0, -1⟩) ∧
    ¬(ScalarN.Exact (-1) ⟨0, 1, 0, -1⟩).val_eq_one ∧
    (∀ g vs, (Decomposer.replace_t1 g vs).scalar =
      g.scalar * ScalarN.Exact (-1) ⟨1, 0, 1, 0⟩) ∧
    ¬(ScalarN.Exact (-1) ⟨1, 0, 1, 0⟩).val_eq_one ∧
    ScalarN.one.val_eq_one := by
  refine ⟨fun g vs => rfl,
    fun g vs => by
      unfold Decomposer.replace_epr
      refine scalar_foldl ?_ vs _
      intros; rfl, by decide,
    fun g vs => by
      unfold Decomposer.replace_b60
      refine scalar_foldl ?_ (vs.take 6) _
      intros; rfl, by decide,
    fun g vs => by
      unfold Decomposer.replace_b66
      refine scalar_foldl ?_ vs _
      intros; rfl, by decide,
    fun g vs => by
      unfold Decomposer.replace_e6
      refine scalar_foldl ?_ vs _
      intros; rfl, by decide,
    fun g vs => by
      unfold Decomposer.replace_o6
      refine scalar_foldl ?_ vs _
      intros; rfl, by decide,
    fun g vs => by
      unfold Decomposer.replace_k6
      refine scalar_foldl ?_ vs _
      intros; rfl, by decide,
    fun g vs => rfl, fun g vs => rfl, by decide,
    fun g vs => rfl, by decide,
    fun g vs => rfl, by decide, by decide⟩

/-! ### Claim theorems: the upper-bound estimator (C5) -/

/-- C5: `max_terms` returns the sum, over the frontier, of
`7^(T div 6) · 2^((T mod 6) div 2) · (2 if (T mod 6) is odd else 1)` where
`T` is the diagram's T-count. -/
theorem max_terms_formula (d : Decomposer) :
    d.max_terms = (d.stack.map (fun e =>
      7 ^ (e.2.tcount / 6) * 2 ^ (e.2.tcount % 6 / 2) *
        (if e.2.tcount % 6 % 2 = 1 then 2 else 1))).sum := by
  unfold Decomposer.max_terms
  rw [max_terms_foldl, Nat.zero_add]

/-! ### Claim theorems: terminal handling (C8) -/

/-- C8: when the selected-vertex list is empty the popped diagram's scalar is
added to the accumulator, the term count rises by one, the diagram is
archived exactly when archiving is enabled, and the frontier is untouched —
all regardless of whether vertices remain; residual vertices only trigger the
warning condition. -/
theorem decomp_ts_terminal (fsimp : Graph → Graph) (d : Decomposer)
    (depth : ℕ) (g : Graph) :
    Decomposer.decomp_ts fsimp d depth g [] =
      { d with
          scalar := d.scalar + g.scalar
          nterms := d.nterms + 1
          done := if d.save then d.done ++ [g] else d.done } ∧
    (Decomposer.decomp_ts_warns g [] = true ↔ g.num_vertices ≠ 0) := by
  constructor
  · by_cases h : d.save <;> simp [Decomposer.decomp_ts, h]
  · simp [Decomposer.decomp_ts_warns]

/-! ### Claim theorems: empty-frontier pop (C9) -/

/-- C9: popping from an empty frontier is the only fatal case — `pop_graph`
and `decomp_top` fail exactly on an empty stack and succeed otherwise, a
non-empty stack lets `decomp_all` take a successful `decomp_top` step (so its
guard keeps the fatal branch unreachable), and `decomp_until_depth` returns
immediately on an empty stack without popping. -/
theorem pop_empty_fatal :
    (∀ d : Decomposer, d.pop_graph = none ↔ d.stack = []) ∧
    (∀ (fsimp : Graph → Graph) (rands : List ℕ) (d : Decomposer),
      Decomposer.decomp_top fsimp rands d = none ↔ d.stack = []) ∧
    (∀ (fsimp : Graph → Graph) (oracle : ℕ → List ℕ) (n : ℕ)
      (d : Decomposer), d.stack ≠ [] →
      ∃ d1, Decomposer.decomp_top fsimp (oracle 0) d = some d1 ∧
        Decomposer.decomp_all_fuel fsimp oracle (n + 1) d =
          Decomposer.decomp_all_fuel fsimp (fun k => oracle (k + 1)) n d1) ∧
    (∀ (fsimp : Graph → Graph) (oracle : ℕ → List ℕ) (n depth : ℕ)
      (d : Decomposer), d.stack = [] →
      Decomposer.decomp_until_depth_fuel fsimp oracle n depth d = d) := by
  refine ⟨pop_graph_eq_none_iff, decomp_top_eq_none_iff,
    fun fsimp oracle n d h => ?_, fun fsimp oracle n depth d h => ?_⟩
  · have hne : ¬d.stack.isEmpty := by simpa [List.isEmpty_iff] using h
    cases htop : Decomposer.decomp_top fsimp (oracle 0) d with
    | none =>
      exact absurd ((decomp_top_eq_none_iff fsimp (oracle 0) d).mp htop) h
    | some d1 =>
      refine ⟨d1, rfl, ?_⟩
      show (if d.stack.isEmpty then d
        else match Decomposer.decomp_top fsimp (oracle 0) d with
          | some d2 =>
            Decomposer.decomp_all_fuel fsimp (fun k => oracle (k + 1)) n d2
          | none => d) = _
      rw [if_neg hne, htop]
  · cases n with
    | zero => rfl
    | succ n => unfold Decomposer.decomp_until_depth_fuel; rw [h]

/-! ### Claim theorems: split/merge round-trip (C3) -/

theorem dropLast_append_drop {α : Type} (l : List α) :
    l.dropLast ++ l.drop (l.length - 1) = l := by
  induction l with
  | nil => rfl
  | cons e tail ih =>
    cases tail with
    | nil => rfl
    | cons f rest =>
      simp only [List.dropLast_cons₂, List.length_cons, List.cons_append]
      rw [show (rest.length + 1 + 1 - 1) = (f :: rest).length - 1 + 1 by
        simp, List.drop_succ_cons, ih]

theorem flatten_map_singleton {α β : Type} (f : α → β) (l : List α) :
    ((l.map (fun e => [f e])).reverse).flatten = (l.map f).reverse := by
  induction l with
  | nil => rfl
  | cons e tail ih => simp [ih]

theorem split_aux_eq (d : Decomposer) (l : List (ℕ × Graph)) :
    Decomposer.split_aux d l =
      (l.dropLast.map (fun e =>
        { Decomposer.new e.2 with
            save := d.save
            random_t := d.random_t
            simp_func := d.simp_func }))
        ++ [{ d with stack := l.drop (l.length - 1) }] := by
  induction l with
  | nil => simp [Decomposer.split_aux]
  | cons e tail ih =>
    cases tail with
    | nil => simp [Decomposer.split_aux]
    | cons f rest =>
      rw [Decomposer.split_aux, ih]
      simp [List.dropLast_cons₂]

theorem merge_foldl_nterms (xs : List Decomposer) (acc : Decomposer) :
    (xs.foldl Decomposer.merge_step acc).nterms =
      acc.nterms + (xs.map (fun x => x.nterms)).sum := by
  induction xs generalizing acc with
  | nil => simp
  | cons x xs ih =>
    rw [List.foldl_cons, ih]
    simp [Decomposer.merge_step]
    omega

theorem merge_foldl_done (xs : List Decomposer) (acc : Decomposer) :
    (xs.foldl Decomposer.merge_step acc).done =
      acc.done ++ (xs.map (fun x => x.done)).flatten := by
  induction xs generalizing acc with
  | nil => simp
  | cons x xs ih =>
    rw [List.foldl_cons, ih]
    simp [Decomposer.merge_step]

theorem merge_foldl_stack (xs : List Decomposer) (acc : Decomposer) :
    (xs.foldl Decomposer.merge_step acc).stack =
      acc.stack ++ (xs.map (fun x => x.stack)).flatten := by
  induction xs generalizing acc with
  | nil => simp
  | cons x xs ih =>
    rw [List.foldl_cons, ih]
    simp [Decomposer.merge_step]

theorem merge_foldl_flags (xs : List Decomposer) (acc : Decomposer) :
    (xs.foldl Decomposer.merge_step acc).simp_func = acc.simp_func ∧
    (xs.foldl Decomposer.merge_step acc).random_t = acc.random_t ∧
    (xs.foldl Decomposer.merge_step acc).save = acc.save := by
  induction xs generalizing acc with
  | nil => exact ⟨rfl, rfl, rfl⟩
  | cons x xs ih =>
    rw [List.foldl_cons]
    exact ih (Decomposer.merge_step acc x)

theorem merge_foldl_scalar {R : Type} [CommRing R] [Invertible (2 : R)]
    (ph : ℚ → R) (xs : List Decomposer) (acc : Decomposer) :
    interpS R ph (xs.foldl Decomposer.merge_step acc).scalar =
      interpS R ph acc.scalar +
        (xs.map (fun x => interpS R ph x.scalar)).sum := by
  induction xs generalizing acc with
  | nil => simp
  | cons x xs ih =>
    rw [List.foldl_cons, ih]
    show _ + _ = _
    rw [show (Decomposer.merge_step acc x).scalar = acc.scalar + x.scalar
      from rfl]
    rw [interpS_add]
    simp [add_assoc]

/-- C3 counterexample: the round trip is not the identity on the frontier
multiset — `split` resets the depth of every entry except the last one to 0,
so a frontier whose first entry has depth 1 comes back with depth 0. -/
theorem split_merge_round_trip_counterexample :
    ¬((Decomposer.merge (Decomposer.split cexD3)).stack.Perm cexD3.stack) := by
  decide

/-- C3 amended: `merge ∘ split` preserves the scalar accumulator (as a ring
value), the term count, the archive, the configuration flags and the multiset
of frontier diagrams; the depths of all but the parent's last entry are reset
to 0 (and only that much is lost).  The last decomposer of `split` carries the
parent's accumulator state with its final frontier entry; every other one
starts with an empty accumulator and inherits only the configuration flags
and one frontier diagram at depth 0. -/
theorem split_merge_round_trip (d : Decomposer) :
    ((Decomposer.merge (Decomposer.split d)).stack.map Prod.snd).Perm
      (d.stack.map Prod.snd) ∧
    (Decomposer.merge (Decomposer.split d)).nterms = d.nterms ∧
    (Decomposer.merge (Decomposer.split d)).done = d.done ∧
    (Decomposer.merge (Decomposer.split d)).simp_func = d.simp_func ∧
    (Decomposer.merge (Decomposer.split d)).random_t = d.random_t ∧
    (Decomposer.merge (Decomposer.split d)).save = d.save ∧
    (∀ (R : Type) [CommRing R] [Invertible (2 : R)] (ph : ℚ → R),
      interpS R ph (Decomposer.merge (Decomposer.split d)).scalar =
        interpS R ph d.scalar) ∧
    (Decomposer.split d).getLast? =
      some { d with stack := d.stack.drop (d.stack.length - 1) } ∧
    (∀ c ∈ (Decomposer.split d).dropLast,
      c.scalar = ScalarN.zero ∧ c.nterms = 0 ∧ c.done = [] ∧
      c.simp_func = d.simp_func ∧ c.random_t = d.random_t ∧
      c.save = d.save ∧ ∃ e ∈ d.stack, c.stack = [(0, e.2)]) := by
  have hsp : Decomposer.split d =
      (d.stack.dropLast.map (fun e =>
        { Decomposer.new e.2 with
            save := d.save
            random_t := d.random_t
            simp_func := d.simp_func }))
        ++ [{ d with stack := d.stack.drop (d.stack.length - 1) }] :=
    split_aux_eq d d.stack
  have hrev : (Decomposer.split d).reverse =
      { d with stack := d.stack.drop (d.stack.length - 1) } ::
        (d.stack.dropLast.map (fun e =>
          { Decomposer.new e.2 with
              save := d.save
              random_t := d.random_t
              simp_func := d.simp_func })).reverse := by
    rw [hsp]
    simp
  have hmg : Decomposer.merge (Decomposer.split d) =
      ((d.stack.dropLast.map (fun e =>
          { Decomposer.new e.2 with
              save := d.save
              random_t := d.random_t
              simp_func := d.simp_func })).reverse).foldl
        Decomposer.merge_step
        { d with stack := d.stack.drop (d.stack.length - 1) } := by
    unfold Decomposer.merge
    rw [hrev]
  refine ⟨?_, ?_, ?_, ?_, ?_, ?_, ?_, ?_, ?_⟩
  · rw [hmg, merge_foldl_stack]
    have hfl : ∀ L : List (ℕ × Graph),
        (((L.map (fun e =>
          { Decomposer.new e.2 with
              save := d.save
              random_t := d.random_t
              simp_func := d.simp_func })).reverse).map
            (fun x => x.stack)).flatten =
          (L.map (fun e => ((0 : ℕ), e.2))).reverse := by
      intro L
      induction L with
      | nil => rfl
      | cons e tail ih =>
        simp only [List.map_cons, List.reverse_cons, List.map_append,
          List.flatten_append, ih, List.flatten_cons, List.flatten_nil,
          List.append_nil]
        rfl
    rw [hfl]
    have hmap2 : ∀ L : List (ℕ × Graph),
        ((L.map (fun e => ((0 : ℕ), e.2))).reverse).map Prod.snd =
          (L.map Prod.snd).reverse := by
      intro L
      induction L with
      | nil => rfl
      | cons e tail ih => simp [ih]
    rw [List.map_append, hmap2]
    show ((d.stack.drop (d.stack.length - 1)).map Prod.snd ++
        (d.stack.dropLast.map Prod.snd).reverse).Perm
      (d.stack.map Prod.snd)
    refine List.Perm.trans
      (List.Perm.append_left _ (List.reverse_perm _)) ?_
    refine List.Perm.trans List.perm_append_comm ?_
    rw [← List.map_append, dropLast_append_drop]
  · rw [hmg, merge_foldl_nterms]
    have : ∀ x ∈ ((d.stack.dropLast.map (fun e =>
        { Decomposer.new e.2 with
            save := d.save
            random_t := d.random_t
            simp_func := d.simp_func })).reverse).map
          (fun x => x.nterms), x = 0 := by
      intro x hx
      simp only [List.mem_map, List.mem_reverse] at hx
      obtain ⟨c, ⟨e, -, rfl⟩, rfl⟩ := hx
      rfl
    rw [List.sum_eq_zero this]
    rfl
  · rw [hmg, merge_foldl_done]
    have : ∀ x ∈ ((d.stack.dropLast.map (fun e =>
        { Decomposer.new e.2 with
            save := d.save
            random_t := d.random_t
            simp_func := d.simp_func })).reverse).map
          (fun x => x.done), x = [] := by
      intro x hx
      simp only [List.mem_map, List.mem_reverse] at hx
      obtain ⟨c, ⟨e, -, rfl⟩, rfl⟩ := hx
      rfl
    rw [List.flatten_eq_nil_iff.mpr this, List.append_nil]
  · rw [hmg]; exact (merge_foldl_flags _ _).1
  · rw [hmg]; exact (merge_foldl_flags _ _).2.1
  · rw [hmg]; exact (merge_foldl_flags _ _).2.2
  · intro R iR i2 ph
    rw [hmg, merge_foldl_scalar]
    have : ∀ x ∈ ((d.stack.dropLast.map (fun e =>
        { Decomposer.new e.2 with
            save := d.save
            random_t := d.random_t
            simp_func := d.simp_func })).reverse).map
          (fun x => interpS R ph x.scalar), x = 0 := by
      intro x hx
      simp only [List.mem_map, List.mem_reverse] at hx
      obtain ⟨c, ⟨e, -, rfl⟩, rfl⟩ := hx
      exact interpS_zero ph
    rw [List.sum_eq_zero this, add_zero]
  · rw [hsp, List.getLast?_concat]
  · intro c hc
    rw [hsp, List.dropLast_concat] at hc
    obtain ⟨e, he, rfl⟩ := List.mem_map.mp hc
    exact ⟨rfl, rfl, rfl, rfl, rfl, rfl, e,
      List.Sublist.mem he (List.dropLast_sublist d.stack), rfl⟩

/-- C9 witness: a decomposer with one empty diagram on its frontier takes a
successful `decomp_top` step inside `decomp_all`. -/
theorem pop_empty_fatal_witness :
    Decomposer.new cexGE ≠ Decomposer.empty ∧
    ∃ d1, Decomposer.decomp_top id ((fun _ : ℕ => ([] : List ℕ)) 0)
        (Decomposer.new cexGE) = some d1 ∧
      Decomposer.decomp_all_fuel id (fun _ => []) (0 + 1)
          (Decomposer.new cexGE) =
        Decomposer.decomp_all_fuel id
          (fun k => (fun _ : ℕ => ([] : List ℕ)) (k + 1)) 0 d1 :=
  ⟨by decide,
   pop_empty_fatal.2.2.1 id (fun _ => []) 0 (Decomposer.new cexGE)
     (by decide)⟩

/-! ### Claim theorems: the dispatch rule (C4) -/

/-- C4: `decomp_ts` dispatches on the length `n` of the selected-vertex
list — the 7-child BSS family exactly at `n = 6`, the 2-child symmetric
family (on the first two selected vertices) for `2 ≤ n ≤ 5`, the 2-child
single family at `n = 1`, and the terminal fold at `n = 0`; all children are
appended at the back of the frontier carrying depth `depth + 1`. -/
theorem decomp_ts_dispatch (fsimp : Graph → Graph) :
    (∀ (d : Decomposer) (depth : ℕ) (g : Graph) (ts : List V),
      ts.length = 6 →
      Decomposer.decomp_ts fsimp d depth g ts =
        { d with stack := d.stack ++
          ([Decomposer.replace_b60, Decomposer.replace_b66,
            Decomposer.replace_e6, Decomposer.replace_o6,
            Decomposer.replace_k6, Decomposer.replace_phi1,
            Decomposer.replace_phi2].map (fun f =>
            (depth + 1, Decomposer.simp_app fsimp d.simp_func (f g ts)))) } ∧
      (Decomposer.decomp_ts fsimp d depth g ts).stack.length =
        d.stack.length + 7) ∧
    (∀ (d : Decomposer) (depth : ℕ) (g : Graph) (ts : List V),
      2 ≤ ts.length → ts.length ≤ 5 →
      Decomposer.decomp_ts fsimp d depth g ts =
        { d with stack := d.stack ++
          ([Decomposer.replace_bell_s, Decomposer.replace_epr].map (fun f =>
            (depth + 1, Decomposer.simp_app fsimp d.simp_func (f g (ts.take 2))))) } ∧
      (Decomposer.decomp_ts fsimp d depth g ts).stack.length =
        d.stack.length + 2) ∧
    (∀ (d : Decomposer) (depth : ℕ) (g : Graph) (ts : List V),
      ts.length = 1 →
      Decomposer.decomp_ts fsimp d depth g ts =
        { d with stack := d.stack ++
          ([Decomposer.replace_t0, Decomposer.replace_t1].map (fun f =>
            (depth + 1, Decomposer.simp_app fsimp d.simp_func (f g ts)))) } ∧
      (Decomposer.decomp_ts fsimp d depth g ts).stack.length =
        d.stack.length + 2) ∧
    (∀ (d : Decomposer) (depth : ℕ) (g : Graph) (ts : List V),
      ts.length = 0 →
      (Decomposer.decomp_ts fsimp d depth g ts).stack = d.stack ∧
      (Decomposer.decomp_ts fsimp d depth g ts).nterms = d.nterms + 1) := by
  refine ⟨fun d depth g ts h6 => ?_, fun d depth g ts h2 h5 => ?_,
    fun d depth g ts h1 => ?_, fun d depth g ts h0 => ?_⟩
  · have he : Decomposer.decomp_ts fsimp d depth g ts =
        Decomposer.push_bss_decomp fsimp d (depth + 1) g ts := by
      unfold Decomposer.decomp_ts
      rw [if_pos h6]
    rw [he, Decomposer.push_bss_decomp, push_decomp_eq]
    exact ⟨rfl, by simp⟩
  · have hn6 : ¬ts.length = 6 := by omega
    have he : Decomposer.decomp_ts fsimp d depth g ts =
        Decomposer.push_sym_decomp fsimp d (depth + 1) g (ts.take 2) := by
      unfold Decomposer.decomp_ts
      rw [if_neg hn6, if_pos h2]
    rw [he, Decomposer.push_sym_decomp, push_decomp_eq]
    exact ⟨rfl, by simp⟩
  · have hn6 : ¬ts.length = 6 := by omega
    have hn2 : ¬2 ≤ ts.length := by omega
    have he : Decomposer.decomp_ts fsimp d depth g ts =
        Decomposer.push_single_decomp fsimp d (depth + 1) g ts := by
      unfold Decomposer.decomp_ts
      rw [if_neg hn6, if_neg hn2, if_pos h1]
    rw [he, Decomposer.push_single_decomp, push_decomp_eq]
    exact ⟨rfl, by simp⟩
  · have hn6 : ¬ts.length = 6 := by omega
    have hn2 : ¬2 ≤ ts.length := by omega
    have hn1 : ¬ts.length = 1 := by omega
    have he : Decomposer.decomp_ts fsimp d depth g ts =
        (if d.save
          then { d with
            scalar := d.scalar + g.scalar
            nterms := d.nterms + 1
            done := d.done ++ [g] }
          else { d with
            scalar := d.scalar + g.scalar
            nterms := d.nterms + 1 }) := by
      unfold Decomposer.decomp_ts
      rw [if_neg hn6, if_neg hn2, if_neg hn1]
    rw [he]
    split_ifs <;> exact ⟨rfl, rfl⟩

/-- C4 witness: the four dispatch branches exercised on six, three, one and
zero selected vertices of the six-T diagram. -/
theorem decomp_ts_dispatch_witness :
    (Decomposer.decomp_ts id (Decomposer.new cexG6) 0 cexG6
        [0, 1, 2, 3, 4, 5]).stack.length =
      (Decomposer.new cexG6).stack.length + 7 ∧
    (Decomposer.decomp_ts id (Decomposer.new cexG6) 0 cexG6
        [0, 1, 2]).stack.length =
      (Decomposer.new cexG6).stack.length + 2 ∧
    (Decomposer.decomp_ts id (Decomposer.new cexG6) 0 cexG6
        [0]).stack.length =
      (Decomposer.new cexG6).stack.length + 2 ∧
    (Decomposer.decomp_ts id (Decomposer.new cexG6) 0 cexG6 []).stack =
      (Decomposer.new cexG6).stack :=
  ⟨((decomp_ts_dispatch id).1 (Decomposer.new cexG6) 0 cexG6
      [0, 1, 2, 3, 4, 5] (by decide)).2,
   ((decomp_ts_dispatch id).2.1 (Decomposer.new cexG6) 0 cexG6
      [0, 1, 2] (by decide) (by decide)).2,
   ((decomp_ts_dispatch id).2.2.1 (Decomposer.new cexG6) 0 cexG6
      [0] (by decide)).2,
   ((decomp_ts_dispatch id).2.2.2 (Decomposer.new cexG6) 0 cexG6
      [] (by decide)).1⟩

/-! ### Claim theorems: max-terms monotonicity counterexample (C7) -/

theorem tcount_dropT_le (h : Graph) : (dropT h).tcount ≤ h.tcount :=
  List.Sublist.length_le
    (List.Sublist.filter _ (List.eraseP_sublist h.verts))

theorem tcount_cexSimp_le (h : Graph) : (cexSimp h).tcount ≤ h.tcount := by
  unfold cexSimp
  split_ifs
  · exact tcount_dropT_le h
  · exact le_refl _

/-- C7 counterexample: a simplification hook that never increases the
T-count (it deletes one T-vertex from every 6-T diagram) still makes one
`decomp_top` step increase `max_terms` — the twelve-T diagram starts with
bound `7·7 = 49`, its seven 6-T children are simplified to 5-T children, and
the bound becomes `7·8 = 56`, because the per-diagram bound formula is not
monotone in the T-count (`B(5) = 8 > 7 = B(6)`). -/
theorem max_terms_monotone_counterexample :
    (∀ h : Graph, (cexSimp h).tcount ≤ h.tcount) ∧
    Decomposer.max_terms cexD7 <
      ((Decomposer.decomp_top cexSimp [] cexD7).map
        Decomposer.max_terms).getD 0 :=
  ⟨tcount_cexSimp_le, by decide⟩


/-! ### Claim theorems: termination (C6) -/

/-- C6: termination of `decomp_all`.  Under the spec's preconditions on the
simplification hook — it introduces no new T-vertices and preserves the
diagram representation invariant — every pop-and-reduce step strictly
decreases the measure `stack_fuel` (the sum of `8^T` over the frontier) and
replaces the popped diagram only by children of strictly smaller T-count
(6, 2 or 1 fewer, per family); consequently `decomp_all`, run with fuel
`stack_fuel`, empties the frontier, i.e. the source's while-loop
terminates. -/
theorem decomp_all_terminates (fsimp : Graph → Graph) (oracle : ℕ → List ℕ)
    (d : Decomposer) (hT : ∀ h, (fsimp h).tcount ≤ h.tcount)
    (hW : ∀ h, h.wfv → (fsimp h).wfv) (hwf : d.wfv_stack) :
    (∀ d', Decomposer.decomp_top fsimp (oracle 0) d = some d' →
      d'.stack_fuel < d.stack_fuel ∧
      ∃ e ch, d.stack.getLast? = some e ∧
        d'.stack = d.stack.dropLast ++ ch ∧
        ∀ c ∈ ch, c.2.tcount < e.2.tcount) ∧
    (Decomposer.decomp_all_fuel fsimp oracle d.stack_fuel d).stack = [] := by
  constructor
  · intro d' h
    obtain ⟨h1, h2, h3⟩ := decomp_top_step fsimp hT hW (oracle 0) d d' hwf h
    exact ⟨h1, h3⟩
  · exact decomp_all_fuel_empties fsimp hT hW d.stack_fuel oracle d hwf
      le_rfl

/-- C6 witness: the hook preconditions and the frontier invariant are
satisfied by the identity hook on the six-T seed, and running the loop with
fuel `stack_fuel` indeed empties its frontier. -/
theorem decomp_all_terminates_witness :
    (Decomposer.decomp_all_fuel id (fun _ => [])
      (Decomposer.new cexG6).stack_fuel (Decomposer.new cexG6)).stack
      = [] :=
  (decomp_all_terminates id (fun _ => []) (Decomposer.new cexG6)
    (fun h => le_refl _) (fun h hw => hw) (by decide)).2


/-- C7 amended: one pop-and-reduce step never increases `max_terms`,
provided the simplification hook preserves the T-count of each child exactly
(with the merely non-increasing hook of the claim's precondition the bound
can grow, because the per-diagram bound is not monotone in the T-count:
dropping a child from 6 to 5 T-vertices raises its bound from 7 to 8). -/
theorem max_terms_monotone_exact (fsimp : Graph → Graph)
    (hTe : ∀ h, (fsimp h).tcount = h.tcount) (rands : List ℕ)
    (d d' : Decomposer) (hwf : d.wfv_stack)
    (htop : Decomposer.decomp_top fsimp rands d = some d') :
    d'.max_terms ≤ d.max_terms := by
  unfold Decomposer.decomp_top at htop
  cases hgl : d.stack.getLast? with
  | none =>
    rw [hgl] at htop
    exact absurd htop (by simp)
  | some e =>
    rw [hgl] at htop
    have hd' : Decomposer.decomp_ts fsimp
        { d with stack := d.stack.dropLast }
        e.1 e.2 (if d.random_t then Decomposer.random_ts e.2 rands
          else Decomposer.first_ts e.2) = d' := by
      injection htop
    have hnel : d.stack ≠ [] := by
      intro h0
      rw [h0] at hgl
      simp at hgl
    have hee : d.stack.getLast hnel = e := by
      have hgl2 := List.getLast?_eq_getLast d.stack hnel
      rw [hgl2] at hgl
      exact Option.some.inj hgl
    have hmem : e ∈ d.stack := hee ▸ List.getLast_mem hnel
    have hg : e.2.wfv := hwf e hmem
    have hsel : good_sel e.2
        (if d.random_t then Decomposer.random_ts e.2 rands
          else Decomposer.first_ts e.2) := by
      by_cases hr : d.random_t
      · rw [if_pos hr]
        exact random_ts_good e.2 hg.1 rands
      · rw [if_neg hr]
        exact first_ts_good e.2 hg.1
    obtain ⟨ch, hst, hsum⟩ := decomp_ts_max_sum fsimp hTe
      { d with stack := d.stack.dropLast } e.1 e.2 _ hg hsel
    rw [hd'] at hst
    have hsplit : d.stack = d.stack.dropLast ++ [e] := by
      have h1 := List.dropLast_append_getLast hnel
      rw [hee] at h1
      exact h1.symm
    rw [max_terms_sum, max_terms_sum, hst]
    conv_rhs => rw [hsplit]
    rw [List.map_append, List.sum_append, List.map_append, List.sum_append]
    refine Nat.add_le_add_left ?_ _
    simpa using hsum

/-- C7 amended witness: with the identity hook (which preserves T-counts
exactly) one step on the six-T seed does not increase `max_terms`. -/
theorem max_terms_monotone_exact_witness :
    ((Decomposer.decomp_top id [] (Decomposer.new cexG6)).getD
      Decomposer.empty).max_terms ≤ (Decomposer.new cexG6).max_terms :=
  max_terms_monotone_exact id (fun h => rfl) [] (Decomposer.new cexG6) _
    (by decide) (by decide)

end Quizx
